import Mathlib

/-!
Verification of the voxel-shooter core (octree voxel store, face merger,
lightmap allocator, server hit handling, bakery worker scheduling, wire
framing, and player physics) against its natural-language specification.

The definitions below are shallow embeddings of the Rust sources:

  * `scathanna_core/src/game/voxelstore/{node,voxels,cuboid,cube}.rs`
  * `scathanna_core/src/game/voxel_world/{join_tiles,lightmap_allocator,bakery}.rs`
  * `scathanna_core/src/game/game_state/server_state.rs`
  * `scathanna_core/src/game/net/wireformat.rs`
  * `scathanna_core/src/game/physics/skeleton.rs`

Machine integers (`i32`, `u32`) are modelled as `Int`/`Nat`; none of the
embedded operations can overflow 32 bits on the inputs covered by the
claims.  Node sizes, which in the source are powers of two (`self_size`),
are tracked by their exponent `n` with `self_size = 2^n`.
-/

set_option maxHeartbeats 1000000
set_option maxRecDepth 2048

namespace Scathanna

/-- Integer 3-vector, mirroring `ivec3` from the `vector` crate. -/
structure IVec3 where
  x : Int
  y : Int
  z : Int
deriving DecidableEq, Repr

namespace IVec3

def add (a b : IVec3) : IVec3 := ⟨a.x + b.x, a.y + b.y, a.z + b.z⟩

def sub (a b : IVec3) : IVec3 := ⟨a.x - b.x, a.y - b.y, a.z - b.z⟩

def neg (a : IVec3) : IVec3 := ⟨-a.x, -a.y, -a.z⟩

/-- Scalar multiplication `v * s` (the source multiplies `dir * child_size`). -/
def smul (a : IVec3) (s : Int) : IVec3 := ⟨a.x * s, a.y * s, a.z * s⟩

def zero : IVec3 := ⟨0, 0, 0⟩

end IVec3

/-- Voxel type id.  The source uses a `u8` newtype `VoxelType(pub u8)`;
no arithmetic is ever performed on it, so we model it as `Nat`.
`0` is `VoxelType::EMPTY`. -/
abbrev VoxelType := Nat

/-- Half-open integer box `[min, max)`, mirroring `Cuboid` in `cuboid.rs`. -/
structure Cuboid where
  min : IVec3
  max : IVec3
deriving DecidableEq, Repr

namespace Cuboid

/-- `Cuboid::cube(min, size)`: cubic range of side `size`. -/
def cube (min : IVec3) (size : Int) : Cuboid :=
  ⟨min, min.add ⟨size, size, size⟩⟩

/-- `Cuboid::translate`. -/
def translate (c : Cuboid) (delta : IVec3) : Cuboid :=
  ⟨c.min.add delta, c.max.add delta⟩

/-- `Cuboid::intersect`: componentwise max of mins, min of maxes. -/
def intersect (a b : Cuboid) : Cuboid :=
  ⟨⟨Max.max a.min.x b.min.x, Max.max a.min.y b.min.y, Max.max a.min.z b.min.z⟩,
   ⟨Min.min a.max.x b.max.x, Min.min a.max.y b.max.y, Min.min a.max.z b.max.z⟩⟩

/-- `Cuboid::is_empty`. -/
def isEmpty (c : Cuboid) : Bool :=
  c.min.x ≥ c.max.x || c.min.y ≥ c.max.y || c.min.z ≥ c.max.z

/-- `Cuboid::contains`. -/
def containsP (c : Cuboid) (p : IVec3) : Bool :=
  p.x ≥ c.min.x && p.y ≥ c.min.y && p.z ≥ c.min.z &&
  p.x < c.max.x && p.y < c.max.y && p.z < c.max.z

/-- `Cuboid::contains_range`. -/
def containsR (a b : Cuboid) : Bool :=
  a.min.x ≤ b.min.x && a.min.y ≤ b.min.y && a.min.z ≤ b.min.z &&
  a.max.x ≥ b.max.x && a.max.y ≥ b.max.y && a.max.z ≥ b.max.z

end Cuboid

/-- Aligned cubic range, mirroring `Cube` in `cube.rs` (position + side
length; the side is a power of two and the position is aligned to it). -/
structure Cube where
  position : IVec3
  size : Int
deriving DecidableEq, Repr

namespace Cube

def translate (c : Cube) (delta : IVec3) : Cube := ⟨c.position.add delta, c.size⟩

def min (c : Cube) : IVec3 := c.position

def max (c : Cube) : IVec3 := c.position.add ⟨c.size, c.size, c.size⟩

/-- Unit positions inside the cube, as a `Cuboid` membership test. -/
def containsP (c : Cube) (p : IVec3) : Bool :=
  (Cuboid.cube c.position c.size).containsP p

end Cube

/-- `CubeType`: summary of a cube's contents (`cubetype.rs`). -/
inductive CubeType where
  | Uniform (v : VoxelType)
  | Mixed
deriving DecidableEq, Repr

/-- Octree node (`node.rs`).  `Composite` stores its eight children in the
order of `Node::CHILD_POS`: index `i` has offset bits
`(x, y, z) = (i&1, (i>>1)&1, (i>>2)&1)`. -/
inductive Node where
  | uniform (v : VoxelType)
  | composite (c0 c1 c2 c3 c4 c5 c6 c7 : Node)
deriving DecidableEq, Repr

namespace Node

/-- `Node::CHILD_POS` as a function of the child index. -/
def childPos (i : Fin 8) : IVec3 :=
  ⟨(i.val % 2 : Nat), (i.val / 2 % 2 : Nat), (i.val / 4 : Nat)⟩

/-- Child accessor by `CHILD_POS` index. -/
def child (n : Node) (i : Fin 8) : Node :=
  match n with
  | uniform v => uniform v
  | composite c0 c1 c2 c3 c4 c5 c6 c7 =>
    match i with
    | 0 => c0 | 1 => c1 | 2 => c2 | 3 => c3
    | 4 => c4 | 5 => c5 | 6 => c6 | 7 => c7

/-- Build a composite node from a child-index function. -/
def mkComp (f : Fin 8 → Node) : Node :=
  composite (f 0) (f 1) (f 2) (f 3) (f 4) (f 5) (f 6) (f 7)

/-- `Node::ensure_composite`: promote a `Uniform` to a `Composite` of eight
equal children; leave a `Composite` unchanged. -/
def ensureComposite (n : Node) : Node :=
  match n with
  | uniform v => composite (uniform v) (uniform v) (uniform v) (uniform v)
      (uniform v) (uniform v) (uniform v) (uniform v)
  | c => c

/-- The collapse step at the end of `Node::set_range`: if `children[0]` is
`Uniform(v)` and all eight children equal `Uniform(v)`, replace the node by
`Uniform(v)`. -/
def simplify (n : Node) : Node :=
  match n with
  | composite (uniform v) c1 c2 c3 c4 c5 c6 c7 =>
    if c1 = uniform v ∧ c2 = uniform v ∧ c3 = uniform v ∧ c4 = uniform v ∧
       c5 = uniform v ∧ c6 = uniform v ∧ c7 = uniform v
    then uniform v else n
  | n => n

/-- `Node::set_range(self_size, range, value)` with `self_size = 2^n`.
If `range` covers the node exactly the node becomes `Uniform(value)`;
otherwise (then necessarily `self_size > 1`) the node is promoted to a
composite, the range is intersected with each child octant and recursed,
and finally the collapse check runs.  The `n = 0` fallthrough is
unreachable under the function's preconditions (`range` nonempty and
contained in the node) and returns the node unchanged. -/
def set_range (n : Nat) (range : Cuboid) (value : VoxelType) (node : Node) : Node :=
  if range = Cuboid.cube IVec3.zero (2 ^ n) then
    uniform value
  else
    match n with
    | 0 => node
    | m + 1 =>
      simplify <| mkComp fun i =>
        let cpos := (childPos i).smul (2 ^ m)
        let inter := (Cuboid.cube cpos (2 ^ m)).intersect range
        if inter.isEmpty then node.ensureComposite.child i
        else (node.ensureComposite.child i).set_range m (inter.translate cpos.neg) value

/-- The child-array index with bit layout `z*4 + y*2 + x`
(`child_idx = child_dir.z << 2 | child_dir.y << 1 | child_dir.x`). -/
def bitIdx : Bool → Bool → Bool → Fin 8
  | false, false, false => 0
  | true,  false, false => 1
  | false, true,  false => 2
  | true,  true,  false => 3
  | false, false, true  => 4
  | true,  false, true  => 5
  | false, true,  true  => 6
  | true,  true,  true  => 7

/-- `Node::query_cube(self_size, range)` with `self_size = 2^n`.
On a composite: if the queried cube is the whole node return `Mixed`, else
recurse into the child octant selected by testing one bit
(`(v & child_size) != 0`) of the cube's position.  A composite with
`n = 0` cannot occur in well-formed trees; we return `Mixed` there. -/
def query_cube (n : Nat) (range : Cube) (node : Node) : CubeType :=
  match node, n with
  | uniform v, _ => CubeType.Uniform v
  | composite _ _ _ _ _ _ _ _, 0 => CubeType.Mixed
  | composite c0 c1 c2 c3 c4 c5 c6 c7, m + 1 =>
    if range.size = 2 ^ (m + 1) then CubeType.Mixed
    else
      let mask : Int := 2 ^ m
      let bx : Bool := range.position.x.land mask ≠ 0
      let by' : Bool := range.position.y.land mask ≠ 0
      let bz : Bool := range.position.z.land mask ≠ 0
      -- child_idx = z-bit << 2 | y-bit << 1 | x-bit
      let idx := bitIdx bx by' bz
      let childRange := range.translate
        ((IVec3.mk (cond bx 1 0) (cond by' 1 0) (cond bz 1 0)).smul mask).neg
      ((composite c0 c1 c2 c3 c4 c5 c6 c7).child idx).query_cube m childRange

/-- Semantic child selector: the octant of `p` inside a node of size
`2^(m+1)` (proof-side helper; coincides with the bit test of
`query_cube` for in-range positions). -/
def semIdx (m : Nat) (p : IVec3) : Fin 8 :=
  bitIdx (decide ((2:Int)^m ≤ p.x)) (decide ((2:Int)^m ≤ p.y)) (decide ((2:Int)^m ≤ p.z))

/-- Semantic value of the voxel at local position `p` in a node of size
`2^n` (proof-side helper; not part of the source). -/
def atPos : Nat → IVec3 → Node → VoxelType
  | _, _, uniform v => v
  | 0, _, _ => 0
  | m + 1, p, node =>
    (node.child (semIdx m p)).atPos m (p.sub ((childPos (semIdx m p)).smul (2 ^ m)))

/-- Structural well-formedness at size `2^n`: composites only occur at
positive size and never hold eight identical `Uniform` children (the
invariant `set_range` maintains through its collapse step). -/
def wfB : Nat → Node → Bool
  | _, uniform _ => true
  | 0, composite _ _ _ _ _ _ _ _ => false
  | m + 1, composite c0 c1 c2 c3 c4 c5 c6 c7 =>
    c0.wfB m && c1.wfB m && c2.wfB m && c3.wfB m &&
    c4.wfB m && c5.wfB m && c6.wfB m && c7.wfB m &&
    !(match c0 with
      | uniform v =>
        decide (c1 = uniform v) && decide (c2 = uniform v) && decide (c3 = uniform v) &&
        decide (c4 = uniform v) && decide (c5 = uniform v) && decide (c6 = uniform v) &&
        decide (c7 = uniform v)
      | composite _ _ _ _ _ _ _ _ => false)

end Node

/-- The list of integers produced by `let mut x = min; while x < max { push x; x += step }`
(the loops of `Cuboid::iter_by`).  The iteration count is
`⌈(max - min) / step⌉ = (max - min + step - 1) / step` (zero when `max ≤ min`). -/
def stride (min max : Int) (step : Int) : List Int :=
  (List.range ((max - min + step - 1) / step).toNat).map fun i => min + i * step

/-- `Cuboid::iter_by(step)`: positions inside the cuboid with stride `step`;
`z` is the outer loop, then `y`, then `x`. -/
def Cuboid.iterBy (c : Cuboid) (step : Int) : List IVec3 :=
  (stride c.min.z c.max.z step).flatMap fun z =>
    (stride c.min.y c.max.y step).flatMap fun y =>
      (stride c.min.x c.max.x step).map fun x => IVec3.mk x y z

/-- `Voxels` (`voxels.rs`): a map from aligned cell origins to octree cells.
The `HashMap<ivec3, Arc<Node>>` is modelled as an association list with
distinct keys; `Arc` sharing (copy-on-write) is irrelevant to values. -/
structure Voxels where
  cells : List (IVec3 × Node)
deriving DecidableEq, Repr

namespace Voxels

/-- `Voxels::LOG_CELL_SIZE = 6`, `CELL_SIZE = 64`. -/
def LOG_CELL_SIZE : Nat := 6

def CELL_SIZE : Int := 64

def empty : Voxels := ⟨[]⟩

/-- `self.cells.get(&pos)` on the association list. -/
def getCell (w : Voxels) (pos : IVec3) : Option Node :=
  (w.cells.find? fun kv => kv.1 = pos).map Prod.snd

/-- `self.cells.entry(pos).or_default()` followed by an in-place mutation
`f` of the entry: update the value if the key is present, otherwise insert
`f default` (`Node::default() = Uniform(0)`). -/
def updateCell (w : Voxels) (pos : IVec3) (f : Node → Node) : Voxels :=
  if w.cells.any fun kv => kv.1 = pos then
    ⟨w.cells.map fun kv => if kv.1 = pos then (kv.1, f kv.2) else kv⟩
  else
    ⟨w.cells ++ [(pos, f (Node.uniform 0))]⟩

/-- `Voxels::align_down`: `i & CELL_MASK` with `CELL_MASK = !(64 - 1)`,
i.e. clear the low six bits.  For two's-complement integers this equals
subtracting the nonnegative remainder modulo 64 (proved in
`int_land_neg64` below against the bitwise form). -/
def align_down (i : Int) : Int := i - i % 64

/-- `Voxels::align_up`. -/
def align_up (i : Int) : Int :=
  if align_down i = i then i else align_down (i + CELL_SIZE)

/-- `Voxels::aligned_hull`. -/
def aligned_hull (range : Cuboid) : Cuboid :=
  let min := IVec3.mk (align_down range.min.x) (align_down range.min.y) (align_down range.min.z)
  let max := IVec3.mk (align_up range.max.x) (align_up range.max.y) (align_up range.max.z)
  if range.isEmpty then ⟨min, min⟩ else ⟨min, max⟩

/-- `Voxels::set_range(range, value)`: per cell of the aligned hull,
intersect with the cell, translate into the cell's frame, and write into
the (possibly fresh) cell node. -/
def set_range (w : Voxels) (range : Cuboid) (value : VoxelType) : Voxels :=
  ((aligned_hull range).iterBy CELL_SIZE).foldl
    (fun w cellPos =>
      let cellRange := Cuboid.cube cellPos CELL_SIZE
      let overlap := range.intersect cellRange
      let internal := overlap.translate cellPos.neg
      w.updateCell cellPos fun node => node.set_range LOG_CELL_SIZE internal value)
    w

/-- `Voxels::set_voxel`. -/
def set_voxel (w : Voxels) (pos : IVec3) (value : VoxelType) : Voxels :=
  w.set_range (Cuboid.cube pos 1) value

/-- `Voxels::query_cube`.  The source panics when `cube.size() > CELL_SIZE`;
all uses below stay within that bound.  An absent cell reads as
`Uniform(EMPTY)`. -/
def query_cube (w : Voxels) (cube : Cube) : CubeType :=
  let cellPos := IVec3.mk (align_down cube.position.x) (align_down cube.position.y)
    (align_down cube.position.z)
  match w.getCell cellPos with
  | none => CubeType.Uniform 0
  | some node => node.query_cube LOG_CELL_SIZE (cube.translate cellPos.neg)

/-- `Voxels::at`: query a unit cube.  The `Mixed` branch is
`unreachable!()` in the source (a unit cube always reads `Uniform`); we
return `0` there. -/
def at_ (w : Voxels) (pos : IVec3) : VoxelType :=
  match w.query_cube (Cube.mk pos 1) with
  | CubeType.Uniform v => v
  | CubeType.Mixed => 0

end Voxels

/-! ### Bitwise bridging lemmas

`Voxels::align_down` computes `i & CELL_MASK` (`CELL_MASK = !(64-1)`);
the embedding uses the arithmetic form `i - i.emod 64`.  The lemmas below
prove the two agree on all two's-complement integers, and characterise
the `(v & child_size) != 0` test of `Node::query_cube`. -/

theorem nat_testBit_64mul (m i : Nat) :
    (64 * (m / 64)).testBit i = (decide (6 ≤ i) && m.testBit i) := by
  have h1 : 64 * (m / 64) = (m >>> 6) <<< 6 := by
    rw [Nat.shiftLeft_eq, Nat.shiftRight_eq_div_pow]
    ring_nf
  rw [h1, Nat.testBit_shiftLeft, Nat.testBit_shiftRight]
  by_cases h : 6 ≤ i
  · have h2 : 6 + (i - 6) = i := by omega
    simp [h, h2]
  · simp [h]

theorem nat_ldiff_63 (m : Nat) : Nat.ldiff m 63 = 64 * (m / 64) := by
  apply Nat.eq_of_testBit_eq
  intro i
  rw [Nat.testBit_ldiff, nat_testBit_64mul]
  have h63 : (63 : Nat) = 2 ^ 6 - 1 := by norm_num
  rw [h63, Nat.testBit_two_pow_sub_one]
  by_cases h : 6 ≤ i
  · simp [h]
  · simp [h]
    omega

theorem nat_div_64_pow (q s i : Nat) (hs : s < 64) (hi : 6 ≤ i) :
    (64 * q + s) / 2 ^ i = q / 2 ^ (i - 6) := by
  have hp : (2 : Nat) ^ i = 64 * 2 ^ (i - 6) := by
    have h2 : i = 6 + (i - 6) := by omega
    rw [h2, pow_add]
    norm_num
  rw [hp, ← Nat.div_div_eq_div_mul]
  congr 1
  omega

theorem nat_lor_63 (m : Nat) : Nat.lor m 63 = 64 * (m / 64) + 63 := by
  apply Nat.eq_of_testBit_eq
  intro i
  show (m ||| 63).testBit i = _
  rw [Nat.testBit_lor]
  rw [Nat.testBit_to_div_mod, Nat.testBit_to_div_mod, Nat.testBit_to_div_mod]
  by_cases h : 6 ≤ i
  · have e1 : (64 * (m / 64) + 63) / 2 ^ i = m / 64 / 2 ^ (i - 6) :=
      nat_div_64_pow _ _ _ (by omega) h
    have e2 : m / 2 ^ i = m / 64 / 2 ^ (i - 6) := by
      have h3 := nat_div_64_pow (m / 64) (m % 64) i (by omega) h
      rw [← h3]
      congr 1
      omega
    have e3 : (63 : Nat) / 2 ^ i = 0 := by
      apply Nat.div_eq_of_lt
      calc (63 : Nat) < 64 := by norm_num
        _ = 2 ^ 6 := by norm_num
        _ ≤ 2 ^ i := Nat.pow_le_pow_right (by norm_num) h
    rw [e1, e2, e3]
    simp
  · have hi : i < 6 := by omega
    interval_cases i <;> simp <;> omega

/-- The source form of `align_down` (`i & !(64-1)`, two's complement)
agrees with the embedding's `i - i.emod 64`. -/
theorem int_land_neg64 : ∀ i : Int, Int.land i (-64) = Voxels.align_down i
  | Int.ofNat m => by
    show Int.ofNat (Nat.ldiff m 63) = _
    rw [nat_ldiff_63]
    unfold Voxels.align_down
    simp only [Int.ofNat_eq_coe]
    push_cast
    omega
  | Int.negSucc m => by
    show Int.negSucc (Nat.lor m 63) = _
    rw [nat_lor_63]
    unfold Voxels.align_down
    simp only [Int.negSucc_eq]
    push_cast
    omega

/-- `(x & 2^m) != 0` reads bit `m`; for `0 ≤ x < 2^(m+1)` it is exactly
the comparison `2^m ≤ x`. -/
theorem int_land_two_pow (m : Nat) (x : Int) (h0 : 0 ≤ x) (h1 : x < 2 ^ (m + 1)) :
    (Int.land x (2 ^ m) ≠ 0) ↔ (2 : Int) ^ m ≤ x := by
  obtain ⟨a, rfl⟩ := Int.eq_ofNat_of_zero_le h0
  have hK : 0 < 2 ^ m := Nat.pos_pow_of_pos m (by norm_num)
  have ha : a < 2 ^ (m + 1) := by exact_mod_cast h1
  have hcast : ((2 : Int) ^ m) = ((2 ^ m : Nat) : Int) := by push_cast; ring
  rw [hcast]
  have hland : Int.land (a : Int) ((2 ^ m : Nat) : Int) = ((a &&& 2 ^ m : Nat) : Int) := rfl
  rw [hland, Nat.and_two_pow]
  have hgoal : ((a.testBit m).toNat * 2 ^ m ≠ 0 ↔ 2 ^ m ≤ a) →
      ((((a.testBit m).toNat * 2 ^ m : Nat) : Int) ≠ 0 ↔ ((2 ^ m : Nat) : Int) ≤ (a : Int)) := by
    intro h
    constructor
    · intro hne
      exact_mod_cast h.mp (by exact_mod_cast hne)
    · intro hle
      exact_mod_cast h.mpr (by exact_mod_cast hle)
  apply hgoal
  have hdivlt : a / 2 ^ m < 2 := by
    apply (Nat.div_lt_iff_lt_mul hK).mpr
    calc a < 2 ^ (m + 1) := ha
      _ = 2 * 2 ^ m := by ring
  cases htb : a.testBit m
  · simp only [Bool.toNat_false, Nat.zero_mul, ne_eq, not_true_eq_false, false_iff, not_le]
    by_contra hle
    push_neg at hle
    have h1le : 1 ≤ a / 2 ^ m := (Nat.one_le_div_iff hK).mpr hle
    have hone : a / 2 ^ m = 1 := Nat.le_antisymm (Nat.lt_succ_iff.mp hdivlt) h1le
    rw [Nat.testBit_to_div_mod, hone] at htb
    simp at htb
  · rw [Nat.testBit_to_div_mod] at htb
    have h2 : a / 2 ^ m % 2 = 1 := by simpa using htb
    have h1le : 1 ≤ a / 2 ^ m := Nat.one_le_iff_ne_zero.mpr (by
      intro hz
      rw [hz] at h2
      simp at h2)
    have hle := (Nat.one_le_div_iff hK).mp h1le
    simp only [Bool.toNat_true, one_mul]
    constructor
    · intro _
      exact hle
    · intro _
      exact hK.ne'

/-! ### Cuboid geometry lemmas -/

theorem Cuboid.containsP_iff {c : Cuboid} {p : IVec3} :
    c.containsP p = true ↔
      c.min.x ≤ p.x ∧ c.min.y ≤ p.y ∧ c.min.z ≤ p.z ∧
      p.x < c.max.x ∧ p.y < c.max.y ∧ p.z < c.max.z := by
  simp only [Cuboid.containsP, Bool.and_eq_true, decide_eq_true_eq, ge_iff_le]
  tauto

theorem Cuboid.isEmpty_true_iff {c : Cuboid} :
    c.isEmpty = true ↔ c.max.x ≤ c.min.x ∨ c.max.y ≤ c.min.y ∨ c.max.z ≤ c.min.z := by
  simp only [Cuboid.isEmpty, Bool.or_eq_true, decide_eq_true_eq, ge_iff_le]
  tauto

theorem Cuboid.isEmpty_false_iff {c : Cuboid} :
    c.isEmpty = false ↔ c.min.x < c.max.x ∧ c.min.y < c.max.y ∧ c.min.z < c.max.z := by
  rw [← Bool.not_eq_true, Cuboid.isEmpty_true_iff]
  omega

theorem Cuboid.containsR_iff {a b : Cuboid} :
    a.containsR b = true ↔
      a.min.x ≤ b.min.x ∧ a.min.y ≤ b.min.y ∧ a.min.z ≤ b.min.z ∧
      b.max.x ≤ a.max.x ∧ b.max.y ≤ a.max.y ∧ b.max.z ≤ a.max.z := by
  simp only [Cuboid.containsR, Bool.and_eq_true, decide_eq_true_eq, ge_iff_le]
  tauto

theorem Cuboid.containsP_intersect {a b : Cuboid} {p : IVec3} :
    (a.intersect b).containsP p = true ↔ (a.containsP p = true ∧ b.containsP p = true) := by
  simp only [Cuboid.containsP_iff, Cuboid.intersect]
  omega

theorem Cuboid.containsP_translate {c : Cuboid} {d p : IVec3} :
    (c.translate d).containsP p = true ↔ c.containsP (p.sub d) = true := by
  simp only [Cuboid.containsP_iff, Cuboid.translate, IVec3.add, IVec3.sub]
  omega

theorem Cuboid.isEmpty_translate {c : Cuboid} {d : IVec3} :
    (c.translate d).isEmpty = c.isEmpty := by
  cases h : c.isEmpty
  · rw [Cuboid.isEmpty_false_iff] at h ⊢
    simp only [Cuboid.translate, IVec3.add]
    omega
  · rw [Cuboid.isEmpty_true_iff] at h ⊢
    simp only [Cuboid.translate, IVec3.add]
    omega

theorem Cuboid.isEmpty_false_of_containsP {c : Cuboid} {p : IVec3}
    (h : c.containsP p = true) : c.isEmpty = false := by
  rw [Cuboid.containsP_iff] at h
  rw [Cuboid.isEmpty_false_iff]
  omega

theorem Cuboid.containsR_intersect_left {a b : Cuboid} :
    a.containsR (a.intersect b) = true := by
  simp only [Cuboid.containsR_iff, Cuboid.intersect]
  omega

theorem Cuboid.containsR_translate {a b : Cuboid} {d : IVec3} :
    (a.translate d).containsR (b.translate d) = true ↔ a.containsR b = true := by
  simp only [Cuboid.containsR_iff, Cuboid.translate, IVec3.add]
  omega

theorem Cuboid.translate_cube {p : IVec3} {s : Int} {d : IVec3} :
    (Cuboid.cube p s).translate d = Cuboid.cube (p.add d) s := by
  simp only [Cuboid.cube, Cuboid.translate, IVec3.add, Cuboid.mk.injEq, IVec3.mk.injEq]
  exact ⟨trivial, by ring, by ring, by ring⟩

/-! ### Node child and semantics lemmas -/

theorem Node.child_mkComp (f : Fin 8 → Node) (i : Fin 8) : (Node.mkComp f).child i = f i := by
  fin_cases i <;> rfl

theorem Node.child_const (a : Node) (i : Fin 8) :
    (Node.composite a a a a a a a a).child i = a := by
  fin_cases i <;> rfl

theorem Node.child_ensureComposite (n : Node) (i : Fin 8) :
    n.ensureComposite.child i = n.child i := by
  cases n with
  | uniform v =>
    show (Node.composite (Node.uniform v) (Node.uniform v) (Node.uniform v) (Node.uniform v)
      (Node.uniform v) (Node.uniform v) (Node.uniform v) (Node.uniform v)).child i
      = (Node.uniform v).child i
    rw [Node.child_const]
    rfl
  | composite c0 c1 c2 c3 c4 c5 c6 c7 => rfl

theorem Node.atPos_uniform (n : Nat) (p : IVec3) (v : VoxelType) :
    (Node.uniform v).atPos n p = v := by
  cases n <;> rfl

theorem Node.atPos_succ (m : Nat) (p : IVec3) (n : Node) :
    n.atPos (m + 1) p
      = (n.child (Node.semIdx m p)).atPos m
          (p.sub ((Node.childPos (Node.semIdx m p)).smul (2 ^ m))) := by
  cases n with
  | uniform v =>
    rw [Node.atPos_uniform]
    show _ = (Node.uniform v).atPos m _
    rw [Node.atPos_uniform]
  | composite c0 c1 c2 c3 c4 c5 c6 c7 => rfl

theorem Node.atPos_ensureComposite (m : Nat) (p : IVec3) (n : Node) :
    n.ensureComposite.atPos (m + 1) p = n.atPos (m + 1) p := by
  rw [Node.atPos_succ, Node.atPos_succ, Node.child_ensureComposite]

theorem Node.atPos_simplify (m : Nat) (p : IVec3) (n : Node) :
    n.simplify.atPos (m + 1) p = n.atPos (m + 1) p := by
  cases n with
  | uniform v => rfl
  | composite c0 c1 c2 c3 c4 c5 c6 c7 =>
    cases c0 with
    | composite d0 d1 d2 d3 d4 d5 d6 d7 => rfl
    | uniform v =>
      show (if c1 = Node.uniform v ∧ c2 = Node.uniform v ∧ c3 = Node.uniform v ∧
            c4 = Node.uniform v ∧ c5 = Node.uniform v ∧ c6 = Node.uniform v ∧
            c7 = Node.uniform v
            then Node.uniform v else _).atPos (m + 1) p = _
      split
      · next h =>
        obtain ⟨h1, h2, h3, h4, h5, h6, h7⟩ := h
        subst h1 h2 h3 h4 h5 h6 h7
        rw [Node.atPos_uniform, Node.atPos_succ, Node.child_const, Node.atPos_uniform]
      · rfl

/-! ### Octant decomposition lemmas -/

/-- Position inside the local frame of a node of size `2^n`. -/
def inCube (n : Nat) (p : IVec3) : Prop :=
  (Cuboid.cube IVec3.zero (2 ^ n)).containsP p = true

theorem inCube_iff {n : Nat} {p : IVec3} :
    inCube n p ↔ 0 ≤ p.x ∧ 0 ≤ p.y ∧ 0 ≤ p.z ∧
      p.x < 2 ^ n ∧ p.y < 2 ^ n ∧ p.z < 2 ^ n := by
  unfold inCube
  rw [Cuboid.containsP_iff]
  simp only [Cuboid.cube, IVec3.zero, IVec3.add]
  omega

theorem IVec3.zero_add (d : IVec3) : IVec3.zero.add d = d := by
  simp only [IVec3.add, IVec3.zero]
  cases d
  simp

theorem IVec3.add_sub_cancel (r d : IVec3) : (r.add d).sub d = r := by
  simp only [IVec3.add, IVec3.sub]
  cases r
  simp only [IVec3.mk.injEq]
  omega

/-- The child octant of index `i` as a cuboid. -/
def childCub (m : Nat) (i : Fin 8) : Cuboid :=
  Cuboid.cube ((Node.childPos i).smul (2 ^ m)) (2 ^ m)

theorem childCub_eq_translate (m : Nat) (i : Fin 8) :
    childCub m i = (Cuboid.cube IVec3.zero (2 ^ m)).translate ((Node.childPos i).smul (2 ^ m)) := by
  rw [childCub, Cuboid.translate_cube, IVec3.zero_add]

theorem Node.childPos_bitIdx (bx by' bz : Bool) :
    Node.childPos (Node.bitIdx bx by' bz) = ⟨cond bx 1 0, cond by' 1 0, cond bz 1 0⟩ := by
  cases bx <;> cases by' <;> cases bz <;> rfl

/-- A point of the parent cube lies in the octant selected by `semIdx`. -/
theorem mem_childCub_semIdx (m : Nat) (p : IVec3) (hp : inCube (m + 1) p) :
    (childCub m (Node.semIdx m p)).containsP p = true := by
  rw [inCube_iff] at hp
  have hpow : (2 : Int) ^ (m + 1) = 2 * 2 ^ m := by ring
  unfold Node.semIdx
  by_cases hx : (2 : Int) ^ m ≤ p.x <;> by_cases hy : (2 : Int) ^ m ≤ p.y <;>
    by_cases hz : (2 : Int) ^ m ≤ p.z <;>
  · first
      | rw [decide_eq_true hx]
      | rw [decide_eq_false hx]
    first
      | rw [decide_eq_true hy]
      | rw [decide_eq_false hy]
    first
      | rw [decide_eq_true hz]
      | rw [decide_eq_false hz]
    rw [Cuboid.containsP_iff]
    simp only [childCub, Cuboid.cube, IVec3.add, IVec3.smul, Node.childPos_bitIdx,
      cond_true, cond_false]
    omega

/-- A point lies in at most one octant: membership pins down `semIdx`. -/
theorem semIdx_eq_of_mem (m : Nat) (p : IVec3) (i : Fin 8)
    (hp : inCube (m + 1) p) (hmem : (childCub m i).containsP p = true) :
    i = Node.semIdx m p := by
  have hK : (0 : Int) < 2 ^ m := by positivity
  have hsem := mem_childCub_semIdx m p hp
  rw [Cuboid.containsP_iff] at hmem hsem
  simp only [childCub, Cuboid.cube, IVec3.add, IVec3.smul] at hmem hsem
  by_contra hne
  -- two distinct octants are disjoint: some coordinate bit differs
  have hbits : Node.childPos i ≠ Node.childPos (Node.semIdx m p) := by
    intro hcp
    apply hne
    have h8 : ∀ a b : Fin 8, Node.childPos a = Node.childPos b → a = b := by
      decide
    exact h8 _ _ hcp
  rcases hx : Node.childPos i with ⟨ix, iy, iz⟩
  rcases hy : Node.childPos (Node.semIdx m p) with ⟨jx, jy, jz⟩
  have hvals : (ix = 0 ∨ ix = 1) ∧ (iy = 0 ∨ iy = 1) ∧ (iz = 0 ∨ iz = 1) := by
    have : ∀ a : Fin 8, (Node.childPos a).x = 0 ∨ (Node.childPos a).x = 1 := by decide
    have h2 : ∀ a : Fin 8, (Node.childPos a).y = 0 ∨ (Node.childPos a).y = 1 := by decide
    have h3 : ∀ a : Fin 8, (Node.childPos a).z = 0 ∨ (Node.childPos a).z = 1 := by decide
    refine ⟨?_, ?_, ?_⟩
    · have := this i
      rw [hx] at this
      exact this
    · have := h2 i
      rw [hx] at this
      exact this
    · have := h3 i
      rw [hx] at this
      exact this
  have hvals2 : (jx = 0 ∨ jx = 1) ∧ (jy = 0 ∨ jy = 1) ∧ (jz = 0 ∨ jz = 1) := by
    have h1 : ∀ a : Fin 8, (Node.childPos a).x = 0 ∨ (Node.childPos a).x = 1 := by decide
    have h2 : ∀ a : Fin 8, (Node.childPos a).y = 0 ∨ (Node.childPos a).y = 1 := by decide
    have h3 : ∀ a : Fin 8, (Node.childPos a).z = 0 ∨ (Node.childPos a).z = 1 := by decide
    refine ⟨?_, ?_, ?_⟩
    · have := h1 (Node.semIdx m p)
      rw [hy] at this
      exact this
    · have := h2 (Node.semIdx m p)
      rw [hy] at this
      exact this
    · have := h3 (Node.semIdx m p)
      rw [hy] at this
      exact this
  have hdiff : ix ≠ jx ∨ iy ≠ jy ∨ iz ≠ jz := by
    by_contra hc
    push_neg at hc
    apply hbits
    rw [hx, hy, hc.1, hc.2.1, hc.2.2]
  simp only [hx, hy] at hmem hsem
  rcases hvals with ⟨hix, hiy, hiz⟩
  rcases hvals2 with ⟨hjx, hjy, hjz⟩
  rcases hdiff with h | h | h <;> rcases hix with rfl | rfl <;> rcases hjx with rfl | rfl <;>
    rcases hiy with rfl | rfl <;> rcases hjy with rfl | rfl <;>
    rcases hiz with rfl | rfl <;> rcases hjz with rfl | rfl <;> omega

/-- Translating a point of an octant back to the child-local frame. -/
theorem sub_childPos_mem (m : Nat) (p : IVec3) (i : Fin 8)
    (hmem : (childCub m i).containsP p = true) :
    inCube m (p.sub ((Node.childPos i).smul (2 ^ m))) := by
  rw [childCub_eq_translate, Cuboid.containsP_translate] at hmem
  exact hmem

/-- Lifting a child-local point into the parent frame. -/
theorem mem_childCub_add (m : Nat) (r : IVec3) (i : Fin 8) (hr : inCube m r) :
    (childCub m i).containsP (r.add ((Node.childPos i).smul (2 ^ m))) = true := by
  rw [childCub_eq_translate, Cuboid.containsP_translate, IVec3.add_sub_cancel]
  exact hr

theorem inCube_succ_of_mem_childCub (m : Nat) (p : IVec3) (i : Fin 8)
    (hmem : (childCub m i).containsP p = true) : inCube (m + 1) p := by
  have hK : (0 : Int) < 2 ^ m := by positivity
  have hpow : (2 : Int) ^ (m + 1) = 2 * 2 ^ m := by ring
  rw [Cuboid.containsP_iff] at hmem
  simp only [childCub, Cuboid.cube, IVec3.add, IVec3.smul] at hmem
  have h1 : ∀ a : Fin 8, (Node.childPos a).x = 0 ∨ (Node.childPos a).x = 1 := by decide
  have h2 : ∀ a : Fin 8, (Node.childPos a).y = 0 ∨ (Node.childPos a).y = 1 := by decide
  have h3 : ∀ a : Fin 8, (Node.childPos a).z = 0 ∨ (Node.childPos a).z = 1 := by decide
  rw [inCube_iff]
  rcases h1 i with hx | hx <;> rcases h2 i with hy | hy <;> rcases h3 i with hz | hz <;>
    rw [hx, hy, hz] at hmem <;> omega

/-- `atPos` restricted to one octant reads through `child`. -/
theorem Node.atPos_octant (m : Nat) (i : Fin 8) (r : IVec3) (n : Node) (hr : inCube m r) :
    n.atPos (m + 1) (r.add ((Node.childPos i).smul (2 ^ m))) = (n.child i).atPos m r := by
  have hmem := mem_childCub_add m r i hr
  have hp := inCube_succ_of_mem_childCub m _ i hmem
  have hidx := semIdx_eq_of_mem m _ i hp hmem
  rw [Node.atPos_succ, ← hidx, IVec3.add_sub_cancel]

theorem IVec3.add_neg_cancel (d : IVec3) : d.add d.neg = IVec3.zero := by
  simp only [IVec3.add, IVec3.neg, IVec3.zero, IVec3.mk.injEq]
  omega

theorem IVec3.sub_neg_cancel (p d : IVec3) : (p.sub d).sub d.neg = p := by
  simp only [IVec3.sub, IVec3.neg, IVec3.mk.injEq]
  cases p
  simp only [IVec3.mk.injEq]
  omega

/-- A nonempty cuboid contained in the unit cube is the unit cube. -/
theorem eq_unit_cube_of_nonempty (range : Cuboid)
    (hne : range.isEmpty = false)
    (hsub : (Cuboid.cube IVec3.zero 1).containsR range = true) :
    range = Cuboid.cube IVec3.zero 1 := by
  rw [Cuboid.isEmpty_false_iff] at hne
  rw [Cuboid.containsR_iff] at hsub
  rcases range with ⟨⟨ax, ay, az⟩, ⟨bx, by', bz⟩⟩
  simp only [Cuboid.cube, IVec3.zero, IVec3.add] at hsub ⊢
  simp only [Cuboid.mk.injEq, IVec3.mk.injEq]
  simp only at hne hsub
  omega

/-- Pointwise semantics of `Node::set_range`: positions inside `range` now
read `v`, positions outside are untouched. -/
theorem Node.atPos_set_range (m : Nat) (range : Cuboid) (v : VoxelType) (node : Node)
    (p : IVec3)
    (hne : range.isEmpty = false)
    (hsub : (Cuboid.cube IVec3.zero (2 ^ m)).containsR range = true)
    (hp : inCube m p) :
    (node.set_range m range v).atPos m p
      = if range.containsP p then v else node.atPos m p := by
  induction m generalizing range node p with
  | zero =>
    have h1 : ((2 : Int) ^ 0) = 1 := pow_zero 2
    rw [h1] at hsub
    have hrange := eq_unit_cube_of_nonempty range hne hsub
    subst hrange
    have hp1 : (Cuboid.cube IVec3.zero 1).containsP p = true := by
      unfold inCube at hp
      rw [h1] at hp
      exact hp
    rw [Node.set_range]
    rw [h1, if_pos rfl, Node.atPos_uniform, if_pos hp1]
  | succ m ih =>
    by_cases hfull : range = Cuboid.cube IVec3.zero (2 ^ (m + 1))
    · subst hfull
      rw [Node.set_range, if_pos rfl, Node.atPos_uniform,
        if_pos (show (Cuboid.cube IVec3.zero (2 ^ (m + 1))).containsP p = true from hp)]
    · rw [Node.set_range, if_neg hfull, Node.atPos_simplify, Node.atPos_succ,
        Node.child_mkComp]
      simp only []
      have hmem : (childCub m (Node.semIdx m p)).containsP p = true := mem_childCub_semIdx m p hp
      have hmem' : (Cuboid.cube ((Node.childPos (Node.semIdx m p)).smul (2 ^ m)) (2 ^ m)).containsP p
          = true := hmem
      have hpsub : inCube m (p.sub ((Node.childPos (Node.semIdx m p)).smul (2 ^ m))) :=
        sub_childPos_mem m p _ hmem
      by_cases hie : ((Cuboid.cube ((Node.childPos (Node.semIdx m p)).smul (2 ^ m)) (2 ^ m)).intersect
          range).isEmpty = true
      · have hnotin : ¬(range.containsP p = true) := by
          intro hin
          have hinter : ((Cuboid.cube ((Node.childPos (Node.semIdx m p)).smul (2 ^ m)) (2 ^ m)).intersect
              range).containsP p = true := by
            rw [Cuboid.containsP_intersect]
            exact ⟨hmem', hin⟩
          have hf := Cuboid.isEmpty_false_of_containsP hinter
          rw [hf] at hie
          cases hie
        rw [if_pos hie, if_neg hnotin, Node.child_ensureComposite, Node.atPos_succ]
      · have hie' : ((Cuboid.cube ((Node.childPos (Node.semIdx m p)).smul (2 ^ m)) (2 ^ m)).intersect
            range).isEmpty = false := by
          cases h : ((Cuboid.cube ((Node.childPos (Node.semIdx m p)).smul (2 ^ m)) (2 ^ m)).intersect
            range).isEmpty
          · rfl
          · exact absurd h hie
        rw [if_neg hie]
        have harg1 : (((Cuboid.cube ((Node.childPos (Node.semIdx m p)).smul (2 ^ m)) (2 ^ m)).intersect
            range).translate ((Node.childPos (Node.semIdx m p)).smul (2 ^ m)).neg).isEmpty = false := by
          rw [Cuboid.isEmpty_translate]
          exact hie'
        have harg2 : (Cuboid.cube IVec3.zero (2 ^ m)).containsR
            (((Cuboid.cube ((Node.childPos (Node.semIdx m p)).smul (2 ^ m)) (2 ^ m)).intersect
              range).translate ((Node.childPos (Node.semIdx m p)).smul (2 ^ m)).neg) = true := by
          have h1 : (Cuboid.cube ((Node.childPos (Node.semIdx m p)).smul (2 ^ m)) (2 ^ m)).containsR
              ((Cuboid.cube ((Node.childPos (Node.semIdx m p)).smul (2 ^ m)) (2 ^ m)).intersect range)
              = true := Cuboid.containsR_intersect_left
          have h2 := (@Cuboid.containsR_translate _ _
            ((Node.childPos (Node.semIdx m p)).smul (2 ^ m)).neg).mpr h1
          rw [Cuboid.translate_cube, IVec3.add_neg_cancel] at h2
          exact h2
        have IH := ih (((Cuboid.cube ((Node.childPos (Node.semIdx m p)).smul (2 ^ m)) (2 ^ m)).intersect
            range).translate ((Node.childPos (Node.semIdx m p)).smul (2 ^ m)).neg)
          (node.ensureComposite.child (Node.semIdx m p))
          (p.sub ((Node.childPos (Node.semIdx m p)).smul (2 ^ m))) harg1 harg2 hpsub
        rw [IH]
        have hcond : ((((Cuboid.cube ((Node.childPos (Node.semIdx m p)).smul (2 ^ m)) (2 ^ m)).intersect
            range).translate ((Node.childPos (Node.semIdx m p)).smul (2 ^ m)).neg).containsP
              (p.sub ((Node.childPos (Node.semIdx m p)).smul (2 ^ m))) = true)
            ↔ (range.containsP p = true) := by
          rw [Cuboid.containsP_translate, IVec3.sub_neg_cancel, Cuboid.containsP_intersect]
          constructor
          · rintro ⟨_, h⟩
            exact h
          · intro h
            exact ⟨hmem', h⟩
        by_cases hinP : range.containsP p = true
        · rw [if_pos (hcond.mpr hinP), if_pos hinP]
        · rw [if_neg (fun hh => hinP (hcond.mp hh)), if_neg hinP,
            Node.child_ensureComposite, Node.atPos_succ]

/-! ### Well-formedness is preserved by `set_range` -/

theorem Node.wfB_uniform (m : Nat) (v : VoxelType) : (Node.uniform v).wfB m = true := by
  cases m <;> rfl

theorem Node.wfB_child (m : Nat) (n : Node) (hwf : n.wfB (m + 1) = true) (i : Fin 8) :
    (n.child i).wfB m = true := by
  cases n with
  | uniform v => exact Node.wfB_uniform m v
  | composite c0 c1 c2 c3 c4 c5 c6 c7 =>
    simp only [Node.wfB, Bool.and_eq_true] at hwf
    fin_cases i <;> simp only [Node.child] <;> tauto

theorem Node.wfB_simplify_mkComp (m : Nat) (f : Fin 8 → Node)
    (hc : ∀ i, (f i).wfB m = true) :
    (Node.simplify (Node.mkComp f)).wfB (m + 1) = true := by
  have h0 := hc 0
  have h1 := hc 1
  have h2 := hc 2
  have h3 := hc 3
  have h4 := hc 4
  have h5 := hc 5
  have h6 := hc 6
  have h7 := hc 7
  unfold Node.mkComp
  cases hf0 : f 0 with
  | composite d0 d1 d2 d3 d4 d5 d6 d7 =>
    rw [hf0] at h0
    simp only [Node.simplify, Node.wfB, Bool.and_eq_true]
    repeat' apply And.intro
    all_goals first | trivial | assumption
  | uniform v =>
    simp only [Node.simplify]
    split
    · exact Node.wfB_uniform _ v
    · next hne =>
      simp only [Node.wfB, Bool.and_eq_true]
      constructor
      · repeat' apply And.intro
        all_goals first | trivial | assumption | exact Node.wfB_uniform _ v
      · rw [Bool.not_eq_true', Bool.eq_false_iff]
        intro hX
        simp only [Bool.and_eq_true, decide_eq_true_eq] at hX
        exact hne ⟨hX.1.1.1.1.1.1, hX.1.1.1.1.1.2, hX.1.1.1.1.2, hX.1.1.1.2,
          hX.1.1.2, hX.1.2, hX.2⟩

theorem Node.wfB_set_range (m : Nat) (range : Cuboid) (v : VoxelType) (node : Node)
    (hne : range.isEmpty = false)
    (hsub : (Cuboid.cube IVec3.zero (2 ^ m)).containsR range = true)
    (hwf : node.wfB m = true) :
    (node.set_range m range v).wfB m = true := by
  induction m generalizing range node with
  | zero =>
    have hpow : ((2 : Int) ^ 0) = 1 := pow_zero 2
    rw [hpow] at hsub
    have hrange := eq_unit_cube_of_nonempty range hne hsub
    subst hrange
    rw [Node.set_range, hpow, if_pos rfl]
    exact Node.wfB_uniform 0 v
  | succ m ih =>
    by_cases hfull : range = Cuboid.cube IVec3.zero (2 ^ (m + 1))
    · subst hfull
      rw [Node.set_range, if_pos rfl]
      exact Node.wfB_uniform _ v
    · rw [Node.set_range, if_neg hfull]
      apply Node.wfB_simplify_mkComp
      intro i
      simp only []
      by_cases hie : ((Cuboid.cube ((Node.childPos i).smul (2 ^ m)) (2 ^ m)).intersect
          range).isEmpty = true
      · rw [if_pos hie, Node.child_ensureComposite]
        exact Node.wfB_child m node hwf i
      · have hie' : ((Cuboid.cube ((Node.childPos i).smul (2 ^ m)) (2 ^ m)).intersect
            range).isEmpty = false := by
          cases h : ((Cuboid.cube ((Node.childPos i).smul (2 ^ m)) (2 ^ m)).intersect
            range).isEmpty
          · rfl
          · exact absurd h hie
        rw [if_neg hie]
        apply ih
        · rw [Cuboid.isEmpty_translate]
          exact hie'
        · have h1 : (Cuboid.cube ((Node.childPos i).smul (2 ^ m)) (2 ^ m)).containsR
              ((Cuboid.cube ((Node.childPos i).smul (2 ^ m)) (2 ^ m)).intersect range)
              = true := Cuboid.containsR_intersect_left
          have h2 := (@Cuboid.containsR_translate _ _
            ((Node.childPos i).smul (2 ^ m)).neg).mpr h1
          rw [Cuboid.translate_cube, IVec3.add_neg_cancel] at h2
          exact h2
        · rw [Node.child_ensureComposite]
          exact Node.wfB_child m node hwf i

/-! ### A well-formed composite is semantically mixed -/

theorem IVec3.add_neg_eq_sub (p d : IVec3) : p.add d.neg = p.sub d := by
  simp only [IVec3.add, IVec3.neg, IVec3.sub, IVec3.mk.injEq]
  omega

theorem IVec3.sub_neg_eq_add (p d : IVec3) : p.sub d.neg = p.add d := by
  simp only [IVec3.add, IVec3.neg, IVec3.sub, IVec3.mk.injEq]
  omega

theorem Cuboid.containsP_of_containsR {a b : Cuboid} {p : IVec3}
    (hab : a.containsR b = true) (hp : b.containsP p = true) : a.containsP p = true := by
  rw [Cuboid.containsR_iff] at hab
  rw [Cuboid.containsP_iff] at hp ⊢
  omega

theorem inCube_zero (m : Nat) : inCube m IVec3.zero := by
  rw [inCube_iff]
  have : (0 : Int) < 2 ^ m := by positivity
  simp only [IVec3.zero]
  omega

/-- A well-formed `Composite` holds two positions with different values. -/
theorem Node.exists_mixed (m : Nat) (n : Node)
    (hcomp : ∃ c0 c1 c2 c3 c4 c5 c6 c7, n = Node.composite c0 c1 c2 c3 c4 c5 c6 c7)
    (hwf : n.wfB m = true) :
    ∃ p q, inCube m p ∧ inCube m q ∧ n.atPos m p ≠ n.atPos m q := by
  induction m generalizing n with
  | zero =>
    obtain ⟨c0, c1, c2, c3, c4, c5, c6, c7, rfl⟩ := hcomp
    simp only [Node.wfB] at hwf
    cases hwf
  | succ m ih =>
    obtain ⟨c0, c1, c2, c3, c4, c5, c6, c7, rfl⟩ := hcomp
    have hch := fun i => Node.wfB_child m _ hwf i
    by_cases hall : ∀ i : Fin 8,
        ∃ w, (Node.composite c0 c1 c2 c3 c4 c5 c6 c7).child i = Node.uniform w
    · choose W hW using hall
      have e0 : c0 = Node.uniform (W 0) := hW 0
      have e1 : c1 = Node.uniform (W 1) := hW 1
      have e2 : c2 = Node.uniform (W 2) := hW 2
      have e3 : c3 = Node.uniform (W 3) := hW 3
      have e4 : c4 = Node.uniform (W 4) := hW 4
      have e5 : c5 = Node.uniform (W 5) := hW 5
      have e6 : c6 = Node.uniform (W 6) := hW 6
      have e7 : c7 = Node.uniform (W 7) := hW 7
      have hbad : ¬ ∀ j : Fin 8, W j = W 0 := by
        intro hWall
        simp only [Node.wfB, Bool.and_eq_true] at hwf
        obtain ⟨-, hneg⟩ := hwf
        have f1 : c1 = Node.uniform (W 0) := by rw [e1, hWall 1]
        have f2 : c2 = Node.uniform (W 0) := by rw [e2, hWall 2]
        have f3 : c3 = Node.uniform (W 0) := by rw [e3, hWall 3]
        have f4 : c4 = Node.uniform (W 0) := by rw [e4, hWall 4]
        have f5 : c5 = Node.uniform (W 0) := by rw [e5, hWall 5]
        have f6 : c6 = Node.uniform (W 0) := by rw [e6, hWall 6]
        have f7 : c7 = Node.uniform (W 0) := by rw [e7, hWall 7]
        rw [e0, f1, f2, f3, f4, f5, f6, f7] at hneg
        simp at hneg
      push_neg at hbad
      obtain ⟨j, hj⟩ := hbad
      refine ⟨IVec3.zero.add ((Node.childPos 0).smul (2 ^ m)),
        IVec3.zero.add ((Node.childPos j).smul (2 ^ m)), ?_, ?_, ?_⟩
      · exact inCube_succ_of_mem_childCub m _ 0 (mem_childCub_add m _ 0 (inCube_zero m))
      · exact inCube_succ_of_mem_childCub m _ j (mem_childCub_add m _ j (inCube_zero m))
      · rw [Node.atPos_octant m 0 _ _ (inCube_zero m), Node.atPos_octant m j _ _ (inCube_zero m),
          hW 0, hW j, Node.atPos_uniform, Node.atPos_uniform]
        exact fun h => hj h.symm
    · push_neg at hall
      obtain ⟨i, hi⟩ := hall
      have hcompi : ∃ d0 d1 d2 d3 d4 d5 d6 d7,
          (Node.composite c0 c1 c2 c3 c4 c5 c6 c7).child i
            = Node.composite d0 d1 d2 d3 d4 d5 d6 d7 := by
        cases hc : (Node.composite c0 c1 c2 c3 c4 c5 c6 c7).child i with
        | uniform w => exact absurd hc (hi w)
        | composite d0 d1 d2 d3 d4 d5 d6 d7 => exact ⟨d0, d1, d2, d3, d4, d5, d6, d7, rfl⟩
      obtain ⟨p, q, hp, hq, hne⟩ := ih _ hcompi (hch i)
      refine ⟨p.add ((Node.childPos i).smul (2 ^ m)), q.add ((Node.childPos i).smul (2 ^ m)),
        ?_, ?_, ?_⟩
      · exact inCube_succ_of_mem_childCub m _ i (mem_childCub_add m _ i hp)
      · exact inCube_succ_of_mem_childCub m _ i (mem_childCub_add m _ i hq)
      · rw [Node.atPos_octant m i _ _ hp, Node.atPos_octant m i _ _ hq]
        exact hne

/-! ### `query_cube` returns `Uniform v` on uniformly-`v` aligned cubes -/

theorem aligned_add_le (k m : Nat) (x : Int) (hk : k ≤ m)
    (hd : (2 : Int) ^ k ∣ x) (hx : x < 2 ^ m) : x + 2 ^ k ≤ 2 ^ m := by
  have hsplit : (2 : Int) ^ m = 2 ^ k * 2 ^ (m - k) := by
    rw [← pow_add]
    congr 1
    omega
  obtain ⟨t, rfl⟩ := hd
  rw [hsplit] at hx ⊢
  have hKpos : (0 : Int) < 2 ^ k := by positivity
  have ht : t < 2 ^ (m - k) := lt_of_mul_lt_mul_left hx (le_of_lt hKpos)
  have ht1 : t + 1 ≤ 2 ^ (m - k) := ht
  calc (2 : Int) ^ k * t + 2 ^ k = 2 ^ k * (t + 1) := by ring
    _ ≤ 2 ^ k * 2 ^ (m - k) := by
        apply mul_le_mul_of_nonneg_left ht1 (le_of_lt hKpos)

theorem Node.query_cube_eq_uniform (n : Nat) (node : Node) (k : Nat) (pos : IVec3)
    (v : VoxelType)
    (hwf : node.wfB n = true) (hk : k ≤ n)
    (hdx : (2 : Int) ^ k ∣ pos.x) (hdy : (2 : Int) ^ k ∣ pos.y) (hdz : (2 : Int) ^ k ∣ pos.z)
    (hsub : (Cuboid.cube IVec3.zero (2 ^ n)).containsR (Cuboid.cube pos (2 ^ k)) = true)
    (hall : ∀ p, (Cuboid.cube pos (2 ^ k)).containsP p = true → node.atPos n p = v) :
    node.query_cube n (Cube.mk pos ((2 : Int) ^ k)) = CubeType.Uniform v := by
  induction n generalizing node k pos with
  | zero =>
    cases node with
    | uniform w =>
      have hKpos : (0 : Int) < 2 ^ k := by positivity
      have hself : (Cuboid.cube pos ((2 : Int) ^ k)).containsP pos = true := by
        rw [Cuboid.containsP_iff]
        simp only [Cuboid.cube, IVec3.add]
        omega
      have hw := hall pos hself
      rw [Node.atPos_uniform] at hw
      rw [hw]
      rfl
    | composite c0 c1 c2 c3 c4 c5 c6 c7 =>
      simp only [Node.wfB] at hwf
      cases hwf
  | succ m ih =>
    cases node with
    | uniform w =>
      have hKpos : (0 : Int) < 2 ^ k := by positivity
      have hself : (Cuboid.cube pos ((2 : Int) ^ k)).containsP pos = true := by
        rw [Cuboid.containsP_iff]
        simp only [Cuboid.cube, IVec3.add]
        omega
      have hw := hall pos hself
      rw [Node.atPos_uniform] at hw
      rw [hw]
      rfl
    | composite c0 c1 c2 c3 c4 c5 c6 c7 =>
      have hKpos : (0 : Int) < 2 ^ k := by positivity
      rw [Cuboid.containsR_iff] at hsub
      simp only [Cuboid.cube, IVec3.zero, IVec3.add] at hsub
      have hpow : (2 : Int) ^ (m + 1) = 2 * 2 ^ m := by ring
      by_cases hkfull : ((2 : Int) ^ k) = 2 ^ (m + 1)
      · exfalso
        have hpos0 : pos = IVec3.zero := by
          cases pos
          simp only [IVec3.zero, IVec3.mk.injEq]
          simp only at hsub hdx hdy hdz
          omega
        subst hpos0
        obtain ⟨p, q, hp, hq, hne⟩ := Node.exists_mixed (m + 1) _
          ⟨c0, c1, c2, c3, c4, c5, c6, c7, rfl⟩ hwf
        apply hne
        have hcov : ∀ r, inCube (m + 1) r →
            (Cuboid.cube IVec3.zero ((2 : Int) ^ k)).containsP r = true := by
          intro r hr
          unfold inCube at hr
          rw [hkfull]
          exact hr
        rw [hall p (hcov p hp), hall q (hcov q hq)]
      · have hkm : k ≤ m := by
          rcases Nat.lt_or_ge k (m + 1) with h | h
          · omega
          · exfalso
            have hkeq : k = m + 1 := by omega
            rw [hkeq] at hkfull
            exact hkfull rfl
        have hx01 : 0 ≤ pos.x ∧ pos.x < 2 ^ (m + 1) := by constructor <;> omega
        have hy01 : 0 ≤ pos.y ∧ pos.y < 2 ^ (m + 1) := by constructor <;> omega
        have hz01 : 0 ≤ pos.z ∧ pos.z < 2 ^ (m + 1) := by constructor <;> omega
        have hbx := int_land_two_pow m pos.x hx01.1 hx01.2
        have hby := int_land_two_pow m pos.y hy01.1 hy01.2
        have hbz := int_land_two_pow m pos.z hz01.1 hz01.2
        simp only [Node.query_cube]
        rw [if_neg (by simpa using hkfull)]
        have hdec1 : (decide (Int.land pos.x ((2 : Int) ^ m) ≠ 0))
            = decide ((2 : Int) ^ m ≤ pos.x) := decide_eq_decide.mpr hbx
        have hdec2 : (decide (Int.land pos.y ((2 : Int) ^ m) ≠ 0))
            = decide ((2 : Int) ^ m ≤ pos.y) := decide_eq_decide.mpr hby
        have hdec3 : (decide (Int.land pos.z ((2 : Int) ^ m) ≠ 0))
            = decide ((2 : Int) ^ m ≤ pos.z) := decide_eq_decide.mpr hbz
        simp only [Cube.translate, hdec1, hdec2, hdec3]
        rw [← Node.childPos_bitIdx, ← Node.semIdx]
        have hadd : pos.add ((Node.childPos (Node.semIdx m pos)).smul (2 ^ m)).neg
            = pos.sub ((Node.childPos (Node.semIdx m pos)).smul (2 ^ m)) :=
          IVec3.add_neg_eq_sub _ _
        rw [hadd]
        -- facts about the offset components
        have hcp : Node.childPos (Node.semIdx m pos)
            = IVec3.mk (cond (decide ((2 : Int) ^ m ≤ pos.x)) 1 0)
                (cond (decide ((2 : Int) ^ m ≤ pos.y)) 1 0)
                (cond (decide ((2 : Int) ^ m ≤ pos.z)) 1 0) := by
          unfold Node.semIdx
          rw [Node.childPos_bitIdx]
        have hdvd2m : (2 : Int) ^ k ∣ (2 : Int) ^ m := pow_dvd_pow 2 hkm
        have hoffx : (2 : Int) ^ k ∣ (Node.childPos (Node.semIdx m pos)).x * 2 ^ m :=
          Dvd.dvd.mul_left hdvd2m _
        have hoffy : (2 : Int) ^ k ∣ (Node.childPos (Node.semIdx m pos)).y * 2 ^ m :=
          Dvd.dvd.mul_left hdvd2m _
        have hoffz : (2 : Int) ^ k ∣ (Node.childPos (Node.semIdx m pos)).z * 2 ^ m :=
          Dvd.dvd.mul_left hdvd2m _
        -- bounds of the translated cube
        have hbnd : 0 ≤ (pos.sub ((Node.childPos (Node.semIdx m pos)).smul (2 ^ m))).x ∧
            (pos.sub ((Node.childPos (Node.semIdx m pos)).smul (2 ^ m))).x + 2 ^ k ≤ 2 ^ m ∧
            0 ≤ (pos.sub ((Node.childPos (Node.semIdx m pos)).smul (2 ^ m))).y ∧
            (pos.sub ((Node.childPos (Node.semIdx m pos)).smul (2 ^ m))).y + 2 ^ k ≤ 2 ^ m ∧
            0 ≤ (pos.sub ((Node.childPos (Node.semIdx m pos)).smul (2 ^ m))).z ∧
            (pos.sub ((Node.childPos (Node.semIdx m pos)).smul (2 ^ m))).z + 2 ^ k ≤ 2 ^ m := by
          rw [hcp]
          simp only [IVec3.sub, IVec3.smul]
          by_cases hx : (2 : Int) ^ m ≤ pos.x <;> by_cases hy : (2 : Int) ^ m ≤ pos.y <;>
            by_cases hz : (2 : Int) ^ m ≤ pos.z <;>
          · first
              | rw [decide_eq_true hx]
              | rw [decide_eq_false hx]
            first
              | rw [decide_eq_true hy]
              | rw [decide_eq_false hy]
            first
              | rw [decide_eq_true hz]
              | rw [decide_eq_false hz]
            simp only [cond_true, cond_false]
            refine ⟨by omega, ?_, by omega, ?_, by omega, ?_⟩ <;>
              simp only [one_mul, zero_mul] <;>
              first
                | omega
                | (have hax := aligned_add_le k m pos.x hkm hdx (by omega)
                   omega)
                | (have hay := aligned_add_le k m pos.y hkm hdy (by omega)
                   omega)
                | (have haz := aligned_add_le k m pos.z hkm hdz (by omega)
                   omega)
        have hwfc := Node.wfB_child m _ hwf (Node.semIdx m pos)
        have hdx' : (2 : Int) ^ k ∣ (pos.sub ((Node.childPos (Node.semIdx m pos)).smul (2 ^ m))).x := by
          simp only [IVec3.sub, IVec3.smul]
          exact dvd_sub hdx hoffx
        have hdy' : (2 : Int) ^ k ∣ (pos.sub ((Node.childPos (Node.semIdx m pos)).smul (2 ^ m))).y := by
          simp only [IVec3.sub, IVec3.smul]
          exact dvd_sub hdy hoffy
        have hdz' : (2 : Int) ^ k ∣ (pos.sub ((Node.childPos (Node.semIdx m pos)).smul (2 ^ m))).z := by
          simp only [IVec3.sub, IVec3.smul]
          exact dvd_sub hdz hoffz
        have hsub' : (Cuboid.cube IVec3.zero (2 ^ m)).containsR
            (Cuboid.cube (pos.sub ((Node.childPos (Node.semIdx m pos)).smul (2 ^ m))) (2 ^ k))
            = true := by
          rw [Cuboid.containsR_iff]
          simp only [Cuboid.cube, IVec3.zero, IVec3.add]
          omega
        have hall' : ∀ p', (Cuboid.cube
            (pos.sub ((Node.childPos (Node.semIdx m pos)).smul (2 ^ m))) (2 ^ k)).containsP p'
              = true →
            ((Node.composite c0 c1 c2 c3 c4 c5 c6 c7).child (Node.semIdx m pos)).atPos m p'
              = v := by
          intro p' hp'
          have hr : inCube m p' :=
            Cuboid.containsP_of_containsR hsub' hp'
          have h1 : Cuboid.cube (pos.sub ((Node.childPos (Node.semIdx m pos)).smul (2 ^ m)))
              ((2 : Int) ^ k)
              = (Cuboid.cube pos ((2 : Int) ^ k)).translate
                  ((Node.childPos (Node.semIdx m pos)).smul (2 ^ m)).neg := by
            rw [Cuboid.translate_cube, IVec3.add_neg_eq_sub]
          rw [h1, Cuboid.containsP_translate, IVec3.sub_neg_eq_add] at hp'
          have hv := hall _ hp'
          rwa [Node.atPos_octant m (Node.semIdx m pos) p' _ hr] at hv
        exact ih _ k _ hwfc hkm hdx' hdy' hdz' hsub' hall'

/-! ### Filling a node voxel by voxel collapses it -/

/-- A well-formed node that reads `v` everywhere is `Uniform v`. -/
theorem Node.eq_uniform_of_wf (m : Nat) (node : Node) (v : VoxelType)
    (hwf : node.wfB m = true)
    (hall : ∀ p, inCube m p → node.atPos m p = v) :
    node = Node.uniform v := by
  cases node with
  | uniform w =>
    have hz := hall IVec3.zero (inCube_zero m)
    rw [Node.atPos_uniform] at hz
    rw [hz]
  | composite c0 c1 c2 c3 c4 c5 c6 c7 =>
    exfalso
    obtain ⟨p, q, hp, hq, hne⟩ := Node.exists_mixed m _
      ⟨c0, c1, c2, c3, c4, c5, c6, c7, rfl⟩ hwf
    exact hne (by rw [hall p hp, hall q hq])

theorem unitCube_nonempty (q : IVec3) : (Cuboid.cube q 1).isEmpty = false := by
  rw [Cuboid.isEmpty_false_iff]
  simp only [Cuboid.cube, IVec3.add]
  omega

theorem unitCube_sub (m : Nat) (q : IVec3) (hq : inCube m q) :
    (Cuboid.cube IVec3.zero (2 ^ m)).containsR (Cuboid.cube q 1) = true := by
  rw [inCube_iff] at hq
  rw [Cuboid.containsR_iff]
  simp only [Cuboid.cube, IVec3.zero, IVec3.add]
  omega

theorem Node.wfB_foldl_fill (m : Nat) (v : VoxelType) (ps : List IVec3) (node : Node)
    (hps : ∀ q ∈ ps, inCube m q) (hwf : node.wfB m = true) :
    (ps.foldl (fun nd q => nd.set_range m (Cuboid.cube q 1) v) node).wfB m = true := by
  induction ps generalizing node with
  | nil => exact hwf
  | cons q qs ihq =>
    rw [List.foldl_cons]
    exact ihq _ (fun r hr => hps r (List.mem_cons_of_mem q hr))
      (Node.wfB_set_range m _ v node (unitCube_nonempty q)
        (unitCube_sub m q (hps q (List.mem_cons_self q qs))) hwf)

theorem Node.atPos_foldl_fill (m : Nat) (v : VoxelType) (ps : List IVec3) (node : Node)
    (p : IVec3)
    (hps : ∀ q ∈ ps, inCube m q) (hp : inCube m p) :
    (ps.foldl (fun nd q => nd.set_range m (Cuboid.cube q 1) v) node).atPos m p
      = if ∃ q ∈ ps, (Cuboid.cube q 1).containsP p = true then v else node.atPos m p := by
  induction ps generalizing node with
  | nil => simp
  | cons q qs ihq =>
    rw [List.foldl_cons, ihq _ (fun r hr => hps r (List.mem_cons_of_mem q hr))]
    rw [Node.atPos_set_range m _ v node p (unitCube_nonempty q)
      (unitCube_sub m q (hps q (List.mem_cons_self q qs))) hp]
    by_cases h1 : ∃ r ∈ qs, (Cuboid.cube r 1).containsP p = true
    · rw [if_pos h1, if_pos ⟨h1.choose, List.mem_cons_of_mem q h1.choose_spec.1, h1.choose_spec.2⟩]
    · rw [if_neg h1]
      by_cases h2 : (Cuboid.cube q 1).containsP p = true
      · rw [if_pos h2, if_pos ⟨q, List.mem_cons_self q qs, h2⟩]
      · rw [if_neg h2, if_neg ?hcond]
        case hcond =>
          rintro ⟨r, hr, hrp⟩
          rcases List.mem_cons.mp hr with rfl | hr2
          · exact h2 hrp
          · exact h1 ⟨r, hr2, hrp⟩

/-! ### `Voxels` layer: a power-of-two aligned cube lies in one cell -/

theorem align_down_le (x : Int) : Voxels.align_down x ≤ x := by
  unfold Voxels.align_down
  omega

theorem align_down_mod (x : Int) : Voxels.align_down x % 64 = 0 := by
  unfold Voxels.align_down
  omega

theorem lt_align_down_add (x : Int) : x < Voxels.align_down x + 64 := by
  unfold Voxels.align_down
  omega

theorem two_pow_dvd_64 (k : Nat) (hk : k ≤ 6) : ((2 : Int) ^ k) ∣ 64 := by
  have h64 : (64 : Int) = 2 ^ 6 := by norm_num
  rw [h64]
  exact pow_dvd_pow 2 hk

theorem emod64_add_le (k : Nat) (hk : k ≤ 6) (x : Int) (hd : (2 : Int) ^ k ∣ x) :
    x % 64 + 2 ^ k ≤ 64 := by
  have hdm : (2 : Int) ^ k ∣ x % 64 := by
    have h1 : x % 64 = x - 64 * (x / 64) := by omega
    rw [h1]
    exact dvd_sub hd (Dvd.dvd.mul_right (two_pow_dvd_64 k hk) _)
  have h2 : x % 64 < 2 ^ 6 := by
    have : x % 64 < 64 := by omega
    calc x % 64 < 64 := this
      _ = 2 ^ 6 := by norm_num
  have h3 := aligned_add_le k 6 (x % 64) hk hdm h2
  calc x % 64 + 2 ^ k ≤ 2 ^ 6 := h3
    _ = 64 := by norm_num

/-- For an aligned power-of-two size the whole cube stays inside one cell. -/
theorem aligned_cube_in_cell (k : Nat) (hk : k ≤ 6) (x : Int) (hd : (2 : Int) ^ k ∣ x) :
    x + 2 ^ k ≤ Voxels.align_down x + 64 := by
  have h := emod64_add_le k hk x hd
  unfold Voxels.align_down
  omega

theorem align_up_aligned_cube (k : Nat) (hk : k ≤ 6) (x : Int) (hd : (2 : Int) ^ k ∣ x) :
    Voxels.align_up (x + 2 ^ k) = Voxels.align_down x + 64 := by
  have hKpos : (0 : Int) < 2 ^ k := by positivity
  have hr := emod64_add_le k hk x hd
  unfold Voxels.align_up Voxels.align_down Voxels.CELL_SIZE
  split
  · next heq => omega
  · next hne => omega

theorem stride_single (a : Int) : stride a (a + 64) 64 = [a] := by
  unfold stride
  norm_num
  simp [List.range, List.range.loop]

/-- `align_down` of any point of the cell recovers the cell origin. -/
theorem align_down_of_mem_cell (c x : Int) (hcmod : c % 64 = 0) (h1 : c ≤ x)
    (h2 : x < c + 64) : Voxels.align_down x = c := by
  unfold Voxels.align_down
  omega



/-! ### Association-list behaviour of the cell map -/

/-- The cell key of a position (componentwise `align_down`), as computed in
`Voxels::query_cube` and `Voxels::set_range`. -/
def Voxels.cellOf (p : IVec3) : IVec3 :=
  ⟨Voxels.align_down p.x, Voxels.align_down p.y, Voxels.align_down p.z⟩

theorem Voxels.query_cube_def (w : Voxels) (c : Cube) :
    w.query_cube c
      = match w.getCell (Voxels.cellOf c.position) with
        | none => CubeType.Uniform 0
        | some node => node.query_cube Voxels.LOG_CELL_SIZE
            (c.translate (Voxels.cellOf c.position).neg) := rfl

theorem find_map_update_self (l : List (IVec3 × Node)) (pos : IVec3) (f : Node → Node) :
    (l.map fun kv => if kv.1 = pos then (kv.1, f kv.2) else kv).find?
        (fun kv => kv.1 = pos)
      = (l.find? fun kv => kv.1 = pos).map fun kv => (kv.1, f kv.2) := by
  induction l with
  | nil => rfl
  | cons kv kvs ih =>
    by_cases hk : kv.1 = pos
    · simp [List.find?_cons, hk]
    · simp [List.find?_cons, hk, ih]

theorem find_map_update_other (l : List (IVec3 × Node)) (pos q : IVec3) (hne : q ≠ pos)
    (f : Node → Node) :
    (l.map fun kv => if kv.1 = pos then (kv.1, f kv.2) else kv).find?
        (fun kv => kv.1 = q)
      = l.find? fun kv => kv.1 = q := by
  have hpq : (decide (pos = q)) = false := decide_eq_false fun h => hne h.symm
  induction l with
  | nil => rfl
  | cons kv kvs ih =>
    simp only [List.map_cons, List.find?_cons]
    by_cases hk : kv.1 = pos
    · rw [if_pos hk, hk]
      simp only [hpq]
      exact ih
    · rw [if_neg hk]
      cases hq : decide (kv.1 = q)
      · simp only [hq]
        exact ih
      · simp only [hq]

theorem find_append_none (l1 l2 : List (IVec3 × Node)) (p : IVec3 × Node → Bool)
    (h : l1.find? p = none) : (l1 ++ l2).find? p = l2.find? p := by
  induction l1 with
  | nil => rfl
  | cons kv kvs ih =>
    rw [List.find?_cons] at h
    rw [List.cons_append, List.find?_cons]
    cases hp : p kv
    · rw [hp] at h
      simp only
      exact ih h
    · rw [hp] at h
      cases h

theorem find_append_some (l1 l2 : List (IVec3 × Node)) (p : IVec3 × Node → Bool)
    (kv : IVec3 × Node)
    (h : l1.find? p = some kv) : (l1 ++ l2).find? p = some kv := by
  induction l1 with
  | nil => cases h
  | cons kv0 kvs ih =>
    rw [List.find?_cons] at h
    rw [List.cons_append, List.find?_cons]
    cases hp : p kv0
    · rw [hp] at h
      simp only
      exact ih h
    · rw [hp] at h
      simp only
      exact h

theorem not_any_find_none (l : List (IVec3 × Node)) (pos : IVec3)
    (h : ¬(l.any fun kv => kv.1 = pos) = true) :
    (l.find? fun kv => kv.1 = pos) = none := by
  rw [List.find?_eq_none]
  intro kv hmem
  intro hkv
  apply h
  rw [List.any_eq_true]
  exact ⟨kv, hmem, hkv⟩

theorem Voxels.getCell_updateCell_self (w : Voxels) (pos : IVec3) (f : Node → Node) :
    (w.updateCell pos f).getCell pos
      = some (f ((w.getCell pos).getD (Node.uniform 0))) := by
  unfold Voxels.updateCell Voxels.getCell
  by_cases hany : (w.cells.any fun kv => kv.1 = pos) = true
  · rw [if_pos hany]
    show ((w.cells.map fun kv => if kv.1 = pos then (kv.1, f kv.2) else kv).find?
      (fun kv => kv.1 = pos)).map Prod.snd = _
    rw [find_map_update_self]
    rw [List.any_eq_true] at hany
    obtain ⟨kv, hmem, hkv⟩ := hany
    have hsome : ∃ kv0, (w.cells.find? fun kv => kv.1 = pos) = some kv0 := by
      cases hf : w.cells.find? fun kv => kv.1 = pos
      · exfalso
        rw [List.find?_eq_none] at hf
        exact absurd hkv (hf kv hmem)
      · exact ⟨_, rfl⟩
    obtain ⟨kv0, hf⟩ := hsome
    rw [hf]
    rfl
  · rw [if_neg hany]
    show ((w.cells ++ [(pos, f (Node.uniform 0))]).find? (fun kv => kv.1 = pos)).map Prod.snd = _
    rw [find_append_none _ _ _ (not_any_find_none _ _ hany)]
    rw [not_any_find_none _ _ hany]
    simp [List.find?_cons]

theorem Voxels.getCell_updateCell_other (w : Voxels) (pos q : IVec3) (hne : q ≠ pos)
    (f : Node → Node) :
    (w.updateCell pos f).getCell q = w.getCell q := by
  unfold Voxels.updateCell Voxels.getCell
  by_cases hany : (w.cells.any fun kv => kv.1 = pos) = true
  · rw [if_pos hany]
    show ((w.cells.map fun kv => if kv.1 = pos then (kv.1, f kv.2) else kv).find?
      (fun kv => kv.1 = q)).map Prod.snd = _
    rw [find_map_update_other _ _ _ hne]
  · rw [if_neg hany]
    show ((w.cells ++ [(pos, f (Node.uniform 0))]).find? (fun kv => kv.1 = q)).map Prod.snd = _
    cases hf : w.cells.find? fun kv => kv.1 = q
    · rw [find_append_none _ _ _ hf]
      have hpq : (decide (pos = q)) = false := decide_eq_false fun h => hne h.symm
      simp only [List.find?_cons, hpq]
      rfl
    · rw [find_append_some _ _ _ _ hf]

/-- All stored cells are well-formed octrees of depth `LOG_CELL_SIZE`. -/
def Voxels.wfB (w : Voxels) : Bool := w.cells.all fun kv => kv.2.wfB 6

theorem Voxels.wfB_empty : Voxels.empty.wfB = true := rfl

theorem Voxels.wfB_getCell (w : Voxels) (hw : w.wfB = true) (pos : IVec3) (nd : Node)
    (h : w.getCell pos = some nd) : nd.wfB 6 = true := by
  unfold Voxels.getCell at h
  cases hf : w.cells.find? fun kv => kv.1 = pos
  · rw [hf] at h
    cases h
  · rw [hf] at h
    unfold Voxels.wfB at hw
    rw [List.all_eq_true] at hw
    have hmem := List.mem_of_find?_eq_some hf
    have := hw _ hmem
    cases h
    exact this

theorem Voxels.wfB_updateCell (w : Voxels) (pos : IVec3) (f : Node → Node)
    (hw : w.wfB = true) (hf : ∀ nd, nd.wfB 6 = true → (f nd).wfB 6 = true) :
    (w.updateCell pos f).wfB = true := by
  unfold Voxels.updateCell
  unfold Voxels.wfB at hw ⊢
  rw [List.all_eq_true] at hw
  by_cases hany : (w.cells.any fun kv => kv.1 = pos) = true
  · rw [if_pos hany]
    rw [List.all_eq_true]
    intro kv hkv
    rw [List.mem_map] at hkv
    obtain ⟨kv0, hmem0, heq⟩ := hkv
    by_cases hk : kv0.1 = pos
    · rw [if_pos hk] at heq
      rw [← heq]
      exact hf _ (hw _ hmem0)
    · rw [if_neg hk] at heq
      rw [← heq]
      exact hw _ hmem0
  · rw [if_neg hany]
    rw [List.all_eq_true]
    intro kv hkv
    rcases List.mem_append.mp hkv with hmem | hmem
    · exact hw _ hmem
    · rcases List.mem_singleton.mp hmem with rfl
      exact hf _ (Node.wfB_uniform 6 0)

theorem Cuboid.intersect_of_containsR {a b : Cuboid} (h : b.containsR a = true) :
    a.intersect b = a := by
  rw [Cuboid.containsR_iff] at h
  rcases a with ⟨⟨ax, ay, az⟩, ⟨bx, by2, bz⟩⟩
  rcases b with ⟨⟨cx, cy, cz⟩, ⟨dx, dy, dz⟩⟩
  simp only [Cuboid.intersect, Cuboid.mk.injEq, IVec3.mk.injEq]
  simp only at h
  omega


/-! ### `Voxels::set_range` on an aligned power-of-two cube -/

theorem two_pow_dvd_emod64 (k : Nat) (hk : k ≤ 6) (x : Int) (hd : (2 : Int) ^ k ∣ x) :
    (2 : Int) ^ k ∣ x % 64 := by
  have h1 : x % 64 = x - 64 * (x / 64) := by omega
  rw [h1]
  exact dvd_sub hd (Dvd.dvd.mul_right (two_pow_dvd_64 k hk) _)

theorem cube_nonempty (pos : IVec3) (s : Int) (hs : 0 < s) :
    (Cuboid.cube pos s).isEmpty = false := by
  rw [Cuboid.isEmpty_false_iff]
  simp only [Cuboid.cube, IVec3.add]
  omega

theorem unit_containsP_iff (x q : IVec3) :
    (Cuboid.cube x 1).containsP q = true ↔ q = x := by
  rw [Cuboid.containsP_iff]
  simp only [Cuboid.cube, IVec3.add]
  constructor
  · intro h
    cases q
    cases x
    simp only [IVec3.mk.injEq]
    simp only at h
    omega
  · rintro rfl
    omega

theorem Voxels.aligned_hull_cube (k : Nat) (hk : k ≤ 6) (pos : IVec3)
    (hdx : (2 : Int) ^ k ∣ pos.x) (hdy : (2 : Int) ^ k ∣ pos.y)
    (hdz : (2 : Int) ^ k ∣ pos.z) :
    Voxels.aligned_hull (Cuboid.cube pos (2 ^ k)) = Cuboid.cube (Voxels.cellOf pos) 64 := by
  have hKpos : (0 : Int) < 2 ^ k := by positivity
  unfold Voxels.aligned_hull
  rw [cube_nonempty pos (2 ^ k) hKpos]
  simp only [Bool.false_eq_true, if_false]
  simp only [Cuboid.cube, IVec3.add, Voxels.cellOf, Cuboid.mk.injEq, IVec3.mk.injEq]
  repeat' apply And.intro
  all_goals first
    | rfl
    | trivial
    | exact align_up_aligned_cube k hk pos.x hdx
    | exact align_up_aligned_cube k hk pos.y hdy
    | exact align_up_aligned_cube k hk pos.z hdz

theorem Voxels.iterBy_cell (c : IVec3) :
    (Cuboid.cube c 64).iterBy 64 = [c] := by
  unfold Cuboid.iterBy
  simp only [Cuboid.cube, IVec3.add]
  rw [stride_single, stride_single, stride_single]
  rfl

theorem Voxels.cell_containsR_cube (k : Nat) (hk : k ≤ 6) (pos : IVec3)
    (hdx : (2 : Int) ^ k ∣ pos.x) (hdy : (2 : Int) ^ k ∣ pos.y)
    (hdz : (2 : Int) ^ k ∣ pos.z) :
    (Cuboid.cube (Voxels.cellOf pos) 64).containsR (Cuboid.cube pos (2 ^ k)) = true := by
  have hx := aligned_cube_in_cell k hk pos.x hdx
  have hy := aligned_cube_in_cell k hk pos.y hdy
  have hz := aligned_cube_in_cell k hk pos.z hdz
  have hlx := align_down_le pos.x
  have hly := align_down_le pos.y
  have hlz := align_down_le pos.z
  rw [Cuboid.containsR_iff]
  simp only [Cuboid.cube, IVec3.add, Voxels.cellOf]
  omega

/-- `Voxels::set_range` of an aligned power-of-two cube touches exactly the
single enclosing cell. -/
theorem Voxels.set_range_aligned (w : Voxels) (k : Nat) (hk : k ≤ 6) (pos : IVec3)
    (hdx : (2 : Int) ^ k ∣ pos.x) (hdy : (2 : Int) ^ k ∣ pos.y)
    (hdz : (2 : Int) ^ k ∣ pos.z) (v : VoxelType) :
    w.set_range (Cuboid.cube pos (2 ^ k)) v
      = w.updateCell (Voxels.cellOf pos)
          (fun node => node.set_range Voxels.LOG_CELL_SIZE
            ((Cuboid.cube pos (2 ^ k)).translate (Voxels.cellOf pos).neg) v) := by
  unfold Voxels.set_range
  rw [show Voxels.CELL_SIZE = (64 : Int) from rfl]
  rw [Voxels.aligned_hull_cube k hk pos hdx hdy hdz, Voxels.iterBy_cell]
  rw [List.foldl_cons, List.foldl_nil]
  show (w.updateCell (Voxels.cellOf pos) fun node =>
      Node.set_range Voxels.LOG_CELL_SIZE
        (((Cuboid.cube pos (2 ^ k)).intersect
            (Cuboid.cube (Voxels.cellOf pos) 64)).translate (Voxels.cellOf pos).neg)
        v node) = _
  rw [Cuboid.intersect_of_containsR (Voxels.cell_containsR_cube k hk pos hdx hdy hdz)]

/-! ## Claim C1: `set_range` on an aligned power-of-two cube -/

/-- C1: For every voxel value `v` and every aligned cube `C` with
power-of-two size at most `CELL_SIZE` (64), after `Voxels::set_range(C, v)`
the query `query_cube(C)` returns `Uniform(v)`, and `at(p) = v` for every
position `p` in `C`. -/
theorem C1_set_range_query_uniform (w : Voxels) (hw : w.wfB = true)
    (k : Nat) (hk : k ≤ 6) (pos : IVec3)
    (hdx : (2 : Int) ^ k ∣ pos.x) (hdy : (2 : Int) ^ k ∣ pos.y)
    (hdz : (2 : Int) ^ k ∣ pos.z) (v : VoxelType) :
    (w.set_range (Cuboid.cube pos (2 ^ k)) v).query_cube (Cube.mk pos ((2 : Int) ^ k))
        = CubeType.Uniform v
    ∧ ∀ p, (Cuboid.cube pos (2 ^ k)).containsP p = true →
        (w.set_range (Cuboid.cube pos (2 ^ k)) v).at_ p = v := by
  have hKpos : (0 : Int) < 2 ^ k := by positivity
  have h26 : ((2 : Int) ^ 6) = 64 := by norm_num
  have h20 : ((2 : Int) ^ 0) = 1 := pow_zero 2
  have hlx := align_down_le pos.x
  have hly := align_down_le pos.y
  have hlz := align_down_le pos.z
  have hux := aligned_cube_in_cell k hk pos.x hdx
  have huy := aligned_cube_in_cell k hk pos.y hdy
  have huz := aligned_cube_in_cell k hk pos.z hdz
  have htrans : (Cuboid.cube pos (2 ^ k)).translate (Voxels.cellOf pos).neg
      = Cuboid.cube (pos.sub (Voxels.cellOf pos)) ((2 : Int) ^ k) := by
    rw [Cuboid.translate_cube, IVec3.add_neg_eq_sub]
  have hne' : (Cuboid.cube (pos.sub (Voxels.cellOf pos)) ((2 : Int) ^ k)).isEmpty = false :=
    cube_nonempty _ _ hKpos
  have hsub6 : (Cuboid.cube IVec3.zero (2 ^ 6)).containsR
      (Cuboid.cube (pos.sub (Voxels.cellOf pos)) ((2 : Int) ^ k)) = true := by
    rw [Cuboid.containsR_iff]
    simp only [Cuboid.cube, IVec3.zero, IVec3.add, IVec3.sub, Voxels.cellOf, h26]
    omega
  have holdwf : ((w.getCell (Voxels.cellOf pos)).getD (Node.uniform 0)).wfB 6 = true := by
    cases hg : w.getCell (Voxels.cellOf pos) with
    | none => simp only [hg, Option.getD_none]; exact Node.wfB_uniform 6 0
    | some nd => simp only [hg, Option.getD_some]; exact Voxels.wfB_getCell w hw _ nd hg
  have hnewwf : (Node.set_range 6 (Cuboid.cube (pos.sub (Voxels.cellOf pos)) ((2 : Int) ^ k)) v
      ((w.getCell (Voxels.cellOf pos)).getD (Node.uniform 0))).wfB 6 = true :=
    Node.wfB_set_range 6 _ v _ hne' hsub6 holdwf
  have hall : ∀ q, (Cuboid.cube (pos.sub (Voxels.cellOf pos)) ((2 : Int) ^ k)).containsP q = true →
      (Node.set_range 6 (Cuboid.cube (pos.sub (Voxels.cellOf pos)) ((2 : Int) ^ k)) v
        ((w.getCell (Voxels.cellOf pos)).getD (Node.uniform 0))).atPos 6 q = v := by
    intro q hq
    have hq6 : inCube 6 q := by
      rw [inCube_iff]
      rw [Cuboid.containsP_iff] at hq
      simp only [Cuboid.cube, IVec3.add, IVec3.sub, Voxels.cellOf] at hq
      simp only [h26]
      omega
    have hstep := Node.atPos_set_range 6
        (Cuboid.cube (pos.sub (Voxels.cellOf pos)) ((2 : Int) ^ k)) v
        ((w.getCell (Voxels.cellOf pos)).getD (Node.uniform 0)) q hne' hsub6 hq6
    rw [hstep, if_pos hq]
  have hdx' : (2 : Int) ^ k ∣ (pos.sub (Voxels.cellOf pos)).x := by
    show (2 : Int) ^ k ∣ pos.x - Voxels.align_down pos.x
    have h1 : pos.x - Voxels.align_down pos.x = pos.x % 64 := by
      unfold Voxels.align_down
      omega
    rw [h1]
    exact two_pow_dvd_emod64 k hk pos.x hdx
  have hdy' : (2 : Int) ^ k ∣ (pos.sub (Voxels.cellOf pos)).y := by
    show (2 : Int) ^ k ∣ pos.y - Voxels.align_down pos.y
    have h1 : pos.y - Voxels.align_down pos.y = pos.y % 64 := by
      unfold Voxels.align_down
      omega
    rw [h1]
    exact two_pow_dvd_emod64 k hk pos.y hdy
  have hdz' : (2 : Int) ^ k ∣ (pos.sub (Voxels.cellOf pos)).z := by
    show (2 : Int) ^ k ∣ pos.z - Voxels.align_down pos.z
    have h1 : pos.z - Voxels.align_down pos.z = pos.z % 64 := by
      unfold Voxels.align_down
      omega
    rw [h1]
    exact two_pow_dvd_emod64 k hk pos.z hdz
  rw [Voxels.set_range_aligned w k hk pos hdx hdy hdz]
  simp only [Voxels.LOG_CELL_SIZE, htrans]
  constructor
  · show (match (Voxels.updateCell w (Voxels.cellOf pos) fun node =>
        Node.set_range 6 (Cuboid.cube (pos.sub (Voxels.cellOf pos)) ((2 : Int) ^ k)) v
          node).getCell (Voxels.cellOf pos) with
      | none => CubeType.Uniform 0
      | some node => node.query_cube 6
          ((Cube.mk pos ((2 : Int) ^ k)).translate (Voxels.cellOf pos).neg))
      = CubeType.Uniform v
    rw [Voxels.getCell_updateCell_self]
    show (Node.set_range 6 (Cuboid.cube (pos.sub (Voxels.cellOf pos)) ((2 : Int) ^ k)) v
        ((w.getCell (Voxels.cellOf pos)).getD (Node.uniform 0))).query_cube 6
        ((Cube.mk pos ((2 : Int) ^ k)).translate (Voxels.cellOf pos).neg)
      = CubeType.Uniform v
    have hct : (Cube.mk pos ((2 : Int) ^ k)).translate (Voxels.cellOf pos).neg
        = Cube.mk (pos.sub (Voxels.cellOf pos)) ((2 : Int) ^ k) := by
      simp only [Cube.translate, IVec3.add_neg_eq_sub]
    rw [hct]
    exact Node.query_cube_eq_uniform 6 _ k (pos.sub (Voxels.cellOf pos)) v hnewwf hk
      hdx' hdy' hdz' hsub6 hall
  · intro p hp
    have hpb := hp
    rw [Cuboid.containsP_iff] at hpb
    simp only [Cuboid.cube, IVec3.add] at hpb
    have hcp : Voxels.cellOf p = Voxels.cellOf pos := by
      simp only [Voxels.cellOf, IVec3.mk.injEq]
      refine ⟨?_, ?_, ?_⟩
      · exact align_down_of_mem_cell (Voxels.align_down pos.x) p.x (align_down_mod pos.x)
          (by omega) (by omega)
      · exact align_down_of_mem_cell (Voxels.align_down pos.y) p.y (align_down_mod pos.y)
          (by omega) (by omega)
      · exact align_down_of_mem_cell (Voxels.align_down pos.z) p.z (align_down_mod pos.z)
          (by omega) (by omega)
    have hdx0 : (2 : Int) ^ 0 ∣ (p.sub (Voxels.cellOf pos)).x := by
      rw [h20]; exact one_dvd _
    have hdy0 : (2 : Int) ^ 0 ∣ (p.sub (Voxels.cellOf pos)).y := by
      rw [h20]; exact one_dvd _
    have hdz0 : (2 : Int) ^ 0 ∣ (p.sub (Voxels.cellOf pos)).z := by
      rw [h20]; exact one_dvd _
    have hsub0 : (Cuboid.cube IVec3.zero (2 ^ 6)).containsR
        (Cuboid.cube (p.sub (Voxels.cellOf pos)) ((2 : Int) ^ 0)) = true := by
      rw [Cuboid.containsR_iff]
      simp only [Cuboid.cube, IVec3.zero, IVec3.add, IVec3.sub, Voxels.cellOf, h26, h20]
      omega
    have hall0 : ∀ q, (Cuboid.cube (p.sub (Voxels.cellOf pos)) ((2 : Int) ^ 0)).containsP q
          = true →
        (Node.set_range 6 (Cuboid.cube (pos.sub (Voxels.cellOf pos)) ((2 : Int) ^ k)) v
          ((w.getCell (Voxels.cellOf pos)).getD (Node.uniform 0))).atPos 6 q = v := by
      intro q hq
      rw [h20] at hq
      have hq' := (unit_containsP_iff _ _).mp hq
      subst hq'
      apply hall
      rw [Cuboid.containsP_iff]
      simp only [Cuboid.cube, IVec3.add, IVec3.sub, Voxels.cellOf]
      omega
    have hq1 : (Voxels.updateCell w (Voxels.cellOf pos) fun node =>
        Node.set_range 6 (Cuboid.cube (pos.sub (Voxels.cellOf pos)) ((2 : Int) ^ k)) v
          node).query_cube (Cube.mk p 1) = CubeType.Uniform v := by
      show (match (Voxels.updateCell w (Voxels.cellOf pos) fun node =>
          Node.set_range 6 (Cuboid.cube (pos.sub (Voxels.cellOf pos)) ((2 : Int) ^ k)) v
            node).getCell (Voxels.cellOf p) with
        | none => CubeType.Uniform 0
        | some node => node.query_cube 6 ((Cube.mk p (1 : Int)).translate (Voxels.cellOf p).neg))
        = CubeType.Uniform v
      rw [hcp, Voxels.getCell_updateCell_self]
      show (Node.set_range 6 (Cuboid.cube (pos.sub (Voxels.cellOf pos)) ((2 : Int) ^ k)) v
          ((w.getCell (Voxels.cellOf pos)).getD (Node.uniform 0))).query_cube 6
          ((Cube.mk p (1 : Int)).translate (Voxels.cellOf pos).neg)
        = CubeType.Uniform v
      have hct1 : (Cube.mk p (1 : Int)).translate (Voxels.cellOf pos).neg
          = Cube.mk (p.sub (Voxels.cellOf pos)) ((2 : Int) ^ 0) := by
        simp only [Cube.translate, IVec3.add_neg_eq_sub, h20]
      rw [hct1]
      exact Node.query_cube_eq_uniform 6 _ 0 (p.sub (Voxels.cellOf pos)) v hnewwf
        (by omega) hdx0 hdy0 hdz0 hsub0 hall0
    unfold Voxels.at_
    rw [hq1]

/-- Witness for C1: filling the 2×2×2 cube at the origin of the empty world
with value 5. -/
theorem C1_set_range_query_uniform_witness :
    (Voxels.empty.set_range (Cuboid.cube (IVec3.mk 0 0 0) (2 ^ 1)) 5).query_cube
        (Cube.mk (IVec3.mk 0 0 0) ((2 : Int) ^ 1)) = CubeType.Uniform 5
    ∧ ∀ p, (Cuboid.cube (IVec3.mk 0 0 0) (2 ^ 1)).containsP p = true →
        (Voxels.empty.set_range (Cuboid.cube (IVec3.mk 0 0 0) (2 ^ 1)) 5).at_ p = 5 :=
  C1_set_range_query_uniform Voxels.empty rfl 1 (by norm_num) (IVec3.mk 0 0 0)
    ⟨0, by norm_num⟩ ⟨0, by norm_num⟩ ⟨0, by norm_num⟩ 5

/-! ## Claim C6: composites never hold eight identical uniforms; fills collapse -/

/-- C6: After any sequence of in-range `set_range` calls on a well-formed
node, the result is never a `Composite` whose eight children are the same
`Uniform` node; and a sequence of unit `set_range` calls that covers every
position of the node with one value `v` collapses the representation to
`Uniform v`. -/
theorem C6_collapse_invariant (m : Nat) (node : Node) (hwf : node.wfB m = true) :
    (∀ ops : List (Cuboid × VoxelType),
      (∀ op ∈ ops, op.1.isEmpty = false ∧
        (Cuboid.cube IVec3.zero (2 ^ m)).containsR op.1 = true) →
      ∀ v, ops.foldl (fun nd op => nd.set_range m op.1 op.2) node
        ≠ Node.composite (Node.uniform v) (Node.uniform v) (Node.uniform v) (Node.uniform v)
            (Node.uniform v) (Node.uniform v) (Node.uniform v) (Node.uniform v))
    ∧ ∀ (v : VoxelType) (ps : List IVec3),
        (∀ q ∈ ps, inCube m q) →
        (∀ p, inCube m p → ∃ q ∈ ps, (Cuboid.cube q 1).containsP p = true) →
        ps.foldl (fun nd q => nd.set_range m (Cuboid.cube q 1) v) node = Node.uniform v := by
  constructor
  · intro ops hops v hEq
    have key : ∀ (l : List (Cuboid × VoxelType)) (nd : Node), nd.wfB m = true →
        (∀ op ∈ l, op.1.isEmpty = false ∧
          (Cuboid.cube IVec3.zero (2 ^ m)).containsR op.1 = true) →
        (l.foldl (fun nd op => nd.set_range m op.1 op.2) nd).wfB m = true := by
      intro l
      induction l with
      | nil => intro nd h _; exact h
      | cons op rest ih =>
        intro nd h hl
        rw [List.foldl_cons]
        exact ih _ (Node.wfB_set_range m op.1 op.2 nd (hl op (List.mem_cons_self op rest)).1
            (hl op (List.mem_cons_self op rest)).2 h)
          (fun o ho => hl o (List.mem_cons_of_mem op ho))
    have hwffold := key ops node hwf hops
    rw [hEq] at hwffold
    cases m with
    | zero => simp [Node.wfB] at hwffold
    | succ m' => simp [Node.wfB] at hwffold
  · intro v ps hps hcov
    apply Node.eq_uniform_of_wf m _ v (Node.wfB_foldl_fill m v ps node hps hwf)
    intro p hp
    rw [Node.atPos_foldl_fill m v ps node p hps hp, if_pos (hcov p hp)]

/-- Witness for C6: filling a size-2 node voxel by voxel with value 7
collapses it to `Uniform 7`. -/
theorem C6_collapse_invariant_witness :
    ([IVec3.mk 0 0 0, IVec3.mk 1 0 0, IVec3.mk 0 1 0, IVec3.mk 1 1 0,
      IVec3.mk 0 0 1, IVec3.mk 1 0 1, IVec3.mk 0 1 1, IVec3.mk 1 1 1]).foldl
      (fun nd q => nd.set_range 1 (Cuboid.cube q 1) 7) (Node.uniform 0) = Node.uniform 7 := by
  apply (C6_collapse_invariant 1 (Node.uniform 0) rfl).2 7
  · intro q hq
    fin_cases hq <;> (unfold inCube; decide)
  · intro p hp
    have h21 : ((2 : Int) ^ 1) = 2 := by norm_num
    rw [inCube_iff, h21] at hp
    refine ⟨IVec3.mk p.x p.y p.z, ?_, (unit_containsP_iff _ _).mpr ?_⟩
    · simp only [List.mem_cons, List.not_mem_nil, or_false, IVec3.mk.injEq]
      omega
    · exact rfl

/-! ## Claim C7: absent cell keys versus entirely-empty cells -/

/-- C7 counterexample: `set_range` writing the empty voxel value `0` into a
previously absent cell (via `entry(..).or_default()`) creates a present key
whose node is `Uniform 0`, i.e. an entirely empty cell with a present key.
So "key absent ⇔ cell entirely empty" fails right-to-left. -/
theorem C7_counterexample :
    (Voxels.empty.set_range (Cuboid.cube (IVec3.mk 0 0 0) 1) 0).getCell (IVec3.mk 0 0 0)
      = some (Node.uniform 0) := by
  decide

/-- C7 (amended): the direction that does hold: an absent cell key reads as
entirely empty — every position whose cell key is absent reads voxel `0`
(`EMPTY`). -/
theorem C7_absent_cell_reads_empty (w : Voxels) (p : IVec3)
    (h : w.getCell (Voxels.cellOf p) = none) : w.at_ p = 0 := by
  have hq : w.query_cube (Cube.mk p 1) = CubeType.Uniform 0 := by
    show (match w.getCell (Voxels.cellOf p) with
      | none => CubeType.Uniform 0
      | some node => node.query_cube Voxels.LOG_CELL_SIZE
          ((Cube.mk p (1 : Int)).translate (Voxels.cellOf p).neg)) = CubeType.Uniform 0
    rw [h]
  unfold Voxels.at_
  rw [hq]

/-- Witness for the amended C7: in the empty world every position reads `0`. -/
theorem C7_absent_cell_reads_empty_witness :
    Voxels.empty.at_ (IVec3.mk 3 4 5) = 0 :=
  C7_absent_cell_reads_empty Voxels.empty (IVec3.mk 3 4 5) rfl

/-! ## Lightmap allocation (`lightmap_allocator.rs`, `rectangle.rs`, `direction.rs`) -/

/-- `Direction` (`direction.rs`): the six axis directions. -/
inductive Direction
  | MinusX
  | X
  | MinusY
  | Y
  | MinusZ
  | Z
deriving DecidableEq, Repr

/-- `uvec2`: unsigned 2D vector; components as `Nat` (all arithmetic below
stays far from the `u32` range). -/
structure UVec2 where
  x : Nat
  y : Nat
deriving DecidableEq, Repr

/-- `Rectangle` (`rectangle.rs`): an axis-aligned face of the voxel world. -/
structure Rectangle where
  position : IVec3
  size : UVec2
  direction : Direction
deriving DecidableEq, Repr

/-- `MARGIN` between lightmap islands. -/
def MARGIN : Nat := 2

/-- `LightmapAllocator` state (`lightmap_allocator.rs`). -/
structure LightmapAllocator where
  size : Nat
  curr : UVec2
  next_y : Nat
deriving DecidableEq, Repr

namespace LightmapAllocator

/-- `LightmapAllocator::new`. -/
def new (size : Nat) : LightmapAllocator := ⟨size, ⟨1, 1⟩, 1⟩

/-- `LightmapAllocator::alloc`: allocate a `(W+1)×(H+1)` island for a `W×H`
face, returning the uv position and the updated allocator. -/
def alloc (a : LightmapAllocator) (sz : UVec2) : UVec2 × LightmapAllocator :=
  let sz := UVec2.mk (sz.x + 1) (sz.y + 1)
  let a :=
    if a.curr.x + sz.x ≥ a.size then
      { a with curr := UVec2.mk MARGIN a.next_y }
    else a
  let a := { a with next_y := Nat.max a.next_y (a.curr.y + sz.y + MARGIN) }
  (a.curr, { a with curr := UVec2.mk (a.curr.x + sz.x + MARGIN) a.curr.y })

/-- The stateful `map` inside `alloc_all`: allocate each face in order. -/
def alloc_list (a : LightmapAllocator) :
    List Rectangle → List (Rectangle × UVec2) × LightmapAllocator
  | [] => ([], a)
  | face :: rest =>
    let r := a.alloc face.size
    let tail := r.2.alloc_list rest
    ((face, r.1) :: tail.1, tail.2)

/-- `LightmapAllocator::alloc_all`: sort the faces by `r.size.y`
(`sort_by_key`, a stable ascending sort) then allocate each in order. -/
def alloc_all (a : LightmapAllocator) (faces : List Rectangle) :
    List (Rectangle × UVec2) × LightmapAllocator :=
  a.alloc_list (faces.mergeSort fun r s => decide (r.size.y ≤ s.size.y))

theorem alloc_list_fst (l : List Rectangle) :
    ∀ a : LightmapAllocator, ((a.alloc_list l).1.map fun fuv => fuv.1) = l := by
  induction l with
  | nil => intro a; rfl
  | cons f fs ih =>
    intro a
    simp only [alloc_list, List.map_cons, ih]

end LightmapAllocator

/-! ## Claim C10: presentation order of faces to the allocator -/

/-- C10 counterexample: `alloc_all` sorts by `r.size.y` ASCENDING
(`sort_by_key` sorts ascending), so a short face is allocated before a tall
one: the allocated heights here come out `[1, 2]`, not descending. -/
theorem C10_counterexample :
    (((LightmapAllocator.new 64).alloc_all
        [Rectangle.mk IVec3.zero (UVec2.mk 1 2) Direction.X,
         Rectangle.mk IVec3.zero (UVec2.mk 1 1) Direction.X]).1.map
      fun fuv => fuv.1.size.y) = [1, 2] := by
  have hms : ([Rectangle.mk IVec3.zero (UVec2.mk 1 2) Direction.X,
      Rectangle.mk IVec3.zero (UVec2.mk 1 1) Direction.X].mergeSort
        fun r s => decide (r.size.y ≤ s.size.y))
      = [Rectangle.mk IVec3.zero (UVec2.mk 1 1) Direction.X,
         Rectangle.mk IVec3.zero (UVec2.mk 1 2) Direction.X] := by
    simp [List.mergeSort, List.merge]
  simp only [LightmapAllocator.alloc_all, hms]
  decide

/-- C10 (amended): the faces are presented to the strip-packing allocator
sorted by ASCENDING height: for every pair of consecutively allocated faces,
the earlier one's height is at most the later one's. -/
theorem C10_alloc_all_ascending (a : LightmapAllocator) (faces : List Rectangle) :
    List.Chain' (fun f g => f.1.size.y ≤ g.1.size.y) (a.alloc_all faces).1 := by
  have h1 : ((a.alloc_all faces).1.map fun fuv => fuv.1)
      = faces.mergeSort fun r s => decide (r.size.y ≤ s.size.y) :=
    LightmapAllocator.alloc_list_fst _ a
  have h2 : List.Chain' (fun r s : Rectangle => r.size.y ≤ s.size.y)
      (faces.mergeSort fun r s => decide (r.size.y ≤ s.size.y)) := by
    apply List.Pairwise.chain'
    have h3 := @List.sorted_mergeSort _
      (fun r s : Rectangle => decide (r.size.y ≤ s.size.y))
      (fun r s t hrs hst => by
        simp only [decide_eq_true_eq] at hrs hst ⊢
        omega)
      (fun r s => by
        simp only [Bool.or_eq_true, decide_eq_true_eq]
        omega)
      faces
    refine h3.imp ?_
    intro r s h
    simpa using h
  rw [← h1] at h2
  exact (List.chain'_map (fun fuv : Rectangle × UVec2 => fuv.1)).mp h2

/-! ## Bakery worker (`bakery.rs`) -/

/-- Backlog-relevant `Request`s of `bakery.rs` (`RequestFullBake` performs
file IO outside the backlog scheduling and is not modelled). -/
inductive Request
  | UpdateCell (cell_pos : IVec3) (cell : Node)
  | RequestVAO (cell_pos : IVec3)
  | RequestLightmap (cell_pos : IVec3)
deriving DecidableEq, Repr

/-- `HashSet::insert`: add an element if absent.  The hash set is modelled
as a duplicate-free list; iteration order is a model choice (the claim below
is order-independent on the VAO side). -/
def hashset_insert (s : List IVec3) (x : IVec3) : List IVec3 :=
  if x ∈ s then s else s ++ [x]

/-- `Worker` state (`bakery.rs`): its copy-on-write voxel copy and the two
backlogs. -/
structure Worker where
  voxels : Voxels
  vao_backlog : List IVec3
  lightmap_backlog : List IVec3
deriving DecidableEq, Repr

namespace Worker

/-- `Worker::handle_message`: `UpdateCell` stores the cell
(`Voxels::set_cell` = map insert), the two request kinds insert into their
backlog. -/
def handle_message (w : Worker) : Request → Worker
  | Request.UpdateCell cell_pos cell =>
      { w with voxels := w.voxels.updateCell cell_pos fun _ => cell }
  | Request.RequestVAO cell_pos =>
      { w with vao_backlog := hashset_insert w.vao_backlog cell_pos }
  | Request.RequestLightmap cell_pos =>
      { w with lightmap_backlog := hashset_insert w.lightmap_backlog cell_pos }

/-- Handling a whole queue of messages in order (`try_drain`). -/
def handle_all (w : Worker) (msgs : List Request) : Worker :=
  msgs.foldl Worker.handle_message w

/-- `Worker::bake_one_fast`, parameterized by the baking function
`bake_cell_buffer` (pure in the worker state).  Returns the updated worker
and the list of emitted `Response` batches.  If the VAO backlog is
non-empty, ALL its cells are drained, baked and sent as one batch;
otherwise one lightmap-backlog entry is popped and baked. -/
def bake_one_fast {β : Type} (bake : Voxels → IVec3 → Option β) (w : Worker) :
    Worker × List (List (IVec3 × β)) :=
  if w.vao_backlog.isEmpty = false then
    let models := w.vao_backlog.filterMap fun cell_pos =>
      (bake w.voxels cell_pos).map fun m => (cell_pos, m)
    ({ w with vao_backlog := [] }, [models])
  else
    match w.lightmap_backlog with
    | [] => (w, [])
    | cell_pos :: rest =>
      match bake w.voxels cell_pos with
      | some result => ({ w with lightmap_backlog := rest }, [[(cell_pos, result)]])
      | none => ({ w with lightmap_backlog := rest }, [])

end Worker

theorem mem_hashset_insert_self (s : List IVec3) (x : IVec3) : x ∈ hashset_insert s x := by
  unfold hashset_insert
  by_cases h : x ∈ s
  · rw [if_pos h]; exact h
  · rw [if_neg h]; exact List.mem_append_right s (List.mem_singleton.mpr rfl)

theorem mem_hashset_insert_of_mem (s : List IVec3) (x p : IVec3) (h : p ∈ s) :
    p ∈ hashset_insert s x := by
  unfold hashset_insert
  by_cases hx : x ∈ s
  · rw [if_pos hx]; exact h
  · rw [if_neg hx]; exact List.mem_append_left _ h

theorem Worker.vao_handle_message_mono (w : Worker) (m : Request) (p : IVec3)
    (h : p ∈ w.vao_backlog) : p ∈ (w.handle_message m).vao_backlog := by
  cases m with
  | UpdateCell a b => exact h
  | RequestVAO q => exact mem_hashset_insert_of_mem _ q p h
  | RequestLightmap q => exact h

theorem Worker.mem_vao_handle_all (msgs : List Request) : ∀ (w : Worker) (p : IVec3),
    (Request.RequestVAO p ∈ msgs ∨ p ∈ w.vao_backlog) →
    p ∈ (w.handle_all msgs).vao_backlog := by
  induction msgs with
  | nil =>
    intro w p h
    rcases h with h | h
    · cases h
    · exact h
  | cons m ms ih =>
    intro w p h
    show p ∈ ((w.handle_message m).handle_all ms).vao_backlog
    apply ih
    rcases h with h | h
    · rcases List.mem_cons.mp h with hm | h2
      · right
        rw [← hm]
        exact mem_hashset_insert_self _ p
      · left; exact h2
    · right
      exact Worker.vao_handle_message_mono w m p h

/-! ## Claim C8: VAO backlog is drained in one batch before lightmap work -/

/-- C8: After enqueueing any sequence of requests containing a
`RequestVAO p` — in any order, and with any lightmap requests pending — the
next `bake_one_fast` step emits exactly one batch holding the baked results
of ALL VAO-backlog cells (including `p`'s), empties the VAO backlog, and
leaves the lightmap backlog untouched (no lightmap-only request is
serviced). -/
theorem C8_vao_batch_first {β : Type} (bake : Voxels → IVec3 → Option β)
    (w : Worker) (msgs : List Request) (p : IVec3)
    (hp : Request.RequestVAO p ∈ msgs) :
    p ∈ (w.handle_all msgs).vao_backlog
    ∧ (Worker.bake_one_fast bake (w.handle_all msgs)).2
        = [(w.handle_all msgs).vao_backlog.filterMap fun cell_pos =>
            (bake (w.handle_all msgs).voxels cell_pos).map fun m => (cell_pos, m)]
    ∧ (Worker.bake_one_fast bake (w.handle_all msgs)).1.vao_backlog = []
    ∧ (Worker.bake_one_fast bake (w.handle_all msgs)).1.lightmap_backlog
        = (w.handle_all msgs).lightmap_backlog := by
  have hpmem : p ∈ (w.handle_all msgs).vao_backlog :=
    Worker.mem_vao_handle_all msgs w p (Or.inl hp)
  have hne : (w.handle_all msgs).vao_backlog.isEmpty = false := by
    cases h : (w.handle_all msgs).vao_backlog with
    | nil => rw [h] at hpmem; cases hpmem
    | cons a l => rfl
  have hbake : Worker.bake_one_fast bake (w.handle_all msgs)
      = ({ w.handle_all msgs with vao_backlog := [] },
         [(w.handle_all msgs).vao_backlog.filterMap fun cell_pos =>
            (bake (w.handle_all msgs).voxels cell_pos).map fun m => (cell_pos, m)]) := by
    unfold Worker.bake_one_fast
    simp only [hne, if_pos]
  refine ⟨hpmem, ?_, ?_, ?_⟩ <;> rw [hbake]

/-- Witness for C8: lightmap requests enqueued before and after a VAO
request; the next bake drains the VAO batch and leaves all three lightmap
requests pending. -/
theorem C8_vao_batch_first_witness :
    (IVec3.mk 0 0 0) ∈ ((Worker.mk Voxels.empty [] []).handle_all
        [Request.RequestLightmap (IVec3.mk 64 0 0),
         Request.RequestLightmap (IVec3.mk 128 0 0),
         Request.UpdateCell (IVec3.mk 0 0 0) (Node.uniform 3),
         Request.RequestVAO (IVec3.mk 0 0 0),
         Request.RequestLightmap (IVec3.mk 192 0 0)]).vao_backlog
    ∧ (Worker.bake_one_fast (fun v cell_pos => some (v.at_ cell_pos))
        ((Worker.mk Voxels.empty [] []).handle_all
          [Request.RequestLightmap (IVec3.mk 64 0 0),
           Request.RequestLightmap (IVec3.mk 128 0 0),
           Request.UpdateCell (IVec3.mk 0 0 0) (Node.uniform 3),
           Request.RequestVAO (IVec3.mk 0 0 0),
           Request.RequestLightmap (IVec3.mk 192 0 0)])).2
        = [((Worker.mk Voxels.empty [] []).handle_all
            [Request.RequestLightmap (IVec3.mk 64 0 0),
             Request.RequestLightmap (IVec3.mk 128 0 0),
             Request.UpdateCell (IVec3.mk 0 0 0) (Node.uniform 3),
             Request.RequestVAO (IVec3.mk 0 0 0),
             Request.RequestLightmap (IVec3.mk 192 0 0)]).vao_backlog.filterMap
            fun cell_pos =>
              (some (((Worker.mk Voxels.empty [] []).handle_all
                [Request.RequestLightmap (IVec3.mk 64 0 0),
                 Request.RequestLightmap (IVec3.mk 128 0 0),
                 Request.UpdateCell (IVec3.mk 0 0 0) (Node.uniform 3),
                 Request.RequestVAO (IVec3.mk 0 0 0),
                 Request.RequestLightmap (IVec3.mk 192 0 0)]).voxels.at_ cell_pos)).map
                fun m => (cell_pos, m)]
    ∧ (Worker.bake_one_fast (fun v cell_pos => some (v.at_ cell_pos))
        ((Worker.mk Voxels.empty [] []).handle_all
          [Request.RequestLightmap (IVec3.mk 64 0 0),
           Request.RequestLightmap (IVec3.mk 128 0 0),
           Request.UpdateCell (IVec3.mk 0 0 0) (Node.uniform 3),
           Request.RequestVAO (IVec3.mk 0 0 0),
           Request.RequestLightmap (IVec3.mk 192 0 0)])).1.vao_backlog = []
    ∧ (Worker.bake_one_fast (fun v cell_pos => some (v.at_ cell_pos))
        ((Worker.mk Voxels.empty [] []).handle_all
          [Request.RequestLightmap (IVec3.mk 64 0 0),
           Request.RequestLightmap (IVec3.mk 128 0 0),
           Request.UpdateCell (IVec3.mk 0 0 0) (Node.uniform 3),
           Request.RequestVAO (IVec3.mk 0 0 0),
           Request.RequestLightmap (IVec3.mk 192 0 0)])).1.lightmap_backlog
        = ((Worker.mk Voxels.empty [] []).handle_all
            [Request.RequestLightmap (IVec3.mk 64 0 0),
             Request.RequestLightmap (IVec3.mk 128 0 0),
             Request.UpdateCell (IVec3.mk 0 0 0) (Node.uniform 3),
             Request.RequestVAO (IVec3.mk 0 0 0),
             Request.RequestLightmap (IVec3.mk 192 0 0)]).lightmap_backlog :=
  C8_vao_batch_first (fun v cell_pos => some (v.at_ cell_pos))
    (Worker.mk Voxels.empty [] [])
    [Request.RequestLightmap (IVec3.mk 64 0 0),
     Request.RequestLightmap (IVec3.mk 128 0 0),
     Request.UpdateCell (IVec3.mk 0 0 0) (Node.uniform 3),
     Request.RequestVAO (IVec3.mk 0 0 0),
     Request.RequestLightmap (IVec3.mk 192 0 0)]
    (IVec3.mk 0 0 0) (by decide)

/-! ## Server game state (`server_state.rs`: the kill-handling fragment)

`HashMap`s are modelled as association lists.  Presentation-only payloads
(HUD/log text, sound positions and volumes, effect positions and colors)
are dropped; message and effect constructors are kept.  RNG-driven choices
(`by_chance`, `pick_spawn_point`, `new_entity_id`) enter as oracle
arguments. -/

/-- Association-list lookup by key. -/
def alist_lookup {α : Type} [DecidableEq α] {β : Type} (l : List (α × β)) (k : α) : Option β :=
  (l.find? fun kv => kv.1 = k).map fun kv => kv.2

/-- `HashMap::entry(k).or_default()` followed by an update `f`: modify in
place when the key is present, else append `(k, f d)`. -/
def alist_update {α : Type} [DecidableEq α] {β : Type} (l : List (α × β)) (k : α) (d : β)
    (f : β → β) : List (α × β) :=
  if l.any fun kv => kv.1 = k then
    l.map fun kv => if kv.1 = k then (kv.1, f kv.2) else kv
  else l ++ [(k, f d)]

theorem galist_find_map_self {α : Type} [DecidableEq α] {β : Type} (l : List (α × β)) (k : α)
    (f : β → β) :
    (l.map fun kv => if kv.1 = k then (kv.1, f kv.2) else kv).find? (fun kv => kv.1 = k)
      = (l.find? fun kv => kv.1 = k).map fun kv => (kv.1, f kv.2) := by
  induction l with
  | nil => rfl
  | cons kv kvs ih =>
    by_cases hk : kv.1 = k
    · simp [List.find?_cons, hk]
    · simp [List.find?_cons, hk, ih]

theorem galist_find_map_other {α : Type} [DecidableEq α] {β : Type} (l : List (α × β))
    (k q : α) (hne : q ≠ k) (f : β → β) :
    (l.map fun kv => if kv.1 = k then (kv.1, f kv.2) else kv).find? (fun kv => kv.1 = q)
      = l.find? fun kv => kv.1 = q := by
  have hpq : (decide (k = q)) = false := decide_eq_false fun h => hne h.symm
  induction l with
  | nil => rfl
  | cons kv kvs ih =>
    simp only [List.map_cons, List.find?_cons]
    by_cases hk : kv.1 = k
    · rw [if_pos hk, hk]
      simp only [hpq]
      exact ih
    · rw [if_neg hk]
      cases hq : decide (kv.1 = q)
      · simp only [hq]
        exact ih
      · simp only [hq]

theorem galist_find_append_none {α β : Type} (l1 l2 : List (α × β)) (p : α × β → Bool)
    (h : l1.find? p = none) : (l1 ++ l2).find? p = l2.find? p := by
  induction l1 with
  | nil => rfl
  | cons kv kvs ih =>
    rw [List.find?_cons] at h
    rw [List.cons_append, List.find?_cons]
    cases hp : p kv
    · rw [hp] at h
      simp only
      exact ih h
    · rw [hp] at h
      cases h

theorem galist_find_append_some {α β : Type} (l1 l2 : List (α × β)) (p : α × β → Bool)
    (kv : α × β) (h : l1.find? p = some kv) : (l1 ++ l2).find? p = some kv := by
  induction l1 with
  | nil => cases h
  | cons kv0 kvs ih =>
    rw [List.find?_cons] at h
    rw [List.cons_append, List.find?_cons]
    cases hp : p kv0
    · rw [hp] at h
      simp only
      exact ih h
    · rw [hp] at h
      simp only
      exact h

theorem galist_not_any_find_none {α : Type} [DecidableEq α] {β : Type} (l : List (α × β))
    (k : α) (h : ¬(l.any fun kv => kv.1 = k) = true) :
    (l.find? fun kv => kv.1 = k) = none := by
  rw [List.find?_eq_none]
  intro kv hmem hkv
  apply h
  rw [List.any_eq_true]
  exact ⟨kv, hmem, hkv⟩

theorem alist_lookup_update_self {α : Type} [DecidableEq α] {β : Type} (l : List (α × β))
    (k : α) (d : β) (f : β → β) :
    alist_lookup (alist_update l k d f) k = some (f ((alist_lookup l k).getD d)) := by
  unfold alist_update alist_lookup
  by_cases hany : (l.any fun kv => kv.1 = k) = true
  · rw [if_pos hany, galist_find_map_self]
    rw [List.any_eq_true] at hany
    obtain ⟨kv, hmem, hkv⟩ := hany
    have hsome : ∃ kv0, (l.find? fun kv => kv.1 = k) = some kv0 := by
      cases hf : l.find? fun kv => kv.1 = k
      · exfalso
        rw [List.find?_eq_none] at hf
        exact absurd hkv (hf kv hmem)
      · exact ⟨_, rfl⟩
    obtain ⟨kv0, hf⟩ := hsome
    rw [hf]
    rfl
  · rw [if_neg hany, galist_find_append_none _ _ _ (galist_not_any_find_none _ _ hany),
      galist_not_any_find_none _ _ hany]
    simp [List.find?_cons]

theorem alist_lookup_update_other {α : Type} [DecidableEq α] {β : Type} (l : List (α × β))
    (k q : α) (hne : q ≠ k) (d : β) (f : β → β) :
    alist_lookup (alist_update l k d f) q = alist_lookup l q := by
  unfold alist_update alist_lookup
  by_cases hany : (l.any fun kv => kv.1 = k) = true
  · rw [if_pos hany, galist_find_map_other _ _ _ hne]
  · rw [if_neg hany]
    cases hf : l.find? fun kv => kv.1 = q
    · rw [galist_find_append_none _ _ _ hf]
      have hpq : (decide (k = q)) = false := decide_eq_false fun h => hne h.symm
      simp only [List.find?_cons, hpq]
      rfl
    · rw [galist_find_append_some _ _ _ _ hf]

/-- Player key (`type ID = u32`). -/
abbrev ID := Nat

/-- `EID` (`entity.rs`). -/
abbrev EID := Nat

/-- A spawn point, identified by its index in the map metadata
(`pick_spawn_point` draws it from the RNG). -/
abbrev SpawnPoint := Nat

/-- `Team` (`team.rs`). -/
inductive Team
  | Red
  | Blue
  | Green
deriving DecidableEq, Repr

/-- `EKind` (`entity.rs`). -/
inductive EKind
  | GiftBox (pickup_point_id : Option Nat)
  | CowboyHat
  | BerserkerHelmet
  | PartyHat
  | XMasHat
deriving DecidableEq, Repr

/-- `EKind::is_kind`: same discriminant, payloads ignored. -/
def EKind.is_kind : EKind → EKind → Bool
  | EKind.GiftBox _, EKind.GiftBox _ => true
  | EKind.CowboyHat, EKind.CowboyHat => true
  | EKind.BerserkerHelmet, EKind.BerserkerHelmet => true
  | EKind.PartyHat, EKind.PartyHat => true
  | EKind.XMasHat, EKind.XMasHat => true
  | _, _ => false

/-- `Player` (`player.rs`): the fields read or written by the kill path.
`skeleton`, `name`, `avatar_id`, `health` and `local` feed only into
dropped presentation payloads.  The f32 time-to-live is modelled as `ℚ`. -/
structure Player where
  team : Team
  spawned : Bool
  powerup : Option EKind
  invulnerability_ttl : Option ℚ
deriving DecidableEq, Repr

/-- Placeholder for `Players::index` on a missing ID (the source panics
there; every use below is guarded by `contains`). -/
def defaultPlayer : Player := Player.mk Team.Red false none none

/-- `DEFAULT_INVULN_TTL = 1.5` seconds. -/
def DEFAULT_INVULN_TTL : ℚ := 3 / 2

/-- `GameType` (`gametype.rs`); `TeamMatch` holds `team_score: [i32; 3]`. -/
inductive GameType
  | DeadMatch
  | TeamMatch (red blue green : Int)
deriving DecidableEq, Repr

/-- `GameType::is_team`. -/
def GameType.is_team : GameType → Bool
  | GameType.DeadMatch => false
  | GameType.TeamMatch _ _ _ => true

/-- `tm.team_score[team as usize] += delta` (no-op for `DeadMatch`). -/
def GameType.add_team_score (g : GameType) (t : Team) (delta : Int) : GameType :=
  match g with
  | GameType.DeadMatch => GameType.DeadMatch
  | GameType.TeamMatch r b gr =>
    match t with
    | Team.Red => GameType.TeamMatch (r + delta) b gr
    | Team.Blue => GameType.TeamMatch r (b + delta) gr
    | Team.Green => GameType.TeamMatch r b (gr + delta)

/-- `HUDUpdate` kinds (`hud.rs`); text payloads dropped. -/
inductive HUDUpdate
  | Message
  | Log
  | Score
deriving DecidableEq, Repr

/-- The two `Effect` smart constructors of the kill path (`effect.rs`);
positions and colors dropped. -/
inductive Effect
  | particle_explosion
  | ricochet
deriving DecidableEq, Repr

/-- `Entity` (`entity.rs`): id and kind (position dropped). -/
structure Entity where
  id : EID
  kind : EKind
deriving DecidableEq, Repr

/-- `ServerMsg` variants emitted by the kill path (`message.rs`).
`UpdatePlayer` carries the player id explicitly (the source's `Player`
embeds it). `PlaySound` is reduced to its clip name. -/
inductive ServerMsg
  | RequestRespawn (spawn_point : SpawnPoint)
  | UpdatePlayer (player_id : ID) (player : Player)
  | UpdateEntity (entity : Entity)
  | AddEffect (effect : Effect)
  | PlaySound (clip_name : String)
  | UpdateHUD (update : HUDUpdate)
deriving DecidableEq, Repr

/-- `Addressee` (`message.rs`). -/
inductive Addressee
  | Just (player_id : ID)
  | Not (player_id : ID)
  | All
deriving DecidableEq, Repr

/-- `Envelope<ServerMsg>` (`message.rs`); the source field `to` is a Lean
keyword and is named `addressee` here. -/
structure Envelope where
  addressee : Addressee
  msg : ServerMsg
deriving DecidableEq, Repr

/-- `ServerState` fragment used by kill handling. -/
structure ServerState where
  players : List (ID × Player)
  score : List (ID × Int)
  gametype : GameType
  entities : List (EID × Entity)
  enable_levelling : Bool
  pending_diffs : List Envelope
deriving DecidableEq, Repr

namespace ServerState

/-- `self.world.players.contains(id)`. -/
def contains_player (s : ServerState) (player_id : ID) : Bool :=
  (alist_lookup s.players player_id).isSome

/-- `self.player(id)` (guarded by `contains_player` at every use site). -/
def player (s : ServerState) (player_id : ID) : Player :=
  (alist_lookup s.players player_id).getD defaultPlayer

/-- In-place player mutation (`player_mut`). -/
def update_player (s : ServerState) (player_id : ID) (f : Player → Player) : ServerState :=
  { s with players := alist_update s.players player_id defaultPlayer f }

/-- `self.score(id)`: stored score or 0. -/
def score_of (s : ServerState) (player_id : ID) : Int :=
  (alist_lookup s.score player_id).getD 0

/-- `record_add_effect`: push `AddEffect(effect).to_all()`. -/
def record_add_effect (s : ServerState) (effect : Effect) : ServerState :=
  { s with pending_diffs := s.pending_diffs ++ [Envelope.mk Addressee.All (ServerMsg.AddEffect effect)] }

/-- `record_add_entity`: insert the entity and push `UpdateEntity.to_all()`. -/
def record_add_entity (s : ServerState) (entity : Entity) : ServerState :=
  { s with
    entities := alist_update s.entities entity.id entity fun _ => entity,
    pending_diffs := s.pending_diffs ++ [Envelope.mk Addressee.All (ServerMsg.UpdateEntity entity)] }

/-- `record_apply_to_player`: apply `f`, push `UpdatePlayer.to_all()`. -/
def record_apply_to_player (s : ServerState) (player_id : ID) (f : Player → Player) :
    ServerState :=
  let s1 := s.update_player player_id f
  { s1 with pending_diffs := s1.pending_diffs ++
      [Envelope.mk Addressee.All (ServerMsg.UpdatePlayer player_id (s1.player player_id))] }

/-- `broadcast_sound_at`: push `PlaySound.to_all()` (spatial payload dropped). -/
def broadcast_sound_at (s : ServerState) (clip_name : String) : ServerState :=
  { s with pending_diffs := s.pending_diffs ++ [Envelope.mk Addressee.All (ServerMsg.PlaySound clip_name)] }

/-- `hud_message`: push `UpdateHUD(Message).to_just(id)`. -/
def hud_message (s : ServerState) (player_id : ID) : ServerState :=
  { s with pending_diffs := s.pending_diffs ++
      [Envelope.mk (Addressee.Just player_id) (ServerMsg.UpdateHUD HUDUpdate.Message)] }

/-- `log`: push `UpdateHUD(Log).to_all()`. -/
def log (s : ServerState) : ServerState :=
  { s with pending_diffs := s.pending_diffs ++
      [Envelope.mk Addressee.All (ServerMsg.UpdateHUD HUDUpdate.Log)] }

/-- `broadcast_scores_mini`: one `UpdateHUD(Score).to_just(id)` per player. -/
def broadcast_scores_mini (s : ServerState) : ServerState :=
  { s with pending_diffs := s.pending_diffs ++
      s.players.map fun kv => Envelope.mk (Addressee.Just kv.1) (ServerMsg.UpdateHUD HUDUpdate.Score) }

/-- `increment_score`. -/
def increment_score (s : ServerState) (player_id : ID) (delta : Int) : ServerState :=
  let s1 := { s with score := alist_update s.score player_id 0 fun v => v + delta }
  let team := (s1.player player_id).team
  let s2 := { s1 with gametype := s1.gametype.add_team_score team delta }
  s2.broadcast_scores_mini

/-- `kill_player`.  `drop_roll` is the oracle outcome of
`by_chance(hat_drop_chance(..))`, `fresh_eid` the next global entity id,
`spawn_point` the `pick_spawn_point()` draw. -/
def kill_player (s : ServerState) (player_id : ID)
    (drop_roll : Bool) (fresh_eid : EID) (spawn_point : SpawnPoint) : ServerState :=
  let s1 :=
    match (s.player player_id).powerup with
    | some powerup =>
      if (powerup.is_kind (EKind.GiftBox none) || drop_roll) = true then
        s.record_add_entity (Entity.mk fresh_eid powerup)
      else s
    | none => s
  let s2 := s1.record_apply_to_player player_id fun p =>
    { p with powerup := none, spawned := false }
  let s3 := s2.record_add_effect Effect.particle_explosion
  { s3 with pending_diffs := s3.pending_diffs ++
      [Envelope.mk (Addressee.Just player_id) (ServerMsg.RequestRespawn spawn_point)] }

/-- `try_kill_player`: returns `(killed, new_state)`. -/
def try_kill_player (s : ServerState) (victim_id : ID) (aggressor_id : Option ID)
    (drop_roll : Bool) (fresh_eid : EID) (spawn_point : SpawnPoint) : Bool × ServerState :=
  if (s.player victim_id).invulnerability_ttl.isSome then
    (false, if aggressor_id.isSome then s.record_add_effect Effect.ricochet else s)
  else if (match aggressor_id with
      | some aggressor_id => s.gametype.is_team
          && decide ((s.player aggressor_id).team = (s.player victim_id).team)
      | none => false) = true then
    (false, s)
  else if (s.player victim_id).powerup = some EKind.PartyHat then
    let s1 := s.record_add_effect Effect.particle_explosion
    let s2 := s1.record_apply_to_player victim_id fun p =>
      { p with powerup := none, invulnerability_ttl := some DEFAULT_INVULN_TTL }
    let s3 := s2.log
    (false, s3.broadcast_sound_at "protect")
  else
    (true, s.kill_player victim_id drop_roll fresh_eid spawn_point)

/-- `handle_hit_player`. -/
def handle_hit_player (s : ServerState) (player_id victim_id : ID)
    (drop_roll : Bool) (fresh_eid : EID) (spawn_point : SpawnPoint) : ServerState :=
  if s.contains_player victim_id = false then s
  else if (s.player victim_id).spawned = false then s
  else
    let r := s.try_kill_player victim_id (some player_id) drop_roll fresh_eid spawn_point
    if r.1 then
      let s1 := r.2.increment_score player_id 1
      let s2 := s1.broadcast_sound_at "kill"
      let s3 := s2.hud_message victim_id
      let s4 := s3.hud_message player_id
      s4.log
    else r.2

end ServerState

namespace ServerState

theorem score_kill_player (s : ServerState) (v : ID) (dr : Bool) (fe : EID) (sp : SpawnPoint) :
    (s.kill_player v dr fe sp).score = s.score := by
  unfold kill_player
  cases hpw : (s.player v).powerup with
  | none => rfl
  | some powerup =>
    by_cases hc : (powerup.is_kind (EKind.GiftBox none) || dr) = true
    · simp only [if_pos hc]
      rfl
    · simp only [if_neg hc]
      rfl

theorem player_record_apply_self (s : ServerState) (v : ID) (f : Player → Player) :
    (s.record_apply_to_player v f).player v = f (s.player v) := by
  show (alist_lookup (alist_update s.players v defaultPlayer f) v).getD defaultPlayer = _
  rw [alist_lookup_update_self]
  rfl

theorem player_kill_self (s : ServerState) (v : ID) (dr : Bool) (fe : EID) (sp : SpawnPoint) :
    (s.kill_player v dr fe sp).player v
      = { s.player v with powerup := none, spawned := false } := by
  unfold kill_player
  cases hpw : (s.player v).powerup with
  | none =>
    show ((s.record_apply_to_player v fun p =>
        { p with powerup := none, spawned := false }).player v) = _
    rw [player_record_apply_self]
  | some powerup =>
    by_cases hc : (powerup.is_kind (EKind.GiftBox none) || dr) = true
    · simp only [if_pos hc]
      show (((s.record_add_entity (Entity.mk fe powerup)).record_apply_to_player v fun p =>
          { p with powerup := none, spawned := false }).player v) = _
      rw [player_record_apply_self]
      rfl
    · simp only [if_neg hc]
      show ((s.record_apply_to_player v fun p =>
          { p with powerup := none, spawned := false }).player v) = _
      rw [player_record_apply_self]

theorem score_of_kill (s : ServerState) (v : ID) (dr : Bool) (fe : EID) (sp : SpawnPoint)
    (q : ID) : (s.kill_player v dr fe sp).score_of q = s.score_of q := by
  unfold score_of
  rw [score_kill_player]

theorem score_of_increment_self (s : ServerState) (a : ID) (delta : Int) :
    (s.increment_score a delta).score_of a = s.score_of a + delta := by
  show (alist_lookup (alist_update s.score a 0 fun x => x + delta) a).getD 0 = _
  rw [alist_lookup_update_self]
  rfl

theorem score_of_increment_other (s : ServerState) (a q : ID) (hne : q ≠ a) (delta : Int) :
    (s.increment_score a delta).score_of q = s.score_of q := by
  show (alist_lookup (alist_update s.score a 0 fun x => x + delta) q).getD 0 = _
  rw [alist_lookup_update_other _ _ _ hne]
  rfl

theorem mem_pending_log (s : ServerState) (e : Envelope) (h : e ∈ s.pending_diffs) :
    e ∈ s.log.pending_diffs := List.mem_append_left _ h

theorem mem_pending_hud (s : ServerState) (p : ID) (e : Envelope) (h : e ∈ s.pending_diffs) :
    e ∈ (s.hud_message p).pending_diffs := List.mem_append_left _ h

theorem mem_pending_sound (s : ServerState) (c : String) (e : Envelope)
    (h : e ∈ s.pending_diffs) : e ∈ (s.broadcast_sound_at c).pending_diffs :=
  List.mem_append_left _ h

theorem mem_pending_increment (s : ServerState) (a : ID) (delta : Int) (e : Envelope)
    (h : e ∈ s.pending_diffs) : e ∈ (s.increment_score a delta).pending_diffs :=
  List.mem_append_left _ h

theorem respawn_mem_kill (s : ServerState) (v : ID) (dr : Bool) (fe : EID) (sp : SpawnPoint) :
    Envelope.mk (Addressee.Just v) (ServerMsg.RequestRespawn sp)
      ∈ (s.kill_player v dr fe sp).pending_diffs :=
  List.mem_append_right _ (List.Mem.head _)

end ServerState

/-! ## Claim C2: a successful hit kills, respawns, and scores exactly one -/

/-- C2: For every `HitPlayer(victim)` handled where the victim is present,
spawned, not invulnerable, not protected by team rules or a party hat:
the victim becomes unspawned, a `RequestRespawn` envelope is sent to just
the victim, the aggressor's score increases by 1, and every other player's
score is unchanged. -/
theorem C2_hit_player_kill (s : ServerState) (a v : ID)
    (dr : Bool) (fe : EID) (sp : SpawnPoint)
    (hpresent : s.contains_player v = true)
    (hspawned : (s.player v).spawned = true)
    (hinv : (s.player v).invulnerability_ttl = none)
    (hteam : (s.gametype.is_team && decide ((s.player a).team = (s.player v).team)) = false)
    (hhat : (s.player v).powerup ≠ some EKind.PartyHat) :
    ((s.handle_hit_player a v dr fe sp).player v).spawned = false
    ∧ Envelope.mk (Addressee.Just v) (ServerMsg.RequestRespawn sp)
        ∈ (s.handle_hit_player a v dr fe sp).pending_diffs
    ∧ (s.handle_hit_player a v dr fe sp).score_of a = s.score_of a + 1
    ∧ ∀ q, q ≠ a → (s.handle_hit_player a v dr fe sp).score_of q = s.score_of q := by
  have hred : s.handle_hit_player a v dr fe sp
      = (((((s.kill_player v dr fe sp).increment_score a 1).broadcast_sound_at
          "kill").hud_message v).hud_message a).log := by
    unfold ServerState.handle_hit_player ServerState.try_kill_player
    rw [hpresent, hspawned, hinv]
    simp only [Option.isSome_none, Bool.false_eq_true, if_false, hteam, if_neg hhat,
      Option.isSome_some]
    simp
  refine ⟨?_, ?_, ?_, ?_⟩
  · rw [hred]
    show ((s.kill_player v dr fe sp).player v).spawned = false
    rw [ServerState.player_kill_self]
  · rw [hred]
    apply ServerState.mem_pending_log
    apply ServerState.mem_pending_hud
    apply ServerState.mem_pending_hud
    apply ServerState.mem_pending_sound
    apply ServerState.mem_pending_increment
    exact ServerState.respawn_mem_kill s v dr fe sp
  · rw [hred]
    show ((s.kill_player v dr fe sp).increment_score a 1).score_of a = s.score_of a + 1
    rw [ServerState.score_of_increment_self, ServerState.score_of_kill]
  · intro q hq
    rw [hred]
    show ((s.kill_player v dr fe sp).increment_score a 1).score_of q = s.score_of q
    rw [ServerState.score_of_increment_other _ _ _ hq, ServerState.score_of_kill]

/-- Witness for C2: player 1 confetties player 2 in a deathmatch. -/
theorem C2_hit_player_kill_witness :
    (((ServerState.mk [(1, Player.mk Team.Red true none none),
          (2, Player.mk Team.Blue true none none)] [] GameType.DeadMatch [] true
          []).handle_hit_player 1 2 false 7 3).player 2).spawned = false
    ∧ Envelope.mk (Addressee.Just 2) (ServerMsg.RequestRespawn 3)
        ∈ ((ServerState.mk [(1, Player.mk Team.Red true none none),
            (2, Player.mk Team.Blue true none none)] [] GameType.DeadMatch [] true
            []).handle_hit_player 1 2 false 7 3).pending_diffs
    ∧ ((ServerState.mk [(1, Player.mk Team.Red true none none),
          (2, Player.mk Team.Blue true none none)] [] GameType.DeadMatch [] true
          []).handle_hit_player 1 2 false 7 3).score_of 1
        = (ServerState.mk [(1, Player.mk Team.Red true none none),
            (2, Player.mk Team.Blue true none none)] [] GameType.DeadMatch [] true
            []).score_of 1 + 1
    ∧ ∀ q, q ≠ 1 →
        ((ServerState.mk [(1, Player.mk Team.Red true none none),
            (2, Player.mk Team.Blue true none none)] [] GameType.DeadMatch [] true
            []).handle_hit_player 1 2 false 7 3).score_of q
          = (ServerState.mk [(1, Player.mk Team.Red true none none),
              (2, Player.mk Team.Blue true none none)] [] GameType.DeadMatch [] true
              []).score_of q :=
  C2_hit_player_kill
    (ServerState.mk [(1, Player.mk Team.Red true none none),
      (2, Player.mk Team.Blue true none none)] [] GameType.DeadMatch [] true [])
    1 2 false 7 3 rfl rfl rfl rfl (by decide)

/-! ## Claim C3: hits on an invulnerable victim -/

/-- C3 counterexample: an invulnerable but UNSPAWNED victim (reachable:
`handle_off_world` calls `kill_player` directly, without clearing or
checking `invulnerability_ttl`, so a freshly respawned player who falls off
the world is unspawned with `ttl = Some(t), t > 0`).  `handle_hit_player`
then returns at the `!spawned` guard: the state is unchanged, so no
ricochet effect is broadcast and `victim.spawned` is `false`, not `true`. -/
theorem C3_counterexample :
    ((ServerState.mk [(1, Player.mk Team.Red true none none),
        (2, Player.mk Team.Blue false none (some 1))] [] GameType.DeadMatch [] true
        []).player 2).invulnerability_ttl = some 1
    ∧ (0 : ℚ) < 1
    ∧ ((ServerState.mk [(1, Player.mk Team.Red true none none),
        (2, Player.mk Team.Blue false none (some 1))] [] GameType.DeadMatch [] true
        []).handle_hit_player 1 2 false 0 0).pending_diffs = []
    ∧ (((ServerState.mk [(1, Player.mk Team.Red true none none),
        (2, Player.mk Team.Blue false none (some 1))] [] GameType.DeadMatch [] true
        []).handle_hit_player 1 2 false 0 0).player 2).spawned = false :=
  ⟨rfl, by norm_num, rfl, rfl⟩

/-- C3 (amended): for a PRESENT and SPAWNED victim with
`invulnerability_ttl = Some(t)`, `t > 0`: the hit leaves the whole state
unchanged except for broadcasting one ricochet effect; in particular no
player's score changes and the victim stays spawned. -/
theorem C3_invulnerable_hit (s : ServerState) (a v : ID)
    (dr : Bool) (fe : EID) (sp : SpawnPoint) (t : ℚ) (ht : 0 < t)
    (hpresent : s.contains_player v = true)
    (hspawned : (s.player v).spawned = true)
    (hinv : (s.player v).invulnerability_ttl = some t) :
    s.handle_hit_player a v dr fe sp
      = { s with pending_diffs := s.pending_diffs ++
          [Envelope.mk Addressee.All (ServerMsg.AddEffect Effect.ricochet)] }
    ∧ (∀ q, (s.handle_hit_player a v dr fe sp).score_of q = s.score_of q)
    ∧ ((s.handle_hit_player a v dr fe sp).player v).spawned = true
    ∧ Envelope.mk Addressee.All (ServerMsg.AddEffect Effect.ricochet)
        ∈ (s.handle_hit_player a v dr fe sp).pending_diffs := by
  have hred : s.handle_hit_player a v dr fe sp
      = { s with pending_diffs := s.pending_diffs ++
          [Envelope.mk Addressee.All (ServerMsg.AddEffect Effect.ricochet)] } := by
    unfold ServerState.handle_hit_player ServerState.try_kill_player
    rw [hpresent, hspawned, hinv]
    simp [ServerState.record_add_effect]
  refine ⟨hred, ?_, ?_, ?_⟩
  · intro q
    rw [hred]
    rfl
  · rw [hred]
    exact hspawned
  · rw [hred]
    exact List.mem_append_right _ (List.Mem.head _)

/-- Witness for the amended C3: a spawned, invulnerable victim is hit; only
a ricochet is broadcast. -/
theorem C3_invulnerable_hit_witness :
    ((ServerState.mk [(1, Player.mk Team.Red true none none),
        (2, Player.mk Team.Blue true none (some 1))] [] GameType.DeadMatch [] true
        []).handle_hit_player 1 2 false 0 0)
      = { ServerState.mk [(1, Player.mk Team.Red true none none),
            (2, Player.mk Team.Blue true none (some 1))] [] GameType.DeadMatch [] true
            [] with
          pending_diffs := [] ++
            [Envelope.mk Addressee.All (ServerMsg.AddEffect Effect.ricochet)] }
    ∧ (∀ q, (((ServerState.mk [(1, Player.mk Team.Red true none none),
          (2, Player.mk Team.Blue true none (some 1))] [] GameType.DeadMatch [] true
          []).handle_hit_player 1 2 false 0 0)).score_of q
        = (ServerState.mk [(1, Player.mk Team.Red true none none),
            (2, Player.mk Team.Blue true none (some 1))] [] GameType.DeadMatch [] true
            []).score_of q)
    ∧ ((((ServerState.mk [(1, Player.mk Team.Red true none none),
          (2, Player.mk Team.Blue true none (some 1))] [] GameType.DeadMatch [] true
          []).handle_hit_player 1 2 false 0 0)).player 2).spawned = true
    ∧ Envelope.mk Addressee.All (ServerMsg.AddEffect Effect.ricochet)
        ∈ (((ServerState.mk [(1, Player.mk Team.Red true none none),
            (2, Player.mk Team.Blue true none (some 1))] [] GameType.DeadMatch [] true
            []).handle_hit_player 1 2 false 0 0)).pending_diffs :=
  C3_invulnerable_hit
    (ServerState.mk [(1, Player.mk Team.Red true none none),
      (2, Player.mk Team.Blue true none (some 1))] [] GameType.DeadMatch [] true [])
    1 2 false 0 0 1 (by norm_num) rfl rfl rfl

/-! ## Wire format (`wireformat.rs` + the bincode v1 payload encoding)

`serialize_into`/`deserialize_from` frame every message as the 8-byte
little-endian `MAGIC` constant followed by the bincode payload.  The
payload encoding below is modelled from the spec of bincode v1's default
options: fixed-width little-endian integers, `u32` enum variant tags,
one-byte booleans and `Option` tags, `u64` length prefixes, `f32` as its
4-byte bit pattern (modelled as a `Nat < 2^32`), strings as their UTF-8
bytes (validity of the byte sequence is not re-checked on read).  A wire
byte is a `Nat` that well-formed data keeps below 256. -/

namespace Wire

/-- A byte of the wire stream. -/
abbrev Byte := Nat

/-- Little-endian fixed-width write of `k` bytes. -/
def wLE : Nat → Nat → List Byte
  | 0, _ => []
  | k + 1, n => n % 256 :: wLE k (n / 256)

/-- Value of a little-endian byte string. -/
def leVal (bs : List Byte) : Nat := bs.foldr (fun b acc => b + 256 * acc) 0

/-- Take exactly `k` bytes from the stream. -/
def rTake (k : Nat) (bs : List Byte) : Option (List Byte × List Byte) :=
  if k ≤ bs.length then some (bs.take k, bs.drop k) else none

/-- Read a `k`-byte little-endian unsigned integer. -/
def rLE (k : Nat) (bs : List Byte) : Option (Nat × List Byte) :=
  (rTake k bs).map fun p => (leVal p.1, p.2)

def wU8 (n : Nat) : List Byte := wLE 1 n
def wU32 (n : Nat) : List Byte := wLE 4 n
def wU64 (n : Nat) : List Byte := wLE 8 n
def wF32 (bits : Nat) : List Byte := wLE 4 bits
def rU8 : List Byte → Option (Nat × List Byte) := rLE 1
def rU32 : List Byte → Option (Nat × List Byte) := rLE 4
def rU64 : List Byte → Option (Nat × List Byte) := rLE 8
def rF32 : List Byte → Option (Nat × List Byte) := rLE 4

/-- `i32`, two's complement little-endian. -/
def wI32 (x : Int) : List Byte := wLE 4 (x % 2 ^ 32).toNat

def rI32 (bs : List Byte) : Option (Int × List Byte) :=
  (rLE 4 bs).map fun p => (if p.1 < 2 ^ 31 then (p.1 : Int) else (p.1 : Int) - 2 ^ 32, p.2)

/-- `bool`: one byte, `0`/`1`, anything else is a decode error. -/
def wBool (b : Bool) : List Byte := [if b then 1 else 0]

def rBool : List Byte → Option (Bool × List Byte)
  | [] => none
  | b :: rest => if b = 1 then some (true, rest) else if b = 0 then some (false, rest) else none

/-- Raw byte strings (`String`): `u64` length then the bytes. -/
def wBytes (s : List Byte) : List Byte := wU64 s.length ++ s

def rBytes (bs : List Byte) : Option (List Byte × List Byte) :=
  (rU64 bs).bind fun pn => rTake pn.1 pn.2

theorem wLE_length (k n : Nat) : (wLE k n).length = k := by
  induction k generalizing n with
  | zero => rfl
  | succ k ih => simp [wLE, ih]

theorem leVal_wLE (k n : Nat) (h : n < 256 ^ k) : leVal (wLE k n) = n := by
  induction k generalizing n with
  | zero =>
    interval_cases n
    rfl
  | succ k ih =>
    have hdiv : n / 256 < 256 ^ k := by
      rw [Nat.div_lt_iff_lt_mul (by norm_num)]
      calc n < 256 ^ (k + 1) := h
        _ = 256 ^ k * 256 := by ring
    simp only [wLE, leVal, List.foldr_cons]
    have hrec : leVal (wLE k (n / 256)) = n / 256 := ih _ hdiv
    rw [show List.foldr (fun b acc => b + 256 * acc) 0 (wLE k (n / 256))
        = leVal (wLE k (n / 256)) from rfl, hrec]
    omega

theorem rTake_append (s rest : List Byte) : rTake s.length (s ++ rest) = some (s, rest) := by
  unfold rTake
  rw [if_pos (by simp), List.take_left, List.drop_left]

theorem rLE_wLE (k n : Nat) (rest : List Byte) (h : n < 256 ^ k) :
    rLE k (wLE k n ++ rest) = some (n, rest) := by
  unfold rLE
  have h1 : rTake k (wLE k n ++ rest) = some (wLE k n, rest) := by
    have h2 := rTake_append (wLE k n) rest
    rwa [wLE_length] at h2
  rw [h1]
  simp [leVal_wLE k n h]

theorem rU8_wU8 (n : Nat) (rest : List Byte) (h : n < 256) :
    rU8 (wU8 n ++ rest) = some (n, rest) :=
  rLE_wLE 1 n rest (by simpa using h)

theorem rU32_wU32 (n : Nat) (rest : List Byte) (h : n < 2 ^ 32) :
    rU32 (wU32 n ++ rest) = some (n, rest) :=
  rLE_wLE 4 n rest (by norm_num at h ⊢; omega)

theorem rU64_wU64 (n : Nat) (rest : List Byte) (h : n < 2 ^ 64) :
    rU64 (wU64 n ++ rest) = some (n, rest) :=
  rLE_wLE 8 n rest (by norm_num at h ⊢; omega)

theorem rF32_wF32 (bits : Nat) (rest : List Byte) (h : bits < 2 ^ 32) :
    rF32 (wF32 bits ++ rest) = some (bits, rest) :=
  rLE_wLE 4 bits rest (by norm_num at h ⊢; omega)

theorem rI32_wI32 (x : Int) (rest : List Byte) (h1 : -2 ^ 31 ≤ x) (h2 : x < 2 ^ 31) :
    rI32 (wI32 x ++ rest) = some (x, rest) := by
  unfold rI32 wI32
  have hm : (x % 2 ^ 32).toNat < 256 ^ 4 := by
    have : (0 : Int) ≤ x % 2 ^ 32 := Int.emod_nonneg x (by norm_num)
    have : x % 2 ^ 32 < 2 ^ 32 := Int.emod_lt_of_pos x (by norm_num)
    omega
  rw [rLE_wLE 4 _ rest hm]
  have h0 : (0 : Int) ≤ x % 2 ^ 32 := Int.emod_nonneg x (by norm_num)
  have h3 : x % 2 ^ 32 < 2 ^ 32 := Int.emod_lt_of_pos x (by norm_num)
  simp only [Option.map, Option.some.injEq, Prod.mk.injEq]
  refine ⟨?_, trivial⟩
  split <;> omega

theorem rBool_wBool (b : Bool) (rest : List Byte) :
    rBool (wBool b ++ rest) = some (b, rest) := by
  cases b <;> rfl

theorem rBytes_wBytes (s : List Byte) (rest : List Byte) (h : s.length < 2 ^ 64) :
    rBytes (wBytes s ++ rest) = some (s, rest) := by
  unfold rBytes wBytes
  rw [List.append_assoc, show rU64 (wU64 s.length ++ (s ++ rest)) = some (s.length, s ++ rest)
      from rU64_wU64 s.length (s ++ rest) h]
  show rTake s.length (s ++ rest) = some (s, rest)
  exact rTake_append s rest

end Wire

namespace Wire

/-- Sequences (`Vec`, `HashMap` entries): `u64` length then each item. -/
def wList {α : Type} (w : α → List Byte) (l : List α) : List Byte :=
  wU64 l.length ++ l.flatMap w

/-- Read `n` items. -/
def rItems {α : Type} (r : List Byte → Option (α × List Byte)) :
    Nat → List Byte → Option (List α × List Byte)
  | 0, bs => some ([], bs)
  | n + 1, bs =>
    (r bs).bind fun pa =>
      (rItems r n pa.2).map fun pl => (pa.1 :: pl.1, pl.2)

def rList {α : Type} (r : List Byte → Option (α × List Byte)) (bs : List Byte) :
    Option (List α × List Byte) :=
  (rU64 bs).bind fun pn => rItems r pn.1 pn.2

theorem rItems_flatMap {α : Type} (r : List Byte → Option (α × List Byte))
    (w : α → List Byte) (l : List α) (P : α → Prop)
    (hrt : ∀ a ∈ l, ∀ rest, r (w a ++ rest) = some (a, rest)) (rest : List Byte) :
    rItems r l.length (l.flatMap w ++ rest) = some (l, rest) := by
  induction l with
  | nil => rfl
  | cons a l ih =>
    show (r ((w a ++ l.flatMap w) ++ rest)).bind _ = _
    rw [List.append_assoc, hrt a (List.mem_cons_self a l) (l.flatMap w ++ rest)]
    show (rItems r l.length (l.flatMap w ++ rest)).map _ = _
    rw [ih fun x hx => hrt x (List.mem_cons_of_mem a hx)]
    rfl

theorem rList_wList {α : Type} (r : List Byte → Option (α × List Byte))
    (w : α → List Byte) (l : List α)
    (hlen : l.length < 2 ^ 64)
    (hrt : ∀ a ∈ l, ∀ rest, r (w a ++ rest) = some (a, rest)) (rest : List Byte) :
    rList r (wList w l ++ rest) = some (l, rest) := by
  unfold rList wList
  rw [List.append_assoc, rU64_wU64 _ _ hlen]
  show rItems r l.length (l.flatMap w ++ rest) = some (l, rest)
  exact rItems_flatMap r w l (fun _ => True) hrt rest

/-- `Option<T>`: one tag byte then the payload. -/
def wOpt {α : Type} (w : α → List Byte) : Option α → List Byte
  | none => wU8 0
  | some a => wU8 1 ++ w a

def rOpt {α : Type} (r : List Byte → Option (α × List Byte)) (bs : List Byte) :
    Option (Option α × List Byte) :=
  (rU8 bs).bind fun pt =>
    if pt.1 = 0 then some (none, pt.2)
    else if pt.1 = 1 then (r pt.2).map fun pa => (some pa.1, pa.2)
    else none

theorem rOpt_wOpt {α : Type} (r : List Byte → Option (α × List Byte))
    (w : α → List Byte) (o : Option α)
    (hrt : ∀ a ∈ o, ∀ rest, r (w a ++ rest) = some (a, rest)) (rest : List Byte) :
    rOpt r (wOpt w o ++ rest) = some (o, rest) := by
  cases o with
  | none =>
    unfold rOpt wOpt
    rw [rU8_wU8 0 rest (by norm_num)]
    rfl
  | some a =>
    unfold rOpt wOpt
    rw [List.append_assoc, rU8_wU8 1 (w a ++ rest) (by norm_num)]
    simp [hrt a rfl rest]

/-- `vec3`: three `f32` bit patterns. -/
structure Vec3 where
  x : Nat
  y : Nat
  z : Nat
deriving DecidableEq, Repr

def Vec3.wf (v : Vec3) : Bool :=
  decide (v.x < 2 ^ 32) && decide (v.y < 2 ^ 32) && decide (v.z < 2 ^ 32)

def wVec3 (v : Vec3) : List Byte := wF32 v.x ++ wF32 v.y ++ wF32 v.z

def rVec3 (bs : List Byte) : Option (Vec3 × List Byte) :=
  (rF32 bs).bind fun px =>
    (rF32 px.2).bind fun py =>
      (rF32 py.2).map fun pz => (Vec3.mk px.1 py.1 pz.1, pz.2)

theorem rVec3_wVec3 (v : Vec3) (rest : List Byte) (h : v.wf = true) :
    rVec3 (wVec3 v ++ rest) = some (v, rest) := by
  simp only [Vec3.wf, Bool.and_eq_true, decide_eq_true_eq] at h
  obtain ⟨⟨hx, hy⟩, hz⟩ := h
  unfold rVec3 wVec3
  rw [List.append_assoc, List.append_assoc]
  rw [rF32_wF32 _ _ hx, Option.some_bind]
  simp only []
  rw [rF32_wF32 _ _ hy, Option.some_bind]
  simp only []
  rw [rF32_wF32 _ _ hz, Option.map_some']

end Wire

namespace Wire

/-- Well-formedness of an optional value. -/
def wfOpt {α : Type} (wf : α → Bool) : Option α → Bool
  | none => true
  | some a => wf a

theorem wfOpt_mem {α : Type} (wf : α → Bool) (o : Option α)
    (h : wfOpt wf o = true)
    (a : α) (ha : a ∈ o) : wf a = true := by
  cases o with
  | none => cases ha
  | some b =>
    rw [Option.mem_def] at ha
    cases ha
    exact h

theorem all_mem {α : Type} (wf : α → Bool) (l : List α) (h : l.all wf = true) (a : α)
    (ha : a ∈ l) : wf a = true := by
  rw [List.all_eq_true] at h
  exact h a ha

/-- Pairs (`HashMap` entries): key then value. -/
def wPair {α β : Type} (wa : α → List Byte) (wb : β → List Byte) (p : α × β) : List Byte :=
  wa p.1 ++ wb p.2

def rPair {α β : Type} (ra : List Byte → Option (α × List Byte))
    (rb : List Byte → Option (β × List Byte)) (bs : List Byte) :
    Option ((α × β) × List Byte) :=
  (ra bs).bind fun pa => (rb pa.2).map fun pb => ((pa.1, pb.1), pb.2)

theorem rPair_wPair {α β : Type} (ra : List Byte → Option (α × List Byte))
    (rb : List Byte → Option (β × List Byte)) (wa : α → List Byte) (wb : β → List Byte)
    (p : α × β) (rest : List Byte)
    (ha : ∀ r2, ra (wa p.1 ++ r2) = some (p.1, r2))
    (hb : ∀ r2, rb (wb p.2 ++ r2) = some (p.2, r2)) :
    rPair ra rb (wPair wa wb p ++ rest) = some (p, rest) := by
  unfold rPair wPair
  rw [List.append_assoc, ha, Option.some_bind]
  simp only []
  rw [hb, Option.map_some']

/-- `Orientation` (`orientation.rs`): yaw then pitch, `f32` bit patterns. -/
structure Orientation where
  yaw : Nat
  pitch : Nat
deriving DecidableEq, Repr

def Orientation.wf (o : Orientation) : Bool :=
  decide (o.yaw < 2 ^ 32) && decide (o.pitch < 2 ^ 32)

def wOrientation (o : Orientation) : List Byte := wF32 o.yaw ++ wF32 o.pitch

def rOrientation (bs : List Byte) : Option (Orientation × List Byte) :=
  (rF32 bs).bind fun py =>
    (rF32 py.2).map fun pp => (Orientation.mk py.1 pp.1, pp.2)

theorem rOrientation_wOrientation (o : Orientation) (rest : List Byte) (h : o.wf = true) :
    rOrientation (wOrientation o ++ rest) = some (o, rest) := by
  simp only [Orientation.wf, Bool.and_eq_true, decide_eq_true_eq] at h
  obtain ⟨hy, hp⟩ := h
  unfold rOrientation wOrientation
  rw [List.append_assoc, rF32_wF32 _ _ hy, Option.some_bind]
  simp only []
  rw [rF32_wF32 _ _ hp, Option.map_some']

/-- `Frame` (`frame.rs`): position, velocity, orientation. -/
structure Frame where
  position : Vec3
  velocity : Vec3
  orientation : Orientation
deriving DecidableEq, Repr

def Frame.wf (f : Frame) : Bool :=
  f.position.wf && f.velocity.wf && f.orientation.wf

def wFrame (f : Frame) : List Byte :=
  wVec3 f.position ++ wVec3 f.velocity ++ wOrientation f.orientation

def rFrame (bs : List Byte) : Option (Frame × List Byte) :=
  (rVec3 bs).bind fun pp =>
    (rVec3 pp.2).bind fun pv =>
      (rOrientation pv.2).map fun po => (Frame.mk pp.1 pv.1 po.1, po.2)

theorem rFrame_wFrame (f : Frame) (rest : List Byte) (h : f.wf = true) :
    rFrame (wFrame f ++ rest) = some (f, rest) := by
  simp only [Frame.wf, Bool.and_eq_true] at h
  obtain ⟨⟨hp, hv⟩, ho⟩ := h
  unfold rFrame wFrame
  rw [List.append_assoc, List.append_assoc]
  rw [rVec3_wVec3 _ _ hp, Option.some_bind]
  simp only []
  rw [rVec3_wVec3 _ _ hv, Option.some_bind]
  simp only []
  rw [rOrientation_wOrientation _ _ ho, Option.map_some']

/-- `Skeleton` (`skeleton.rs`): hsize, vsize, position, velocity, orientation. -/
structure Skeleton where
  hsize : Nat
  vsize : Nat
  position : Vec3
  velocity : Vec3
  orientation : Orientation
deriving DecidableEq, Repr

def Skeleton.wf (s : Skeleton) : Bool :=
  decide (s.hsize < 2 ^ 32) && decide (s.vsize < 2 ^ 32) && s.position.wf &&
    s.velocity.wf && s.orientation.wf

def wSkeleton (s : Skeleton) : List Byte :=
  wF32 s.hsize ++ wF32 s.vsize ++ wVec3 s.position ++ wVec3 s.velocity ++
    wOrientation s.orientation

def rSkeleton (bs : List Byte) : Option (Skeleton × List Byte) :=
  (rF32 bs).bind fun ph =>
    (rF32 ph.2).bind fun pv =>
      (rVec3 pv.2).bind fun pp =>
        (rVec3 pp.2).bind fun pl =>
          (rOrientation pl.2).map fun po => (Skeleton.mk ph.1 pv.1 pp.1 pl.1 po.1, po.2)

theorem rSkeleton_wSkeleton (s : Skeleton) (rest : List Byte) (h : s.wf = true) :
    rSkeleton (wSkeleton s ++ rest) = some (s, rest) := by
  simp only [Skeleton.wf, Bool.and_eq_true, decide_eq_true_eq] at h
  obtain ⟨⟨⟨⟨hh, hv⟩, hp⟩, hl⟩, ho⟩ := h
  unfold rSkeleton wSkeleton
  rw [List.append_assoc, List.append_assoc, List.append_assoc, List.append_assoc]
  rw [rF32_wF32 _ _ hh, Option.some_bind]
  simp only []
  rw [rF32_wF32 _ _ hv, Option.some_bind]
  simp only []
  rw [rVec3_wVec3 _ _ hp, Option.some_bind]
  simp only []
  rw [rVec3_wVec3 _ _ hl, Option.some_bind]
  simp only []
  rw [rOrientation_wOrientation _ _ ho, Option.map_some']

/-- `Spatial` (`sound_effect.rs`). -/
structure Spatial where
  location : Vec3
deriving DecidableEq, Repr

def Spatial.wf (s : Spatial) : Bool := s.location.wf

def wSpatial (s : Spatial) : List Byte := wVec3 s.location

def rSpatial (bs : List Byte) : Option (Spatial × List Byte) :=
  (rVec3 bs).map fun pl => (Spatial.mk pl.1, pl.2)

theorem rSpatial_wSpatial (s : Spatial) (rest : List Byte) (h : s.wf = true) :
    rSpatial (wSpatial s ++ rest) = some (s, rest) := by
  unfold rSpatial wSpatial
  rw [rVec3_wVec3 _ _ h, Option.map_some']

/-- `SoundEffect` (`sound_effect.rs`): clip name string, volume, spatial. -/
structure SoundEffect where
  clip_name : List Byte
  volume : Nat
  spatial : Option Spatial
deriving DecidableEq, Repr

def SoundEffect.wf (s : SoundEffect) : Bool :=
  decide (s.clip_name.length < 2 ^ 64) && decide (s.volume < 2 ^ 32) &&
    wfOpt Spatial.wf s.spatial

def wSoundEffect (s : SoundEffect) : List Byte :=
  wBytes s.clip_name ++ wF32 s.volume ++ wOpt wSpatial s.spatial

def rSoundEffect (bs : List Byte) : Option (SoundEffect × List Byte) :=
  (rBytes bs).bind fun pc =>
    (rF32 pc.2).bind fun pv =>
      (rOpt rSpatial pv.2).map fun ps => (SoundEffect.mk pc.1 pv.1 ps.1, ps.2)

theorem rSoundEffect_wSoundEffect (s : SoundEffect) (rest : List Byte) (h : s.wf = true) :
    rSoundEffect (wSoundEffect s ++ rest) = some (s, rest) := by
  simp only [SoundEffect.wf, Bool.and_eq_true, decide_eq_true_eq] at h
  obtain ⟨⟨hc, hv⟩, hs⟩ := h
  unfold rSoundEffect wSoundEffect
  rw [List.append_assoc, List.append_assoc]
  rw [rBytes_wBytes _ _ hc, Option.some_bind]
  simp only []
  rw [rF32_wF32 _ _ hv, Option.some_bind]
  simp only []
  rw [rOpt_wOpt rSpatial wSpatial s.spatial
    (fun a ha r2 => rSpatial_wSpatial a r2 (wfOpt_mem Spatial.wf s.spatial hs a ha)) rest,
    Option.map_some']

end Wire

namespace Wire

/-- `EffectType` (`effect.rs`); the `end` field of `SimpleLine` is a Lean
keyword and is named `finish` here. -/
inductive EffectType
  | SimpleLine (start finish : Vec3)
  | LaserBeam (start : Vec3) (orientation : Orientation) (len : Nat)
  | ParticleExplosion (pos color : Vec3)
  | ParticleBeam (start : Vec3) (orientation : Orientation) (len : Nat) (color_filter : Vec3)
  | Respawn (pos : Vec3)
deriving DecidableEq, Repr

def EffectType.wf : EffectType → Bool
  | EffectType.SimpleLine s f => s.wf && f.wf
  | EffectType.LaserBeam s o l => s.wf && o.wf && decide (l < 2 ^ 32)
  | EffectType.ParticleExplosion p c => p.wf && c.wf
  | EffectType.ParticleBeam s o l c => s.wf && o.wf && decide (l < 2 ^ 32) && c.wf
  | EffectType.Respawn p => p.wf

def wEffectType : EffectType → List Byte
  | EffectType.SimpleLine s f => wU32 0 ++ wVec3 s ++ wVec3 f
  | EffectType.LaserBeam s o l => wU32 1 ++ wVec3 s ++ wOrientation o ++ wF32 l
  | EffectType.ParticleExplosion p c => wU32 2 ++ wVec3 p ++ wVec3 c
  | EffectType.ParticleBeam s o l c =>
      wU32 3 ++ wVec3 s ++ wOrientation o ++ wF32 l ++ wVec3 c
  | EffectType.Respawn p => wU32 4 ++ wVec3 p

def rEffectType (bs : List Byte) : Option (EffectType × List Byte) :=
  (rU32 bs).bind fun pt =>
    if pt.1 = 0 then
      (rVec3 pt.2).bind fun ps =>
        (rVec3 ps.2).map fun pf => (EffectType.SimpleLine ps.1 pf.1, pf.2)
    else if pt.1 = 1 then
      (rVec3 pt.2).bind fun ps =>
        (rOrientation ps.2).bind fun po =>
          (rF32 po.2).map fun pl => (EffectType.LaserBeam ps.1 po.1 pl.1, pl.2)
    else if pt.1 = 2 then
      (rVec3 pt.2).bind fun pp =>
        (rVec3 pp.2).map fun pc => (EffectType.ParticleExplosion pp.1 pc.1, pc.2)
    else if pt.1 = 3 then
      (rVec3 pt.2).bind fun ps =>
        (rOrientation ps.2).bind fun po =>
          (rF32 po.2).bind fun pl =>
            (rVec3 pl.2).map fun pc => (EffectType.ParticleBeam ps.1 po.1 pl.1 pc.1, pc.2)
    else if pt.1 = 4 then
      (rVec3 pt.2).map fun pp => (EffectType.Respawn pp.1, pp.2)
    else none

theorem rEffectType_wEffectType (t : EffectType) (rest : List Byte) (h : t.wf = true) :
    rEffectType (wEffectType t ++ rest) = some (t, rest) := by
  cases t with
  | SimpleLine s f =>
    simp only [EffectType.wf, Bool.and_eq_true] at h
    obtain ⟨hs, hf⟩ := h
    unfold rEffectType wEffectType
    rw [List.append_assoc, List.append_assoc]
    rw [rU32_wU32 0 _ (by norm_num), Option.some_bind]
    norm_num
    rw [rVec3_wVec3 _ _ hs, Option.some_bind]
    simp only []
    rw [rVec3_wVec3 _ _ hf, Option.map_some']
  | LaserBeam s o l =>
    simp only [EffectType.wf, Bool.and_eq_true, decide_eq_true_eq] at h
    obtain ⟨⟨hs, ho⟩, hl⟩ := h
    unfold rEffectType wEffectType
    rw [List.append_assoc, List.append_assoc, List.append_assoc]
    rw [rU32_wU32 1 _ (by norm_num), Option.some_bind]
    norm_num
    rw [rVec3_wVec3 _ _ hs, Option.some_bind]
    simp only []
    rw [rOrientation_wOrientation _ _ ho, Option.some_bind]
    simp only []
    rw [rF32_wF32 _ _ hl, Option.map_some']
  | ParticleExplosion p c =>
    simp only [EffectType.wf, Bool.and_eq_true] at h
    obtain ⟨hp, hc⟩ := h
    unfold rEffectType wEffectType
    rw [List.append_assoc, List.append_assoc]
    rw [rU32_wU32 2 _ (by norm_num), Option.some_bind]
    norm_num
    rw [rVec3_wVec3 _ _ hp, Option.some_bind]
    simp only []
    rw [rVec3_wVec3 _ _ hc, Option.map_some']
  | ParticleBeam s o l c =>
    simp only [EffectType.wf, Bool.and_eq_true, decide_eq_true_eq] at h
    obtain ⟨⟨⟨hs, ho⟩, hl⟩, hc⟩ := h
    unfold rEffectType wEffectType
    rw [List.append_assoc, List.append_assoc, List.append_assoc, List.append_assoc]
    rw [rU32_wU32 3 _ (by norm_num), Option.some_bind]
    norm_num
    rw [rVec3_wVec3 _ _ hs, Option.some_bind]
    simp only []
    rw [rOrientation_wOrientation _ _ ho, Option.some_bind]
    simp only []
    rw [rF32_wF32 _ _ hl, Option.some_bind]
    simp only []
    rw [rVec3_wVec3 _ _ hc, Option.map_some']
  | Respawn p =>
    have hp : p.wf = true := h
    unfold rEffectType wEffectType
    rw [List.append_assoc]
    rw [rU32_wU32 4 _ (by norm_num), Option.some_bind]
    norm_num
    rw [rVec3_wVec3 _ _ hp]

/-- `Effect` (`effect.rs`): ttl then typ. -/
structure Effect where
  ttl : Nat
  typ : EffectType
deriving DecidableEq, Repr

def Effect.wf (e : Effect) : Bool := decide (e.ttl < 2 ^ 32) && e.typ.wf

def wEffect (e : Effect) : List Byte := wF32 e.ttl ++ wEffectType e.typ

def rEffect (bs : List Byte) : Option (Effect × List Byte) :=
  (rF32 bs).bind fun pt =>
    (rEffectType pt.2).map fun pe => (Effect.mk pt.1 pe.1, pe.2)

theorem rEffect_wEffect (e : Effect) (rest : List Byte) (h : e.wf = true) :
    rEffect (wEffect e ++ rest) = some (e, rest) := by
  simp only [Effect.wf, Bool.and_eq_true, decide_eq_true_eq] at h
  obtain ⟨ht, hy⟩ := h
  unfold rEffect wEffect
  rw [List.append_assoc, rF32_wF32 _ _ ht, Option.some_bind]
  simp only []
  rw [rEffectType_wEffectType _ _ hy, Option.map_some']

/-- `Team` (`team.rs`): a plain enum, `u32` tag. -/
inductive Team
  | Red
  | Blue
  | Green
deriving DecidableEq, Repr

def wTeam : Team → List Byte
  | Team.Red => wU32 0
  | Team.Blue => wU32 1
  | Team.Green => wU32 2

def rTeam (bs : List Byte) : Option (Team × List Byte) :=
  (rU32 bs).bind fun pt =>
    if pt.1 = 0 then some (Team.Red, pt.2)
    else if pt.1 = 1 then some (Team.Blue, pt.2)
    else if pt.1 = 2 then some (Team.Green, pt.2)
    else none

theorem rTeam_wTeam (t : Team) (rest : List Byte) : rTeam (wTeam t ++ rest) = some (t, rest) := by
  cases t with
  | Red =>
    unfold rTeam wTeam
    rw [rU32_wU32 0 _ (by norm_num), Option.some_bind]
    norm_num
  | Blue =>
    unfold rTeam wTeam
    rw [rU32_wU32 1 _ (by norm_num), Option.some_bind]
    norm_num
  | Green =>
    unfold rTeam wTeam
    rw [rU32_wU32 2 _ (by norm_num), Option.some_bind]
    norm_num

/-- `EKind` (`entity.rs`); `usize` is serialized as `u64`. -/
inductive EKind
  | GiftBox (pickup_point_id : Option Nat)
  | CowboyHat
  | BerserkerHelmet
  | PartyHat
  | XMasHat
deriving DecidableEq, Repr

def EKind.wf : EKind → Bool
  | EKind.GiftBox p => wfOpt (fun n => decide (n < 2 ^ 64)) p
  | _ => true

def wEKind : EKind → List Byte
  | EKind.GiftBox p => wU32 0 ++ wOpt wU64 p
  | EKind.CowboyHat => wU32 1
  | EKind.BerserkerHelmet => wU32 2
  | EKind.PartyHat => wU32 3
  | EKind.XMasHat => wU32 4

def rEKind (bs : List Byte) : Option (EKind × List Byte) :=
  (rU32 bs).bind fun pt =>
    if pt.1 = 0 then
      (rOpt rU64 pt.2).map fun pp => (EKind.GiftBox pp.1, pp.2)
    else if pt.1 = 1 then some (EKind.CowboyHat, pt.2)
    else if pt.1 = 2 then some (EKind.BerserkerHelmet, pt.2)
    else if pt.1 = 3 then some (EKind.PartyHat, pt.2)
    else if pt.1 = 4 then some (EKind.XMasHat, pt.2)
    else none

theorem rEKind_wEKind (k : EKind) (rest : List Byte) (h : k.wf = true) :
    rEKind (wEKind k ++ rest) = some (k, rest) := by
  cases k with
  | GiftBox p =>
    have hp : wfOpt (fun n => decide (n < 2 ^ 64)) p = true := h
    unfold rEKind wEKind
    rw [List.append_assoc, rU32_wU32 0 _ (by norm_num), Option.some_bind]
    norm_num
    rw [rOpt_wOpt rU64 wU64 p
      (fun a ha r2 => rU64_wU64 a r2 (decide_eq_true_eq.mp (wfOpt_mem _ p hp a ha))) rest]
  | CowboyHat =>
    unfold rEKind wEKind
    rw [rU32_wU32 1 _ (by norm_num), Option.some_bind]
    norm_num
  | BerserkerHelmet =>
    unfold rEKind wEKind
    rw [rU32_wU32 2 _ (by norm_num), Option.some_bind]
    norm_num
  | PartyHat =>
    unfold rEKind wEKind
    rw [rU32_wU32 3 _ (by norm_num), Option.some_bind]
    norm_num
  | XMasHat =>
    unfold rEKind wEKind
    rw [rU32_wU32 4 _ (by norm_num), Option.some_bind]
    norm_num

/-- `LocalState` (`player.rs`): three `f32`s. -/
structure LocalState where
  gun_cooldown : Nat
  feet_phase : Nat
  feet_pitch : Nat
deriving DecidableEq, Repr

def LocalState.wf (l : LocalState) : Bool :=
  decide (l.gun_cooldown < 2 ^ 32) && decide (l.feet_phase < 2 ^ 32) &&
    decide (l.feet_pitch < 2 ^ 32)

def wLocalState (l : LocalState) : List Byte :=
  wF32 l.gun_cooldown ++ wF32 l.feet_phase ++ wF32 l.feet_pitch

def rLocalState (bs : List Byte) : Option (LocalState × List Byte) :=
  (rF32 bs).bind fun pg =>
    (rF32 pg.2).bind fun pp =>
      (rF32 pp.2).map fun pf => (LocalState.mk pg.1 pp.1 pf.1, pf.2)

theorem rLocalState_wLocalState (l : LocalState) (rest : List Byte) (h : l.wf = true) :
    rLocalState (wLocalState l ++ rest) = some (l, rest) := by
  simp only [LocalState.wf, Bool.and_eq_true, decide_eq_true_eq] at h
  obtain ⟨⟨hg, hp⟩, hf⟩ := h
  unfold rLocalState wLocalState
  rw [List.append_assoc, List.append_assoc]
  rw [rF32_wF32 _ _ hg, Option.some_bind]
  simp only []
  rw [rF32_wF32 _ _ hp, Option.some_bind]
  simp only []
  rw [rF32_wF32 _ _ hf, Option.map_some']

/-- `SpawnPoint` (`spawn_point.rs`): one `ivec3` field (three `i32`s). -/
structure SpawnPoint where
  x : Int
  y : Int
  z : Int
deriving DecidableEq, Repr

def SpawnPoint.wf (s : SpawnPoint) : Bool :=
  decide (-2 ^ 31 ≤ s.x) && decide (s.x < 2 ^ 31) &&
    decide (-2 ^ 31 ≤ s.y) && decide (s.y < 2 ^ 31) &&
    decide (-2 ^ 31 ≤ s.z) && decide (s.z < 2 ^ 31)

def wSpawnPoint (s : SpawnPoint) : List Byte := wI32 s.x ++ wI32 s.y ++ wI32 s.z

def rSpawnPoint (bs : List Byte) : Option (SpawnPoint × List Byte) :=
  (rI32 bs).bind fun px =>
    (rI32 px.2).bind fun py =>
      (rI32 py.2).map fun pz => (SpawnPoint.mk px.1 py.1 pz.1, pz.2)

theorem rSpawnPoint_wSpawnPoint (s : SpawnPoint) (rest : List Byte) (h : s.wf = true) :
    rSpawnPoint (wSpawnPoint s ++ rest) = some (s, rest) := by
  simp only [SpawnPoint.wf, Bool.and_eq_true, decide_eq_true_eq] at h
  obtain ⟨⟨⟨⟨⟨hx1, hx2⟩, hy1⟩, hy2⟩, hz1⟩, hz2⟩ := h
  unfold rSpawnPoint wSpawnPoint
  rw [List.append_assoc, List.append_assoc]
  rw [rI32_wI32 _ _ hx1 hx2, Option.some_bind]
  simp only []
  rw [rI32_wI32 _ _ hy1 hy2, Option.some_bind]
  simp only []
  rw [rI32_wI32 _ _ hz1 hz2, Option.map_some']

/-- `HUDUpdate` (`hud.rs`): three string-carrying variants. -/
inductive HUDUpdate
  | Message (text : List Byte)
  | Log (text : List Byte)
  | Score (text : List Byte)
deriving DecidableEq, Repr

def HUDUpdate.wf : HUDUpdate → Bool
  | HUDUpdate.Message t => decide (t.length < 2 ^ 64)
  | HUDUpdate.Log t => decide (t.length < 2 ^ 64)
  | HUDUpdate.Score t => decide (t.length < 2 ^ 64)

def wHUDUpdate : HUDUpdate → List Byte
  | HUDUpdate.Message t => wU32 0 ++ wBytes t
  | HUDUpdate.Log t => wU32 1 ++ wBytes t
  | HUDUpdate.Score t => wU32 2 ++ wBytes t

def rHUDUpdate (bs : List Byte) : Option (HUDUpdate × List Byte) :=
  (rU32 bs).bind fun pt =>
    if pt.1 = 0 then (rBytes pt.2).map fun ps => (HUDUpdate.Message ps.1, ps.2)
    else if pt.1 = 1 then (rBytes pt.2).map fun ps => (HUDUpdate.Log ps.1, ps.2)
    else if pt.1 = 2 then (rBytes pt.2).map fun ps => (HUDUpdate.Score ps.1, ps.2)
    else none

theorem rHUDUpdate_wHUDUpdate (u : HUDUpdate) (rest : List Byte) (h : u.wf = true) :
    rHUDUpdate (wHUDUpdate u ++ rest) = some (u, rest) := by
  cases u with
  | Message t =>
    have ht : t.length < 2 ^ 64 := decide_eq_true_eq.mp h
    unfold rHUDUpdate wHUDUpdate
    rw [List.append_assoc, rU32_wU32 0 _ (by norm_num), Option.some_bind]
    norm_num
    rw [rBytes_wBytes _ _ ht]
  | Log t =>
    have ht : t.length < 2 ^ 64 := decide_eq_true_eq.mp h
    unfold rHUDUpdate wHUDUpdate
    rw [List.append_assoc, rU32_wU32 1 _ (by norm_num), Option.some_bind]
    norm_num
    rw [rBytes_wBytes _ _ ht]
  | Score t =>
    have ht : t.length < 2 ^ 64 := decide_eq_true_eq.mp h
    unfold rHUDUpdate wHUDUpdate
    rw [List.append_assoc, rU32_wU32 2 _ (by norm_num), Option.some_bind]
    norm_num
    rw [rBytes_wBytes _ _ ht]

end Wire

namespace Wire

/-- `Player` (`player.rs`), fields in declaration order; the source field
`local` is a Lean keyword and is named `local_state` here. -/
structure Player where
  id : Nat
  name : List Byte
  avatar_id : Nat
  team : Team
  health : Int
  spawned : Bool
  next_spawn_point : Vec3
  powerup : Option EKind
  invulnerability_ttl : Option Nat
  skeleton : Skeleton
  local_state : LocalState
deriving DecidableEq, Repr

def Player.wf (p : Player) : Bool :=
  decide (p.id < 2 ^ 32) && decide (p.name.length < 2 ^ 64) && decide (p.avatar_id < 256) &&
    decide (-2 ^ 31 ≤ p.health) && decide (p.health < 2 ^ 31) && p.next_spawn_point.wf &&
    wfOpt EKind.wf p.powerup && wfOpt (fun n => decide (n < 2 ^ 32)) p.invulnerability_ttl &&
    p.skeleton.wf && p.local_state.wf

def wPlayer (p : Player) : List Byte :=
  wU32 p.id ++ wBytes p.name ++ wU8 p.avatar_id ++ wTeam p.team ++ wI32 p.health ++
    wBool p.spawned ++ wVec3 p.next_spawn_point ++ wOpt wEKind p.powerup ++
    wOpt wF32 p.invulnerability_ttl ++ wSkeleton p.skeleton ++ wLocalState p.local_state

def rPlayer (bs : List Byte) : Option (Player × List Byte) :=
  (rU32 bs).bind fun p1 =>
    (rBytes p1.2).bind fun p2 =>
      (rU8 p2.2).bind fun p3 =>
        (rTeam p3.2).bind fun p4 =>
          (rI32 p4.2).bind fun p5 =>
            (rBool p5.2).bind fun p6 =>
              (rVec3 p6.2).bind fun p7 =>
                (rOpt rEKind p7.2).bind fun p8 =>
                  (rOpt rF32 p8.2).bind fun p9 =>
                    (rSkeleton p9.2).bind fun p10 =>
                      (rLocalState p10.2).map fun p11 =>
                        (Player.mk p1.1 p2.1 p3.1 p4.1 p5.1 p6.1 p7.1 p8.1 p9.1 p10.1 p11.1,
                          p11.2)

theorem rPlayer_wPlayer (p : Player) (rest : List Byte) (h : p.wf = true) :
    rPlayer (wPlayer p ++ rest) = some (p, rest) := by
  simp only [Player.wf, Bool.and_eq_true, decide_eq_true_eq] at h
  obtain ⟨⟨⟨⟨⟨⟨⟨⟨⟨hid, hname⟩, hav⟩, hh1⟩, hh2⟩, hsp⟩, hpw⟩, httl⟩, hsk⟩, hlo⟩ := h
  unfold rPlayer wPlayer
  rw [List.append_assoc, List.append_assoc, List.append_assoc, List.append_assoc,
    List.append_assoc, List.append_assoc, List.append_assoc, List.append_assoc,
    List.append_assoc, List.append_assoc]
  rw [rU32_wU32 _ _ hid, Option.some_bind]
  simp only []
  rw [rBytes_wBytes _ _ hname, Option.some_bind]
  simp only []
  rw [rU8_wU8 _ _ hav, Option.some_bind]
  simp only []
  rw [rTeam_wTeam _ _, Option.some_bind]
  simp only []
  rw [rI32_wI32 _ _ hh1 hh2, Option.some_bind]
  simp only []
  rw [rBool_wBool _ _, Option.some_bind]
  simp only []
  rw [rVec3_wVec3 _ _ hsp, Option.some_bind]
  simp only []
  rw [rOpt_wOpt rEKind wEKind p.powerup
    (fun a ha r2 => rEKind_wEKind a r2 (wfOpt_mem EKind.wf p.powerup hpw a ha)) _,
    Option.some_bind]
  simp only []
  rw [rOpt_wOpt rF32 wF32 p.invulnerability_ttl
    (fun a ha r2 => rF32_wF32 a r2 (decide_eq_true_eq.mp
      (wfOpt_mem _ p.invulnerability_ttl httl a ha))) _,
    Option.some_bind]
  simp only []
  rw [rSkeleton_wSkeleton _ _ hsk, Option.some_bind]
  simp only []
  rw [rLocalState_wLocalState _ _ hlo, Option.map_some']

/-- `Entity` (`entity.rs`): id (`u64`), position, kind. -/
structure Entity where
  id : Nat
  position : Vec3
  kind : EKind
deriving DecidableEq, Repr

def Entity.wf (e : Entity) : Bool :=
  decide (e.id < 2 ^ 64) && e.position.wf && e.kind.wf

def wEntity (e : Entity) : List Byte := wU64 e.id ++ wVec3 e.position ++ wEKind e.kind

def rEntity (bs : List Byte) : Option (Entity × List Byte) :=
  (rU64 bs).bind fun p1 =>
    (rVec3 p1.2).bind fun p2 =>
      (rEKind p2.2).map fun p3 => (Entity.mk p1.1 p2.1 p3.1, p3.2)

theorem rEntity_wEntity (e : Entity) (rest : List Byte) (h : e.wf = true) :
    rEntity (wEntity e ++ rest) = some (e, rest) := by
  simp only [Entity.wf, Bool.and_eq_true, decide_eq_true_eq] at h
  obtain ⟨⟨hid, hp⟩, hk⟩ := h
  unfold rEntity wEntity
  rw [List.append_assoc, List.append_assoc]
  rw [rU64_wU64 _ _ hid, Option.some_bind]
  simp only []
  rw [rVec3_wVec3 _ _ hp, Option.some_bind]
  simp only []
  rw [rEKind_wEKind _ _ hk, Option.map_some']

/-- `Players` (`players.rs`): newtype over `HashMap<ID, Player>`, encoded as
the map itself (length then key-value pairs, iteration order modelled by the
list order). -/
def wfPlayersMap (l : List (Nat × Player)) : Bool :=
  decide (l.length < 2 ^ 64) &&
    l.all fun kv => decide (kv.1 < 2 ^ 32) && Player.wf kv.2

theorem rPlayersMap_wPlayersMap (l : List (Nat × Player)) (rest : List Byte)
    (h : wfPlayersMap l = true) :
    rList (rPair rU32 rPlayer) (wList (wPair wU32 wPlayer) l ++ rest) = some (l, rest) := by
  simp only [wfPlayersMap, Bool.and_eq_true, decide_eq_true_eq] at h
  obtain ⟨hlen, hall⟩ := h
  apply rList_wList _ _ _ hlen _ rest
  intro a ha r2
  have h2 := all_mem _ _ hall a ha
  simp only [Bool.and_eq_true, decide_eq_true_eq] at h2
  exact rPair_wPair _ _ _ _ a r2 (fun r3 => rU32_wU32 _ _ h2.1)
    (fun r3 => rPlayer_wPlayer _ r3 h2.2)

/-- `Entities`: `HashMap<EID, Entity>`. -/
def wfEntitiesMap (l : List (Nat × Entity)) : Bool :=
  decide (l.length < 2 ^ 64) &&
    l.all fun kv => decide (kv.1 < 2 ^ 64) && Entity.wf kv.2

theorem rEntitiesMap_wEntitiesMap (l : List (Nat × Entity)) (rest : List Byte)
    (h : wfEntitiesMap l = true) :
    rList (rPair rU64 rEntity) (wList (wPair wU64 wEntity) l ++ rest) = some (l, rest) := by
  simp only [wfEntitiesMap, Bool.and_eq_true, decide_eq_true_eq] at h
  obtain ⟨hlen, hall⟩ := h
  apply rList_wList _ _ _ hlen _ rest
  intro a ha r2
  have h2 := all_mem _ _ hall a ha
  simp only [Bool.and_eq_true, decide_eq_true_eq] at h2
  exact rPair_wPair _ _ _ _ a r2 (fun r3 => rU64_wU64 _ _ h2.1)
    (fun r3 => rEntity_wEntity _ r3 h2.2)

end Wire

namespace Wire

/-- `ClientMsg` (`message.rs`), variants in declaration order. -/
inductive ClientMsg
  | MovePlayer (frame : Frame)
  | ReadyToSpawn
  | AddEffect (effect : Effect)
  | PlaySound (sound : SoundEffect)
  | HitPlayer (victim : Nat)
  | Command (cmd : List Byte)
deriving DecidableEq, Repr

def ClientMsg.wf : ClientMsg → Bool
  | ClientMsg.MovePlayer f => f.wf
  | ClientMsg.ReadyToSpawn => true
  | ClientMsg.AddEffect e => e.wf
  | ClientMsg.PlaySound s => s.wf
  | ClientMsg.HitPlayer v => decide (v < 2 ^ 32)
  | ClientMsg.Command c => decide (c.length < 2 ^ 64)

def wClientMsg : ClientMsg → List Byte
  | ClientMsg.MovePlayer f => wU32 0 ++ wFrame f
  | ClientMsg.ReadyToSpawn => wU32 1
  | ClientMsg.AddEffect e => wU32 2 ++ wEffect e
  | ClientMsg.PlaySound s => wU32 3 ++ wSoundEffect s
  | ClientMsg.HitPlayer v => wU32 4 ++ wU32 v
  | ClientMsg.Command c => wU32 5 ++ wBytes c

def rClientMsg (bs : List Byte) : Option (ClientMsg × List Byte) :=
  (rU32 bs).bind fun pt =>
    if pt.1 = 0 then (rFrame pt.2).map fun p => (ClientMsg.MovePlayer p.1, p.2)
    else if pt.1 = 1 then some (ClientMsg.ReadyToSpawn, pt.2)
    else if pt.1 = 2 then (rEffect pt.2).map fun p => (ClientMsg.AddEffect p.1, p.2)
    else if pt.1 = 3 then (rSoundEffect pt.2).map fun p => (ClientMsg.PlaySound p.1, p.2)
    else if pt.1 = 4 then (rU32 pt.2).map fun p => (ClientMsg.HitPlayer p.1, p.2)
    else if pt.1 = 5 then (rBytes pt.2).map fun p => (ClientMsg.Command p.1, p.2)
    else none

theorem rClientMsg_wClientMsg (m : ClientMsg) (rest : List Byte) (h : m.wf = true) :
    rClientMsg (wClientMsg m ++ rest) = some (m, rest) := by
  cases m with
  | MovePlayer f =>
    have hf : f.wf = true := h
    unfold rClientMsg wClientMsg
    rw [List.append_assoc, rU32_wU32 0 _ (by norm_num), Option.some_bind]
    norm_num
    rw [rFrame_wFrame _ _ hf]
  | ReadyToSpawn =>
    unfold rClientMsg wClientMsg
    rw [rU32_wU32 1 _ (by norm_num), Option.some_bind]
    norm_num
  | AddEffect e =>
    have he : e.wf = true := h
    unfold rClientMsg wClientMsg
    rw [List.append_assoc, rU32_wU32 2 _ (by norm_num), Option.some_bind]
    norm_num
    rw [rEffect_wEffect _ _ he]
  | PlaySound s =>
    have hs : s.wf = true := h
    unfold rClientMsg wClientMsg
    rw [List.append_assoc, rU32_wU32 3 _ (by norm_num), Option.some_bind]
    norm_num
    rw [rSoundEffect_wSoundEffect _ _ hs]
  | HitPlayer v =>
    have hv : v < 2 ^ 32 := decide_eq_true_eq.mp h
    unfold rClientMsg wClientMsg
    rw [List.append_assoc, rU32_wU32 4 _ (by norm_num), Option.some_bind]
    norm_num
    rw [rU32_wU32 _ _ hv]
  | Command c =>
    have hc : c.length < 2 ^ 64 := decide_eq_true_eq.mp h
    unfold rClientMsg wClientMsg
    rw [List.append_assoc, rU32_wU32 5 _ (by norm_num), Option.some_bind]
    norm_num
    rw [rBytes_wBytes _ _ hc]

/-- `ServerMsg` (`message.rs`), variants in declaration order. -/
inductive ServerMsg
  | AddPlayer (player : Player)
  | DropPlayer (id : Nat)
  | SwitchMap (map_name : List Byte) (players : List (Nat × Player)) (player_id : Nat)
      (entities : List (Nat × Entity))
  | ForceMovePlayer (pos : Vec3)
  | RequestRespawn (spawn_point : SpawnPoint)
  | MovePlayer (id : Nat) (frame : Frame)
  | UpdatePlayer (player : Player)
  | UpdateEntity (entity : Entity)
  | RemoveEntity (id : Nat)
  | AddEffect (effect : Effect)
  | PlaySound (sound : SoundEffect)
  | UpdateHUD (update : HUDUpdate)
deriving DecidableEq, Repr

def ServerMsg.wf : ServerMsg → Bool
  | ServerMsg.AddPlayer p => p.wf
  | ServerMsg.DropPlayer i => decide (i < 2 ^ 32)
  | ServerMsg.SwitchMap n ps i es =>
      decide (n.length < 2 ^ 64) && wfPlayersMap ps && decide (i < 2 ^ 32) && wfEntitiesMap es
  | ServerMsg.ForceMovePlayer v => v.wf
  | ServerMsg.RequestRespawn s => s.wf
  | ServerMsg.MovePlayer i f => decide (i < 2 ^ 32) && f.wf
  | ServerMsg.UpdatePlayer p => p.wf
  | ServerMsg.UpdateEntity e => e.wf
  | ServerMsg.RemoveEntity i => decide (i < 2 ^ 64)
  | ServerMsg.AddEffect e => e.wf
  | ServerMsg.PlaySound s => s.wf
  | ServerMsg.UpdateHUD u => u.wf

def wServerMsg : ServerMsg → List Byte
  | ServerMsg.AddPlayer p => wU32 0 ++ wPlayer p
  | ServerMsg.DropPlayer i => wU32 1 ++ wU32 i
  | ServerMsg.SwitchMap n ps i es =>
      wU32 2 ++ wBytes n ++ wList (wPair wU32 wPlayer) ps ++ wU32 i ++
        wList (wPair wU64 wEntity) es
  | ServerMsg.ForceMovePlayer v => wU32 3 ++ wVec3 v
  | ServerMsg.RequestRespawn s => wU32 4 ++ wSpawnPoint s
  | ServerMsg.MovePlayer i f => wU32 5 ++ wU32 i ++ wFrame f
  | ServerMsg.UpdatePlayer p => wU32 6 ++ wPlayer p
  | ServerMsg.UpdateEntity e => wU32 7 ++ wEntity e
  | ServerMsg.RemoveEntity i => wU32 8 ++ wU64 i
  | ServerMsg.AddEffect e => wU32 9 ++ wEffect e
  | ServerMsg.PlaySound s => wU32 10 ++ wSoundEffect s
  | ServerMsg.UpdateHUD u => wU32 11 ++ wHUDUpdate u

def rServerMsg (bs : List Byte) : Option (ServerMsg × List Byte) :=
  (rU32 bs).bind fun pt =>
    if pt.1 = 0 then (rPlayer pt.2).map fun p => (ServerMsg.AddPlayer p.1, p.2)
    else if pt.1 = 1 then (rU32 pt.2).map fun p => (ServerMsg.DropPlayer p.1, p.2)
    else if pt.1 = 2 then
      (rBytes pt.2).bind fun p1 =>
        (rList (rPair rU32 rPlayer) p1.2).bind fun p2 =>
          (rU32 p2.2).bind fun p3 =>
            (rList (rPair rU64 rEntity) p3.2).map fun p4 =>
              (ServerMsg.SwitchMap p1.1 p2.1 p3.1 p4.1, p4.2)
    else if pt.1 = 3 then (rVec3 pt.2).map fun p => (ServerMsg.ForceMovePlayer p.1, p.2)
    else if pt.1 = 4 then (rSpawnPoint pt.2).map fun p => (ServerMsg.RequestRespawn p.1, p.2)
    else if pt.1 = 5 then
      (rU32 pt.2).bind fun p1 =>
        (rFrame p1.2).map fun p2 => (ServerMsg.MovePlayer p1.1 p2.1, p2.2)
    else if pt.1 = 6 then (rPlayer pt.2).map fun p => (ServerMsg.UpdatePlayer p.1, p.2)
    else if pt.1 = 7 then (rEntity pt.2).map fun p => (ServerMsg.UpdateEntity p.1, p.2)
    else if pt.1 = 8 then (rU64 pt.2).map fun p => (ServerMsg.RemoveEntity p.1, p.2)
    else if pt.1 = 9 then (rEffect pt.2).map fun p => (ServerMsg.AddEffect p.1, p.2)
    else if pt.1 = 10 then (rSoundEffect pt.2).map fun p => (ServerMsg.PlaySound p.1, p.2)
    else if pt.1 = 11 then (rHUDUpdate pt.2).map fun p => (ServerMsg.UpdateHUD p.1, p.2)
    else none

theorem rServerMsg_wServerMsg (m : ServerMsg) (rest : List Byte) (h : m.wf = true) :
    rServerMsg (wServerMsg m ++ rest) = some (m, rest) := by
  cases m with
  | AddPlayer p =>
    have hp : p.wf = true := h
    unfold rServerMsg wServerMsg
    rw [List.append_assoc, rU32_wU32 0 _ (by norm_num), Option.some_bind]
    norm_num
    rw [rPlayer_wPlayer _ _ hp]
  | DropPlayer i =>
    have hi : i < 2 ^ 32 := decide_eq_true_eq.mp h
    unfold rServerMsg wServerMsg
    rw [List.append_assoc, rU32_wU32 1 _ (by norm_num), Option.some_bind]
    norm_num
    rw [rU32_wU32 _ _ hi]
  | SwitchMap n ps i es =>
    simp only [ServerMsg.wf, Bool.and_eq_true, decide_eq_true_eq] at h
    obtain ⟨⟨⟨hn, hps⟩, hi⟩, hes⟩ := h
    unfold rServerMsg wServerMsg
    rw [List.append_assoc, List.append_assoc, List.append_assoc, List.append_assoc,
      rU32_wU32 2 _ (by norm_num), Option.some_bind]
    norm_num
    rw [rBytes_wBytes _ _ hn, Option.some_bind]
    simp only []
    rw [rPlayersMap_wPlayersMap ps _ hps, Option.some_bind]
    simp only []
    rw [rU32_wU32 _ _ hi, Option.some_bind]
    simp only []
    rw [rEntitiesMap_wEntitiesMap es _ hes, Option.map_some']
  | ForceMovePlayer v =>
    have hv : v.wf = true := h
    unfold rServerMsg wServerMsg
    rw [List.append_assoc, rU32_wU32 3 _ (by norm_num), Option.some_bind]
    norm_num
    rw [rVec3_wVec3 _ _ hv]
  | RequestRespawn s =>
    have hs : s.wf = true := h
    unfold rServerMsg wServerMsg
    rw [List.append_assoc, rU32_wU32 4 _ (by norm_num), Option.some_bind]
    norm_num
    rw [rSpawnPoint_wSpawnPoint _ _ hs]
  | MovePlayer i f =>
    simp only [ServerMsg.wf, Bool.and_eq_true, decide_eq_true_eq] at h
    obtain ⟨hi, hf⟩ := h
    unfold rServerMsg wServerMsg
    rw [List.append_assoc, List.append_assoc, rU32_wU32 5 _ (by norm_num), Option.some_bind]
    norm_num
    rw [rU32_wU32 _ _ hi, Option.some_bind]
    simp only []
    rw [rFrame_wFrame _ _ hf, Option.map_some']
  | UpdatePlayer p =>
    have hp : p.wf = true := h
    unfold rServerMsg wServerMsg
    rw [List.append_assoc, rU32_wU32 6 _ (by norm_num), Option.some_bind]
    norm_num
    rw [rPlayer_wPlayer _ _ hp]
  | UpdateEntity e =>
    have he : e.wf = true := h
    unfold rServerMsg wServerMsg
    rw [List.append_assoc, rU32_wU32 7 _ (by norm_num), Option.some_bind]
    norm_num
    rw [rEntity_wEntity _ _ he]
  | RemoveEntity i =>
    have hi : i < 2 ^ 64 := decide_eq_true_eq.mp h
    unfold rServerMsg wServerMsg
    rw [List.append_assoc, rU32_wU32 8 _ (by norm_num), Option.some_bind]
    norm_num
    rw [rU64_wU64 _ _ hi]
  | AddEffect e =>
    have he : e.wf = true := h
    unfold rServerMsg wServerMsg
    rw [List.append_assoc, rU32_wU32 9 _ (by norm_num), Option.some_bind]
    norm_num
    rw [rEffect_wEffect _ _ he]
  | PlaySound s =>
    have hs : s.wf = true := h
    unfold rServerMsg wServerMsg
    rw [List.append_assoc, rU32_wU32 10 _ (by norm_num), Option.some_bind]
    norm_num
    rw [rSoundEffect_wSoundEffect _ _ hs]
  | UpdateHUD u =>
    have hu : u.wf = true := h
    unfold rServerMsg wServerMsg
    rw [List.append_assoc, rU32_wU32 11 _ (by norm_num), Option.some_bind]
    norm_num
    rw [rHUDUpdate_wHUDUpdate _ _ hu]

/-- `MAGIC` (`wireformat.rs`). -/
def MAGIC : Nat := 0xff53434154480002

/-- `serialize_into`: the 8 little-endian `MAGIC` bytes, then the payload. -/
def serialize_into {T : Type} (wr : T → List Byte) (msg : T) : List Byte :=
  wU64 MAGIC ++ wr msg

/-- `deserialize_from`: read a `u64`, reject on magic mismatch, then decode
the payload. -/
def deserialize_from {T : Type} (rd : List Byte → Option (T × List Byte)) (bs : List Byte) :
    Option (T × List Byte) :=
  (rU64 bs).bind fun pm =>
    if pm.1 ≠ MAGIC then none else rd pm.2

theorem deserialize_serialize {T : Type} (wr : T → List Byte)
    (rd : List Byte → Option (T × List Byte)) (msg : T)
    (hrt : ∀ rest, rd (wr msg ++ rest) = some (msg, rest)) :
    deserialize_from rd (serialize_into wr msg) = some (msg, []) := by
  unfold deserialize_from serialize_into
  rw [rU64_wU64 _ _ (by norm_num [MAGIC]), Option.some_bind]
  simp only []
  rw [if_neg (fun hne => hne rfl)]
  have h1 := hrt []
  rwa [List.append_nil] at h1

end Wire

/-! ## Claim C5: framed encode/decode roundtrip -/

/-- C5: For every well-formed wire message `m` (client or server variant),
deserializing the framed encoding of `m` (the fixed 8-byte little-endian
magic constant followed by the bincode payload bytes) yields exactly `m`
and consumes the whole stream. -/
theorem C5_wire_roundtrip :
    (∀ m : Wire.ClientMsg, m.wf = true →
      Wire.deserialize_from Wire.rClientMsg (Wire.serialize_into Wire.wClientMsg m)
        = some (m, []))
    ∧ ∀ m : Wire.ServerMsg, m.wf = true →
      Wire.deserialize_from Wire.rServerMsg (Wire.serialize_into Wire.wServerMsg m)
        = some (m, []) := by
  constructor
  · intro m hwf
    exact Wire.deserialize_serialize _ _ m fun rest => Wire.rClientMsg_wClientMsg m rest hwf
  · intro m hwf
    exact Wire.deserialize_serialize _ _ m fun rest => Wire.rServerMsg_wServerMsg m rest hwf

/-- Witness for C5: a concrete client message and a concrete server message
survive the framed roundtrip. -/
theorem C5_wire_roundtrip_witness :
    Wire.deserialize_from Wire.rClientMsg
        (Wire.serialize_into Wire.wClientMsg (Wire.ClientMsg.HitPlayer 7))
      = some (Wire.ClientMsg.HitPlayer 7, [])
    ∧ Wire.deserialize_from Wire.rServerMsg
        (Wire.serialize_into Wire.wServerMsg
          (Wire.ServerMsg.RequestRespawn (Wire.SpawnPoint.mk 1 (-2) 3)))
      = some (Wire.ServerMsg.RequestRespawn (Wire.SpawnPoint.mk 1 (-2) 3), []) :=
  ⟨C5_wire_roundtrip.1 (Wire.ClientMsg.HitPlayer 7) (by decide),
   C5_wire_roundtrip.2 (Wire.ServerMsg.RequestRespawn (Wire.SpawnPoint.mk 1 (-2) 3))
     (by decide)⟩

/-! ## Tile joining (`join_tiles.rs`)

The per-plane pipeline of `join_squares`: squares of one plane (one
direction bucket and one normal position; distinct planes never share unit
faces) are rasterized into a `CS×CS` grid of sizes, then fused by
`merge_horizontal` and `merge_vertical` and read back out.  The grid
`[[uvec2; CS]; CS]` is modelled as a function from `(ix, iy)` to the size
stored there; the two `unreachable!()` arms (hit only on malformed grids)
are modelled as leaving the grid unchanged and ending the current run. -/

/-- The size grid: position `(ix, iy)` to the size of the face anchored
there (`uvec2(0,0)` = no face). -/
def Grid := Nat × Nat → Nat × Nat

/-- The unit cells covered by a face of size `sz` anchored at `p`. -/
def span (p : Nat × Nat) (sz : Nat × Nat) (c : Nat × Nat) : Prop :=
  p.1 ≤ c.1 ∧ c.1 < p.1 + sz.1 ∧ p.2 ≤ c.2 ∧ c.2 < p.2 + sz.2

/-- A unit cell is covered by some face of the grid. -/
def covered (g : Grid) (c : Nat × Nat) : Prop := ∃ p, span p (g p) c

/-- No two distinct faces of the grid overlap. -/
def disj (g : Grid) : Prop :=
  ∀ p1 p2 c, p1 ≠ p2 → span p1 (g p1) c → span p2 (g p2) c → False

theorem span_zero (p c : Nat × Nat) : ¬ span p (0, 0) c := by
  unfold span
  omega

/-- Fusing the face at `p2` into the face at `p1` (the common shape of both
merge passes) preserves the covered set and pairwise disjointness. -/
theorem merge_preserves (g g' : Grid) (p1 p2 : Nat × Nat) (hne : p1 ≠ p2)
    (hg' : ∀ q, q ≠ p1 → q ≠ p2 → g' q = g q)
    (hz : g' p2 = (0, 0))
    (hspan : ∀ c, span p1 (g' p1) c ↔ (span p1 (g p1) c ∨ span p2 (g p2) c)) :
    (∀ c, covered g' c ↔ covered g c) ∧ (disj g → disj g') := by
  constructor
  · intro c
    constructor
    · rintro ⟨p, hp⟩
      by_cases h1 : p = p1
      · rw [h1] at hp
        rcases (hspan c).mp hp with h | h
        · exact ⟨p1, h⟩
        · exact ⟨p2, h⟩
      · by_cases h2 : p = p2
        · rw [h2, hz] at hp
          exact absurd hp (span_zero _ _)
        · rw [hg' p h1 h2] at hp
          exact ⟨p, hp⟩
    · rintro ⟨p, hp⟩
      by_cases h1 : p = p1
      · rw [h1] at hp
        exact ⟨p1, (hspan c).mpr (Or.inl hp)⟩
      · by_cases h2 : p = p2
        · rw [h2] at hp
          exact ⟨p1, (hspan c).mpr (Or.inr hp)⟩
        · exact ⟨p, by rw [hg' p h1 h2]; exact hp⟩
  · intro hd q1 q2 c hq hs1 hs2
    by_cases hq11 : q1 = p1
    · rw [hq11] at hs1 hq
      by_cases hq22 : q2 = p2
      · rw [hq22, hz] at hs2
        exact span_zero _ _ hs2
      · have hq21 : q2 ≠ p1 := fun h => hq h.symm
        rw [hg' q2 hq21 hq22] at hs2
        rcases (hspan c).mp hs1 with h | h
        · exact hd p1 q2 c hq h hs2
        · exact hd p2 q2 c (fun he => hq22 he.symm) h hs2
    · by_cases hq12 : q1 = p2
      · rw [hq12, hz] at hs1
        exact span_zero _ _ hs1
      · rw [hg' q1 hq11 hq12] at hs1
        by_cases hq21 : q2 = p1
        · rw [hq21] at hs2
          rcases (hspan c).mp hs2 with h | h
          · exact hd q1 p1 c hq11 hs1 h
          · exact hd q1 p2 c hq12 hs1 h
        · by_cases hq22 : q2 = p2
          · rw [hq22, hz] at hs2
            exact span_zero _ _ hs2
          · rw [hg' q2 hq21 hq22] at hs2
            exact hd q1 q2 c hq hs1 hs2

theorem span_mk (px py sx sy c1 c2 : Nat) :
    span (px, py) (sx, sy) (c1, c2) ↔ px ≤ c1 ∧ c1 < px + sx ∧ py ≤ c2 ∧ c2 < py + sy :=
  Iff.rfl

/-- One step of `merge_horizontal`'s inner loop over row `iy` at column
`ix`, carrying the grid and `run_start`. -/
def hstep (iy : Nat) (s : Grid × Option Nat) (ix : Nat) : Grid × Option Nat :=
  if s.1 (ix, iy) = (0, 0) then (s.1, none)
  else if s.1 (ix, iy) = (1, 1) then
    match s.2 with
    | none => (s.1, some ix)
    | some start =>
        (fun q => if q = (start, iy) then ((s.1 (start, iy)).1 + 1, (s.1 (start, iy)).2)
                  else if q = (ix, iy) then (0, 0) else s.1 q, some start)
  else (s.1, none)

/-- Invariant of the horizontal run: the run's start cell holds exactly the
strip merged so far. -/
def hrun (iy : Nat) (s : Grid × Option Nat) (n : Nat) : Prop :=
  ∀ start, s.2 = some start → start < n ∧ s.1 (start, iy) = (n - start, 1)

theorem hstep_spec (iy : Nat) (s : Grid × Option Nat) (n : Nat) (hr : hrun iy s n) :
    (∀ c, covered ((hstep iy s n).1) c ↔ covered s.1 c)
    ∧ (disj s.1 → disj ((hstep iy s n).1))
    ∧ (∀ q, ((hstep iy s n).1) q ≠ (0, 0) → s.1 q ≠ (0, 0))
    ∧ hrun iy (hstep iy s n) (n + 1) := by
  unfold hstep
  by_cases h0 : s.1 (n, iy) = (0, 0)
  · rw [if_pos h0]
    exact ⟨fun c => Iff.rfl, id, fun q h => h, fun st hst => by cases hst⟩
  · rw [if_neg h0]
    by_cases h1 : s.1 (n, iy) = (1, 1)
    · rw [if_pos h1]
      cases hrs : s.2 with
      | none =>
        refine ⟨fun c => Iff.rfl, id, fun q h => h, ?_⟩
        intro st hst
        cases hst
        refine ⟨by omega, ?_⟩
        rw [h1, show n + 1 - n = 1 from by omega]
      | some start =>
        obtain ⟨hlt, hsv⟩ := hr start hrs
        have hsv1 : (s.1 (start, iy)).1 = n - start := by rw [hsv]
        have hsv2 : (s.1 (start, iy)).2 = 1 := by rw [hsv]
        have hne : ((start, iy) : Nat × Nat) ≠ (n, iy) := by
          intro he
          rw [Prod.mk.injEq] at he
          omega
        have hmp := merge_preserves s.1
          (fun q => if q = (start, iy) then ((s.1 (start, iy)).1 + 1, (s.1 (start, iy)).2)
                    else if q = (n, iy) then (0, 0) else s.1 q)
          (start, iy) (n, iy) hne
          (fun q hq1 hq2 => by simp only []; rw [if_neg hq1, if_neg hq2])
          (by simp only []; rw [if_neg (Ne.symm hne), if_pos trivial])
          (by
            intro c
            obtain ⟨c1, c2⟩ := c
            simp only []
            rw [if_pos trivial, hsv1, hsv2, hsv, h1]
            rw [span_mk, span_mk, span_mk]
            omega)
        refine ⟨hmp.1, hmp.2, ?_, ?_⟩
        · intro q hq
          by_cases hq1 : q = (start, iy)
          · rw [hq1, hsv]
            intro hcon
            rw [Prod.mk.injEq] at hcon
            omega
          · by_cases hq2 : q = (n, iy)
            · simp only [] at hq
              rw [hq2, if_neg (Ne.symm hne), if_pos rfl] at hq
              exact absurd rfl hq
            · simp only [] at hq
              rw [if_neg hq1, if_neg hq2] at hq
              exact hq
        · intro st hst
          cases hst
          refine ⟨by omega, ?_⟩
          simp only []
          rw [if_pos trivial, hsv1, hsv2, show n - start + 1 = n + 1 - start from by omega]
    · rw [if_neg h1]
      exact ⟨fun c => Iff.rfl, id, fun q h => h, fun st hst => by cases hst⟩

theorem hfold_spec (iy : Nat) (g0 : Grid) (n : Nat) :
    (∀ c, covered (((List.range n).foldl (hstep iy) (g0, none)).1) c ↔ covered g0 c)
    ∧ (disj g0 → disj (((List.range n).foldl (hstep iy) (g0, none)).1))
    ∧ (∀ q, (((List.range n).foldl (hstep iy) (g0, none)).1) q ≠ (0, 0) → g0 q ≠ (0, 0))
    ∧ hrun iy ((List.range n).foldl (hstep iy) (g0, none)) n := by
  induction n with
  | zero =>
    exact ⟨fun c => Iff.rfl, id, fun q h => h, fun st hst => by cases hst⟩
  | succ n ih =>
    obtain ⟨hcov, hdisj, hsupp, hrun0⟩ := ih
    rw [List.range_succ, List.foldl_append, List.foldl_cons, List.foldl_nil]
    obtain ⟨hc2, hd2, hs2, hr2⟩ :=
      hstep_spec iy ((List.range n).foldl (hstep iy) (g0, none)) n hrun0
    exact ⟨fun c => (hc2 c).trans (hcov c), fun hd => hd2 (hdisj hd),
      fun q hq => hsupp q (hs2 q hq), hr2⟩

/-- Process one whole row (`merge_horizontal`'s body for one `iy`). -/
def mergeRow (g : Grid) (iy : Nat) : Grid :=
  ((List.range 64).foldl (hstep iy) (g, none)).1

/-- `TileBuffer::merge_horizontal`. -/
def merge_horizontal (g : Grid) : Grid := (List.range 64).foldl mergeRow g

theorem mergeRow_spec (g0 : Grid) (iy : Nat) :
    (∀ c, covered (mergeRow g0 iy) c ↔ covered g0 c) ∧ (disj g0 → disj (mergeRow g0 iy))
    ∧ ∀ q, (mergeRow g0 iy) q ≠ (0, 0) → g0 q ≠ (0, 0) :=
  ⟨(hfold_spec iy g0 64).1, (hfold_spec iy g0 64).2.1, (hfold_spec iy g0 64).2.2.1⟩

theorem foldl_grid_preserves {β : Type} (f : Grid → β → Grid) (l : List β)
    (hf : ∀ g b, (∀ c, covered (f g b) c ↔ covered g c) ∧ (disj g → disj (f g b))
        ∧ ∀ q, (f g b) q ≠ (0, 0) → g q ≠ (0, 0)) :
    ∀ g0 : Grid,
    (∀ c, covered (l.foldl f g0) c ↔ covered g0 c) ∧ (disj g0 → disj (l.foldl f g0))
    ∧ ∀ q, (l.foldl f g0) q ≠ (0, 0) → g0 q ≠ (0, 0) := by
  induction l with
  | nil => exact fun g0 => ⟨fun c => Iff.rfl, id, fun q h => h⟩
  | cons b l ih =>
    intro g0
    obtain ⟨hc1, hd1, hs1⟩ := hf g0 b
    obtain ⟨hc2, hd2, hs2⟩ := ih (f g0 b)
    exact ⟨fun c => (hc2 c).trans (hc1 c), fun hd => hd2 (hd1 hd),
      fun q hq => hs1 q (hs2 q hq)⟩

theorem merge_horizontal_spec (g0 : Grid) :
    (∀ c, covered (merge_horizontal g0) c ↔ covered g0 c)
    ∧ (disj g0 → disj (merge_horizontal g0))
    ∧ ∀ q, (merge_horizontal g0) q ≠ (0, 0) → g0 q ≠ (0, 0) :=
  foldl_grid_preserves mergeRow (List.range 64) (fun g b => mergeRow_spec g b) g0

theorem span_any (p : Nat × Nat) (sz : Nat × Nat) (c : Nat × Nat) :
    span p sz c ↔ p.1 ≤ c.1 ∧ c.1 < p.1 + sz.1 ∧ p.2 ≤ c.2 ∧ c.2 < p.2 + sz.2 :=
  Iff.rfl

/-- The run-handling arm of `merge_vertical`'s inner loop: a strip merges
into the run when its length matches the run's strip, otherwise it starts a
new run. -/
def vstepRun (ix : Nat) (g : Grid) : Option Nat → Nat → Grid × Option Nat
  | none, iy => (g, some iy)
  | some start, iy =>
      if (g (ix, iy)).1 = (g (ix, start)).1 then
        (fun q => if q = (ix, start) then ((g (ix, start)).1, (g (ix, start)).2 + 1)
                  else if q = (ix, iy) then (0, 0) else g q, some start)
      else (g, some iy)

/-- One step of `merge_vertical`'s inner loop over column `ix` at row `iy`. -/
def vstep (ix : Nat) (s : Grid × Option Nat) (iy : Nat) : Grid × Option Nat :=
  if s.1 (ix, iy) = (0, 0) then (s.1, none)
  else if (s.1 (ix, iy)).2 = 1 then vstepRun ix s.1 s.2 iy
  else (s.1, none)

/-- Invariant of the vertical run: the run's start cell has exactly the
height merged so far. -/
def vrun (ix : Nat) (s : Grid × Option Nat) (n : Nat) : Prop :=
  ∀ start, s.2 = some start → start < n ∧ (s.1 (ix, start)).2 = n - start

theorem vstep_spec (ix : Nat) (s : Grid × Option Nat) (n : Nat) (hr : vrun ix s n) :
    (∀ c, covered ((vstep ix s n).1) c ↔ covered s.1 c)
    ∧ (disj s.1 → disj ((vstep ix s n).1))
    ∧ (∀ q, ((vstep ix s n).1) q ≠ (0, 0) → s.1 q ≠ (0, 0))
    ∧ vrun ix (vstep ix s n) (n + 1) := by
  unfold vstep
  by_cases h0 : s.1 (ix, n) = (0, 0)
  · rw [if_pos h0]
    exact ⟨fun c => Iff.rfl, id, fun q h => h, fun st hst => by cases hst⟩
  · rw [if_neg h0]
    by_cases h1 : (s.1 (ix, n)).2 = 1
    · rw [if_pos h1]
      cases hrs : s.2 with
      | none =>
        refine ⟨fun c => Iff.rfl, id, fun q h => h, ?_⟩
        intro st hst
        cases hst
        refine ⟨by omega, ?_⟩
        show (s.1 (ix, n)).2 = n + 1 - n
        omega
      | some start =>
        obtain ⟨hlt, hsv2⟩ := hr start hrs
        simp only [vstepRun]
        by_cases hlen : (s.1 (ix, n)).1 = (s.1 (ix, start)).1
        · rw [if_pos hlen]
          have hne : ((ix, start) : Nat × Nat) ≠ (ix, n) := by
            intro he
            rw [Prod.mk.injEq] at he
            omega
          have hmp := merge_preserves s.1
            (fun q => if q = (ix, start) then ((s.1 (ix, start)).1, (s.1 (ix, start)).2 + 1)
                      else if q = (ix, n) then (0, 0) else s.1 q)
            (ix, start) (ix, n) hne
            (fun q hq1 hq2 => by simp only []; rw [if_neg hq1, if_neg hq2])
            (by simp only []; rw [if_neg (Ne.symm hne), if_pos trivial])
            (by
              intro c
              obtain ⟨c1, c2⟩ := c
              simp only []
              rw [if_pos trivial]
              simp only [span_any]
              omega)
          refine ⟨hmp.1, hmp.2, ?_, ?_⟩
          · intro q hq
            by_cases hq1 : q = (ix, start)
            · rw [hq1]
              intro hcon
              rw [hcon] at hsv2
              simp only [] at hsv2
              omega
            · by_cases hq2 : q = (ix, n)
              · simp only [] at hq
                rw [hq2, if_neg (Ne.symm hne), if_pos rfl] at hq
                exact absurd rfl hq
              · simp only [] at hq
                rw [if_neg hq1, if_neg hq2] at hq
                exact hq
          · intro st hst
            cases hst
            refine ⟨by omega, ?_⟩
            simp only []
            rw [if_pos trivial]
            simp only []
            omega
        · rw [if_neg hlen]
          refine ⟨fun c => Iff.rfl, id, fun q h => h, ?_⟩
          intro st hst
          cases hst
          refine ⟨by omega, ?_⟩
          show (s.1 (ix, n)).2 = n + 1 - n
          omega
    · rw [if_neg h1]
      exact ⟨fun c => Iff.rfl, id, fun q h => h, fun st hst => by cases hst⟩

theorem vfold_spec (ix : Nat) (g0 : Grid) (n : Nat) :
    (∀ c, covered (((List.range n).foldl (vstep ix) (g0, none)).1) c ↔ covered g0 c)
    ∧ (disj g0 → disj (((List.range n).foldl (vstep ix) (g0, none)).1))
    ∧ (∀ q, (((List.range n).foldl (vstep ix) (g0, none)).1) q ≠ (0, 0) → g0 q ≠ (0, 0))
    ∧ vrun ix ((List.range n).foldl (vstep ix) (g0, none)) n := by
  induction n with
  | zero =>
    exact ⟨fun c => Iff.rfl, id, fun q h => h, fun st hst => by cases hst⟩
  | succ n ih =>
    obtain ⟨hcov, hdisj, hsupp, hrun0⟩ := ih
    rw [List.range_succ, List.foldl_append, List.foldl_cons, List.foldl_nil]
    obtain ⟨hc2, hd2, hs2, hr2⟩ :=
      vstep_spec ix ((List.range n).foldl (vstep ix) (g0, none)) n hrun0
    exact ⟨fun c => (hc2 c).trans (hcov c), fun hd => hd2 (hdisj hd),
      fun q hq => hsupp q (hs2 q hq), hr2⟩

/-- Process one whole column (`merge_vertical`'s body for one `ix`). -/
def mergeCol (g : Grid) (ix : Nat) : Grid :=
  ((List.range 64).foldl (vstep ix) (g, none)).1

/-- `TileBuffer::merge_vertical`. -/
def merge_vertical (g : Grid) : Grid := (List.range 64).foldl mergeCol g

theorem mergeCol_spec (g0 : Grid) (ix : Nat) :
    (∀ c, covered (mergeCol g0 ix) c ↔ covered g0 c) ∧ (disj g0 → disj (mergeCol g0 ix))
    ∧ ∀ q, (mergeCol g0 ix) q ≠ (0, 0) → g0 q ≠ (0, 0) :=
  ⟨(vfold_spec ix g0 64).1, (vfold_spec ix g0 64).2.1, (vfold_spec ix g0 64).2.2.1⟩

theorem merge_vertical_spec (g0 : Grid) :
    (∀ c, covered (merge_vertical g0) c ↔ covered g0 c)
    ∧ (disj g0 → disj (merge_vertical g0))
    ∧ ∀ q, (merge_vertical g0) q ≠ (0, 0) → g0 q ≠ (0, 0) :=
  foldl_grid_preserves mergeCol (List.range 64) (fun g b => mergeCol_spec g b) g0

/-- `Tile` (`join_tiles.rs`): a square anchored at `corner` (in-cell
coordinates, so components are naturals below 64). -/
structure Tile where
  corner : Nat × Nat
  size : Nat
deriving DecidableEq, Repr

/-- The unit cells of a tile. -/
def inTile (t : Tile) (c : Nat × Nat) : Prop :=
  t.corner.1 ≤ c.1 ∧ c.1 < t.corner.1 + t.size ∧
    t.corner.2 ≤ c.2 ∧ c.2 < t.corner.2 + t.size

instance (t : Tile) (c : Nat × Nat) : Decidable (inTile t c) := by
  unfold inTile
  infer_instance

/-- Write one tile's unit squares into the grid (the inner loops of
`rasterize_to_1x1`). -/
def writeTile (g : Grid) (t : Tile) : Grid :=
  (List.range t.size).foldl (fun g2 iy =>
    (List.range t.size).foldl (fun g3 ix =>
      fun q => if q = (t.corner.1 + ix, t.corner.2 + iy) then (1, 1) else g3 q) g2) g

/-- `TileBuffer::rasterize_to_1x1`. -/
def rasterize (plane : List Tile) : Grid := plane.foldl writeTile (fun _ => (0, 0))

theorem writeRow_char (cx cy : Nat) (m : Nat) (g2 : Grid) (q : Nat × Nat) :
    ((List.range m).foldl (fun g3 ix =>
        fun r => if r = (cx + ix, cy) then (1, 1) else g3 r) g2) q
      = if ∃ i, i < m ∧ q = (cx + i, cy) then (1, 1) else g2 q := by
  induction m with
  | zero =>
    rw [if_neg]
    · rfl
    · rintro ⟨i, hi, _⟩
      omega
  | succ m ih =>
    rw [List.range_succ, List.foldl_append, List.foldl_cons, List.foldl_nil]
    by_cases hq : q = (cx + m, cy)
    · rw [if_pos hq, if_pos ⟨m, by omega, hq⟩]
    · rw [if_neg hq, ih]
      by_cases hex : ∃ i, i < m ∧ q = (cx + i, cy)
      · obtain ⟨i, hi, he⟩ := hex
        rw [if_pos ⟨i, hi, he⟩, if_pos ⟨i, by omega, he⟩]
      · rw [if_neg hex, if_neg ?h2]
        case h2 =>
          rintro ⟨i, hi, he⟩
          by_cases him : i = m
          · rw [him] at he
            exact hq he
          · exact hex ⟨i, by omega, he⟩

theorem writeTile_char (g : Grid) (t : Tile) (q : Nat × Nat) :
    writeTile g t q = if inTile t q then (1, 1) else g q := by
  unfold writeTile
  have hout : ∀ m ≤ t.size, ((List.range m).foldl (fun g2 iy =>
      (List.range t.size).foldl (fun g3 ix =>
        fun r => if r = (t.corner.1 + ix, t.corner.2 + iy) then (1, 1) else g3 r) g2) g) q
      = if ∃ j, j < m ∧ t.corner.1 ≤ q.1 ∧ q.1 < t.corner.1 + t.size ∧ q.2 = t.corner.2 + j
        then (1, 1) else g q := by
    intro m
    induction m with
    | zero =>
      intro hm
      rw [if_neg]
      · rfl
      · rintro ⟨j, hj, _⟩
        omega
    | succ m ih =>
      intro hm
      rw [List.range_succ, List.foldl_append, List.foldl_cons, List.foldl_nil]
      rw [writeRow_char, ih (by omega)]
      by_cases hrow : ∃ i, i < t.size ∧ q = (t.corner.1 + i, t.corner.2 + m)
      · obtain ⟨i, hi, he⟩ := hrow
        rw [if_pos ⟨i, hi, he⟩, if_pos ?hp]
        case hp =>
          refine ⟨m, by omega, ?_⟩
          rw [he]
          simp only []
          exact ⟨by omega, by omega, trivial⟩
      · rw [if_neg hrow]
        by_cases hex : ∃ j, j < m ∧ t.corner.1 ≤ q.1 ∧ q.1 < t.corner.1 + t.size
            ∧ q.2 = t.corner.2 + j
        · obtain ⟨j, hj, he⟩ := hex
          rw [if_pos ⟨j, hj, he⟩, if_pos ⟨j, by omega, he⟩]
        · rw [if_neg hex, if_neg ?h3]
          case h3 =>
            rintro ⟨j, hj, h2, h3, h4⟩
            by_cases hjm : j = m
            · apply hrow
              refine ⟨q.1 - t.corner.1, by omega, ?_⟩
              rw [hjm] at h4
              rcases q with ⟨q1, q2⟩
              simp only [] at h2 h3 h4 ⊢
              rw [Prod.mk.injEq]
              omega
            · exact hex ⟨j, by omega, h2, h3, h4⟩
  refine Eq.trans (hout t.size (le_refl _)) ?_
  by_cases hin : inTile t q
  · obtain ⟨h1, h2, h3, h4⟩ := hin
    rw [if_pos ⟨q.2 - t.corner.2, by omega, h1, h2, by omega⟩,
      if_pos (show inTile t q from ⟨h1, h2, h3, h4⟩)]
  · rw [if_neg ?h5, if_neg hin]
    case h5 =>
      rintro ⟨j, hj, h2, h3, h4⟩
      exact hin ⟨h2, h3, by omega, by omega⟩

theorem rasterize_aux_notin (plane : List Tile) (q : Nat × Nat)
    (h : ¬ ∃ t ∈ plane, inTile t q) :
    ∀ g0 : Grid, (plane.foldl writeTile g0) q = g0 q := by
  induction plane with
  | nil => intro g0; rfl
  | cons t rest ih =>
    intro g0
    rw [List.foldl_cons, ih (fun ⟨u, hu, hin⟩ => h ⟨u, List.mem_cons_of_mem t hu, hin⟩),
      writeTile_char, if_neg (fun hin => h ⟨t, List.mem_cons_self t rest, hin⟩)]

theorem rasterize_aux_in (plane : List Tile) (q : Nat × Nat)
    (h : ∃ t ∈ plane, inTile t q) :
    ∀ g0 : Grid, (plane.foldl writeTile g0) q = (1, 1) := by
  induction plane with
  | nil =>
    obtain ⟨t, ht, _⟩ := h
    cases ht
  | cons t rest ih =>
    intro g0
    rw [List.foldl_cons]
    by_cases hrest : ∃ u ∈ rest, inTile u q
    · exact ih hrest _
    · rw [rasterize_aux_notin rest q hrest, writeTile_char]
      obtain ⟨u, hu, hin⟩ := h
      rcases List.mem_cons.mp hu with he | hu2
      · rw [if_pos (he ▸ hin)]
      · exact absurd ⟨u, hu2, hin⟩ hrest

theorem rasterize_char (plane : List Tile) (q : Nat × Nat) :
    (rasterize plane q = (1, 1) ↔ ∃ t ∈ plane, inTile t q)
    ∧ (rasterize plane q = (1, 1) ∨ rasterize plane q = (0, 0)) := by
  unfold rasterize
  by_cases h : ∃ t ∈ plane, inTile t q
  · rw [rasterize_aux_in plane q h]
    exact ⟨⟨fun _ => h, fun _ => rfl⟩, Or.inl rfl⟩
  · rw [rasterize_aux_notin plane q h]
    refine ⟨⟨fun hc => ?_, fun hc => absurd hc h⟩, Or.inr rfl⟩
    rw [Prod.mk.injEq] at hc
    omega

theorem covered_rasterize (plane : List Tile) (c : Nat × Nat) :
    covered (rasterize plane) c ↔ ∃ t ∈ plane, inTile t c := by
  constructor
  · rintro ⟨p, hp⟩
    rcases (rasterize_char plane p).2 with h | h
    · rw [h] at hp
      have hpc : p = c := by
        rw [span_any] at hp
        rcases p with ⟨p1, p2⟩
        rcases c with ⟨c1, c2⟩
        simp only [] at hp
        rw [Prod.mk.injEq]
        omega
      rw [← hpc]
      exact (rasterize_char plane p).1.mp h
    · rw [h] at hp
      exact absurd hp (span_zero _ _)
  · intro h
    refine ⟨c, ?_⟩
    rw [(rasterize_char plane c).1.mpr h, span_any]
    omega

theorem disj_rasterize (plane : List Tile) : disj (rasterize plane) := by
  intro p1 p2 c hne hs1 hs2
  have h1 : p1 = c := by
    rcases (rasterize_char plane p1).2 with h | h
    · rw [h, span_any] at hs1
      rcases p1 with ⟨a, b⟩
      rcases c with ⟨u, v⟩
      rw [Prod.mk.injEq]
      simp only [] at hs1
      omega
    · rw [h] at hs1
      exact absurd hs1 (span_zero _ _)
  have h2 : p2 = c := by
    rcases (rasterize_char plane p2).2 with h | h
    · rw [h, span_any] at hs2
      rcases p2 with ⟨a, b⟩
      rcases c with ⟨u, v⟩
      rw [Prod.mk.injEq]
      simp only [] at hs2
      omega
    · rw [h] at hs2
      exact absurd hs2 (span_zero _ _)
  exact hne (h1.trans h2.symm)

/-- Read the fused rectangles back out of the grid (the final loops of
`build_plane`): one `(position, size)` per non-empty entry. -/
def extract (g : Grid) : List ((Nat × Nat) × (Nat × Nat)) :=
  (List.range 64).flatMap fun iy =>
    (List.range 64).flatMap fun ix =>
      if g (ix, iy) = (0, 0) then [] else [((ix, iy), g (ix, iy))]

theorem mem_extract (g : Grid) (r : (Nat × Nat) × (Nat × Nat)) :
    r ∈ extract g ↔ r.1.1 < 64 ∧ r.1.2 < 64 ∧ g r.1 ≠ (0, 0) ∧ r.2 = g r.1 := by
  unfold extract
  simp only [List.mem_flatMap, List.mem_range]
  constructor
  · rintro ⟨iy, hiy, ix, hix, hmem⟩
    by_cases h0 : g (ix, iy) = (0, 0)
    · rw [if_pos h0] at hmem
      cases hmem
    · rw [if_neg h0] at hmem
      rw [List.mem_singleton] at hmem
      rw [hmem]
      exact ⟨hix, hiy, h0, rfl⟩
  · rintro ⟨h1, h2, h3, h4⟩
    refine ⟨r.1.2, h2, r.1.1, h1, ?_⟩
    have hr1 : ((r.1.1, r.1.2) : Nat × Nat) = r.1 := rfl
    rw [hr1, if_neg h3, List.mem_singleton]
    rw [Prod.ext_iff]
    exact ⟨rfl, h4⟩

/-- The whole per-plane pipeline of `join_squares`/`build_plane`. -/
def join_squares_plane (plane : List Tile) : List ((Nat × Nat) × (Nat × Nat)) :=
  extract (merge_vertical (merge_horizontal (rasterize plane)))

/-! ## Claim C9: `join_squares` covers exactly the input and never overlaps -/

/-- C9: For a set of size-aligned, pairwise non-overlapping squares within
one cell (one plane of `join_squares`; distinct planes never share unit
faces), the output rectangles cover exactly the union of the input squares,
and no two output rectangles overlap. -/
theorem C9_join_squares (plane : List Tile)
    (hwf : ∀ t ∈ plane, 1 ≤ t.size ∧ t.size ∣ t.corner.1 ∧ t.size ∣ t.corner.2 ∧
        t.corner.1 + t.size ≤ 64 ∧ t.corner.2 + t.size ≤ 64)
    (hdisj : ∀ t1 ∈ plane, ∀ t2 ∈ plane, t1 ≠ t2 →
        t1.corner.1 + t1.size ≤ t2.corner.1 ∨ t2.corner.1 + t2.size ≤ t1.corner.1 ∨
        t1.corner.2 + t1.size ≤ t2.corner.2 ∨ t2.corner.2 + t2.size ≤ t1.corner.2) :
    (∀ c, (∃ r ∈ join_squares_plane plane, span r.1 r.2 c) ↔ ∃ t ∈ plane, inTile t c)
    ∧ ∀ r1 ∈ join_squares_plane plane, ∀ r2 ∈ join_squares_plane plane,
        r1 ≠ r2 → ∀ c, span r1.1 r1.2 c → span r2.1 r2.2 c → False := by
  obtain ⟨hcovH, hdisjH, hsuppH⟩ := merge_horizontal_spec (rasterize plane)
  obtain ⟨hcovV, hdisjV, hsuppV⟩ := merge_vertical_spec (merge_horizontal (rasterize plane))
  simp only [join_squares_plane]
  set G := merge_vertical (merge_horizontal (rasterize plane)) with hG
  clear_value G
  have hdisjG : disj G := hdisjV (hdisjH (disj_rasterize plane))
  have hsupp : ∀ q, G q ≠ (0, 0) → rasterize plane q ≠ (0, 0) :=
    fun q hq => hsuppH q (hsuppV q hq)
  have hcov : ∀ c, covered G c ↔ ∃ t ∈ plane, inTile t c :=
    fun c => ((hcovV c).trans (hcovH c)).trans (covered_rasterize plane c)
  constructor
  · intro c
    constructor
    · rintro ⟨r, hr, hsp⟩
      obtain ⟨h1, h2, h3, h4⟩ := (mem_extract G r).mp hr
      rw [h4] at hsp
      exact (hcov c).mp ⟨r.1, hsp⟩
    · intro h
      obtain ⟨p, hp⟩ := (hcov c).mpr h
      have hpne : G p ≠ (0, 0) := by
        intro h0
        rw [h0] at hp
        exact span_zero _ _ hp
      have hbound : p.1 < 64 ∧ p.2 < 64 := by
        have hras := hsupp p hpne
        have hin : ∃ t ∈ plane, inTile t p := by
          rcases (rasterize_char plane p).2 with hx | hx
          · exact (rasterize_char plane p).1.mp hx
          · exact absurd hx hras
        obtain ⟨t, ht, htin⟩ := hin
        obtain ⟨hs1, hd1, hd2, hb1, hb2⟩ := hwf t ht
        obtain ⟨hu1, hu2, hu3, hu4⟩ := htin
        omega
      refine ⟨(p, G p), ?_, hp⟩
      rw [mem_extract G]
      exact ⟨hbound.1, hbound.2, hpne, rfl⟩
  · intro r1 hr1 r2 hr2 hne c hs1 hs2
    obtain ⟨h11, h12, h13, h14⟩ := (mem_extract G r1).mp hr1
    obtain ⟨h21, h22, h23, h24⟩ := (mem_extract G r2).mp hr2
    have hpne : r1.1 ≠ r2.1 := by
      intro he
      apply hne
      rw [Prod.ext_iff]
      refine ⟨he, ?_⟩
      rw [h14, h24, he]
    rw [h14] at hs1
    rw [h24] at hs2
    exact hdisjG r1.1 r2.1 c hpne hs1 hs2

/-- Witness for C9: two unit squares and one 2×2 square in one plane. -/
theorem C9_join_squares_witness :
    (∀ c, (∃ r ∈ join_squares_plane
          [Tile.mk (0, 0) 1, Tile.mk (1, 0) 1, Tile.mk (2, 0) 2],
        span r.1 r.2 c) ↔
      ∃ t ∈ [Tile.mk (0, 0) 1, Tile.mk (1, 0) 1, Tile.mk (2, 0) 2], inTile t c)
    ∧ ∀ r1 ∈ join_squares_plane [Tile.mk (0, 0) 1, Tile.mk (1, 0) 1, Tile.mk (2, 0) 2],
      ∀ r2 ∈ join_squares_plane [Tile.mk (0, 0) 1, Tile.mk (1, 0) 1, Tile.mk (2, 0) 2],
        r1 ≠ r2 → ∀ c, span r1.1 r1.2 c → span r2.1 r2.2 c → False :=
  C9_join_squares [Tile.mk (0, 0) 1, Tile.mk (1, 0) 1, Tile.mk (2, 0) 2]
    (by
      intro t ht
      fin_cases ht <;> refine ⟨by norm_num, by norm_num, by norm_num, by norm_num, by norm_num⟩)
    (by
      intro t1 ht1 t2 ht2 hne
      fin_cases ht1 <;> fin_cases ht2 <;> simp_all <;> norm_num)

/-! ### Exact binary32 model and `skeleton.rs` physics (`src/scathanna_core/src/game/physics`)

Rust `f32` arithmetic is IEEE-754 binary32: the exact real result of each
operation, rounded to nearest (ties to even).  All traces used below stay
finite, far from overflow, so infinities and NaN are not modelled. -/

namespace Phys

/-- A binary32 value `m * 2 ^ e` in canonical form: `m = 0 ∧ e = 0`, or
`2^23 ≤ |m| < 2^24` (normal), or `e = -149 ∧ |m| < 2^23` (subnormal). -/
structure F32 where
  m : Int
  e : Int
deriving DecidableEq, Repr

/-- Fuelled base-2 logarithm (structural, so that the kernel can evaluate it;
with fuel ≥ n it agrees with the usual `log2` for n ≥ 1). -/
def log2f : Nat → Nat → Nat
  | 0, _ => 0
  | fuel + 1, n => if n ≤ 1 then 0 else log2f fuel (n / 2) + 1

/-- Round `m / 2 ^ sh` to the nearest integer, ties to even. -/
def rshiftRNE (m : Int) (sh : Nat) : Int :=
  let d : Int := 2 ^ sh
  let q := Int.fdiv m d
  let r := Int.fmod m d
  if 2 * r < d then q
  else if d < 2 * r then q + 1
  else if q % 2 = 0 then q else q + 1

/-- Round the exact dyadic `m * 2 ^ e` to the nearest binary32 (ties to
even), in canonical form.  Overflow to infinity is not modelled. -/
def roundF (m : Int) (e : Int) : F32 :=
  if m = 0 then ⟨0, 0⟩ else
  let b : Int := log2f m.natAbs m.natAbs
  let et : Int := max (b + e - 23) (-149)
  let sh : Int := et - e
  if sh ≤ 0 then ⟨m * 2 ^ (-sh).toNat, et⟩
  else
    let q := rshiftRNE m sh.toNat
    if q = 0 then ⟨0, 0⟩
    else if q.natAbs = 2 ^ 24 then ⟨q / 2, et + 1⟩
    else ⟨q, et⟩

/-- The rational value denoted by an `F32`. -/
def qval (a : F32) : ℚ := (a.m : ℚ) * 2 ^ a.e

def fneg (a : F32) : F32 := ⟨-a.m, a.e⟩

/-- `f32` addition: exact dyadic sum, then round. -/
def fadd (a b : F32) : F32 :=
  let e := min a.e b.e
  roundF (a.m * 2 ^ (a.e - e).toNat + b.m * 2 ^ (b.e - e).toNat) e

def fsub (a b : F32) : F32 := fadd a (fneg b)

/-- `f32` multiplication: exact product, then round. -/
def fmul (a b : F32) : F32 := roundF (a.m * b.m) (a.e + b.e)

/-- Division by `2 ^ k` (the source divides only by the constants `16.0` and
`2.0`, exact powers of two): exact scaling, then round. -/
def fdivPow2 (a : F32) (k : Nat) : F32 := roundF a.m (a.e - k)

/-- `a < b` on values. -/
def flt (a b : F32) : Bool :=
  let e := min a.e b.e
  decide (a.m * 2 ^ (a.e - e).toNat < b.m * 2 ^ (b.e - e).toNat)

/-- `a ≤ b` on values. -/
def fle (a b : F32) : Bool :=
  let e := min a.e b.e
  decide (a.m * 2 ^ (a.e - e).toNat ≤ b.m * 2 ^ (b.e - e).toNat)

/-- `f32::floor` followed by the cast to `i32` (`.map(f32::floor).to_ivec()`):
the floor of the exact value, as an integer (all values in `i32` range). -/
def ffloor (a : F32) : Int :=
  if 0 ≤ a.e then a.m * 2 ^ a.e.toNat else Int.fdiv a.m (2 ^ (-a.e).toNat)

/-- `f32::ceil` followed by the cast to `i32`. -/
def fceil (a : F32) : Int := -(ffloor ⟨-a.m, a.e⟩)

def f0 : F32 := ⟨0, 0⟩

/-- `1.0f32`. -/
def lit1 : F32 := ⟨8388608, -23⟩

/-- `2.0f32` (the `vsize` used in the counterexample). -/
def lit2 : F32 := ⟨8388608, -22⟩

/-- `G = 48.0` (`skeleton.rs`). -/
def G : F32 := ⟨12582912, -18⟩

/-- `STAIRCLIMB_SPEED = 15.0` (`skeleton.rs`). -/
def STAIRCLIMB_SPEED : F32 := ⟨15728640, -20⟩

/-- The binary32 nearest to the literal `0.05` (the air-drag `damp`):
`13421773 * 2^-28`; see `lit005_nearest`. -/
def lit005 : F32 := ⟨13421773, -28⟩

/-- The binary32 nearest to the literal `2.1` (the stair-climb probe height):
`8808038 * 2^-22`; see `lit21_nearest`. -/
def lit21 : F32 := ⟨8808038, -22⟩

/-- `vec3`: three `f32` components. -/
structure Vec3 where
  x : F32
  y : F32
  z : F32
deriving DecidableEq, Repr

def v3add (a b : Vec3) : Vec3 := ⟨fadd a.x b.x, fadd a.y b.y, fadd a.z b.z⟩

def v3sub (a b : Vec3) : Vec3 := ⟨fsub a.x b.x, fsub a.y b.y, fsub a.z b.z⟩

/-- `v * s`: vector times scalar, componentwise. -/
def v3scale (v : Vec3) (s : F32) : Vec3 := ⟨fmul v.x s, fmul v.y s, fmul v.z s⟩

/-- `v / 2^k` componentwise (used for `delta / 16.0` and `hsize / 2.0`). -/
def v3divPow2 (v : Vec3) (k : Nat) : Vec3 :=
  ⟨fdivPow2 v.x k, fdivPow2 v.y k, fdivPow2 v.z k⟩

/-- `BoundingBox<f32>` (`raytrace/src/boundingbox.rs`). -/
structure BoundingBox where
  min : Vec3
  max : Vec3
deriving DecidableEq, Repr

/-- Inclusive integer range `lo..=hi` as a list. -/
def intsIncl (lo hi : Int) : List Int :=
  (List.range (hi + 1 - lo).toNat).map fun i => lo + i

/-- `Voxels::bumps` (`voxels.rs` 304–319): floor/ceil the bounds, then scan
every voxel position in the inclusive integer box for a non-empty voxel. -/
def bumps (w : Voxels) (bounds : BoundingBox) : Bool :=
  let iminx := ffloor bounds.min.x
  let iminy := ffloor bounds.min.y
  let iminz := ffloor bounds.min.z
  let imaxx := fceil bounds.max.x
  let imaxy := fceil bounds.max.y
  let imaxz := fceil bounds.max.z
  (intsIncl iminz imaxz).any fun iz =>
    (intsIncl iminy imaxy).any fun iy =>
      (intsIncl iminx imaxx).any fun ix =>
        !(w.at_ (IVec3.mk ix iy iz) == 0)

/-- `Skeleton` (`skeleton.rs`).  `orientation` plays no role in `tick` and
is omitted. -/
structure Skeleton where
  hsize : F32
  vsize : F32
  position : Vec3
  velocity : Vec3
deriving DecidableEq, Repr

namespace Skeleton

/-- `Skeleton::bounds_for`: `min = pos - (hsize/2, 0, hsize/2)`,
`max = pos + (hsize/2, vsize, hsize/2)`. -/
def bounds_for (s : Skeleton) (pos : Vec3) : BoundingBox :=
  ⟨v3sub pos ⟨fdivPow2 s.hsize 1, f0, fdivPow2 s.hsize 1⟩,
   v3add pos ⟨fdivPow2 s.hsize 1, s.vsize, fdivPow2 s.hsize 1⟩⟩

/-- `Skeleton::pos_ok`: not bumping into blocks. -/
def pos_ok (s : Skeleton) (w : Voxels) (pos : Vec3) : Bool :=
  !(bumps w (s.bounds_for pos))

/-- `Skeleton::tick_gravity`: `velocity[Y] -= g * dt` then
`velocity *= 1.0 - 0.05 * dt`. -/
def tick_gravity (s : Skeleton) (g dt : F32) : Skeleton :=
  let v1 : Vec3 := ⟨s.velocity.x, fsub s.velocity.y (fmul g dt), s.velocity.z⟩
  { s with velocity := v3scale v1 (fsub lit1 (fmul lit005 dt)) }

/-- The x-axis move of one `tick_move` substep (`dx = (sub_delta.x, 0, 0)`):
advance if `pos_ok`, else record `xbump`.  State is (skeleton, xbump, zbump). -/
def substepX (w : Voxels) (sub_delta : Vec3) (st : Skeleton × Bool × Bool) :
    Skeleton × Bool × Bool :=
  if st.1.pos_ok w (v3add st.1.position ⟨sub_delta.x, f0, f0⟩) then
    (Skeleton.mk st.1.hsize st.1.vsize (v3add st.1.position ⟨sub_delta.x, f0, f0⟩)
      st.1.velocity, st.2.1, st.2.2)
  else (st.1, true, st.2.2)

/-- The y-axis move of one `tick_move` substep (`dy = (0, sub_delta.y, 0)`):
advance if `pos_ok`, else zero the vertical velocity. -/
def substepY (w : Voxels) (sub_delta : Vec3) (st : Skeleton × Bool × Bool) :
    Skeleton × Bool × Bool :=
  if st.1.pos_ok w (v3add st.1.position ⟨f0, sub_delta.y, f0⟩) then
    (Skeleton.mk st.1.hsize st.1.vsize (v3add st.1.position ⟨f0, sub_delta.y, f0⟩)
      st.1.velocity, st.2.1, st.2.2)
  else
    (Skeleton.mk st.1.hsize st.1.vsize st.1.position
      ⟨st.1.velocity.x, f0, st.1.velocity.z⟩, st.2.1, st.2.2)

/-- The z-axis move of one `tick_move` substep (`dz = (0, 0, sub_delta.z)`):
advance if `pos_ok`, else record `zbump`. -/
def substepZ (w : Voxels) (sub_delta : Vec3) (st : Skeleton × Bool × Bool) :
    Skeleton × Bool × Bool :=
  if st.1.pos_ok w (v3add st.1.position ⟨f0, f0, sub_delta.z⟩) then
    (Skeleton.mk st.1.hsize st.1.vsize (v3add st.1.position ⟨f0, f0, sub_delta.z⟩)
      st.1.velocity, st.2.1, st.2.2)
  else (st.1, st.2.1, true)

/-- One iteration of the 16-step loop in `Skeleton::tick_move`. -/
def substep (w : Voxels) (sub_delta : Vec3) (st : Skeleton × Bool × Bool) :
    Skeleton × Bool × Bool :=
  substepZ w sub_delta (substepY w sub_delta (substepX w sub_delta st))

/-- The 16 per-axis collision substeps of `Skeleton::tick_move`. -/
def move_substeps (s : Skeleton) (w : Voxels) (sub_delta : Vec3) :
    Skeleton × Bool × Bool :=
  (List.range 16).foldl (fun st _ => substep w sub_delta st) (s, false, false)

/-- The stair-climbing branch at the end of `Skeleton::tick_move`, applied to
the pre-loop `delta` and the loop result `(skeleton, xbump, zbump)`: if a
horizontal axis bumped and the skeleton is not falling, probe the position
displaced by `(delta.x, 2.1, delta.z)`; if clear, keep moving horizontally by
the full `delta`, otherwise zero the bumped velocity components. -/
def tick_climb (w : Voxels) (delta : Vec3) (st : Skeleton × Bool × Bool) : Skeleton :=
  if (st.2.1 || st.2.2) && fle f0 st.1.velocity.y then
    if st.1.pos_ok w (v3add st.1.position ⟨delta.x, lit21, delta.z⟩) then
      { st.1 with position := v3add st.1.position ⟨delta.x, f0, delta.z⟩ }
    else
      { st.1 with velocity := ⟨if st.2.1 then f0 else st.1.velocity.x, st.1.velocity.y,
          if st.2.2 then f0 else st.1.velocity.z⟩ }
  else st.1

/-- `Skeleton::tick_move`: `delta = velocity * dt`, `sub_delta = delta / 16.0`,
16 per-axis collision substeps, then the stair-climbing branch. -/
def tick_move (s : Skeleton) (w : Voxels) (dt : F32) : Skeleton :=
  tick_climb w (v3scale s.velocity dt)
    (s.move_substeps w (v3divPow2 (v3scale s.velocity dt) 4))

/-- `Skeleton::tick_rescue`: if stuck inside a block, move up by
`STAIRCLIMB_SPEED * dt`. -/
def tick_rescue (s : Skeleton) (w : Voxels) (dt : F32) : Skeleton :=
  if s.pos_ok w s.position then s
  else { s with position := ⟨s.position.x, fadd s.position.y (fmul STAIRCLIMB_SPEED dt),
      s.position.z⟩ }

/-- `Skeleton::tick` (the sound-effect side channel reads the state but does
not affect it, and is omitted). -/
def tick (s : Skeleton) (w : Voxels) (dt : F32) : Skeleton :=
  tick_rescue (tick_move (tick_gravity s G dt) w dt) w dt

end Skeleton

/-- Counterexample world: solid unit voxels at `(1,0,0)`, `(3,0,0)` and
`(-1,-1,0)`. -/
def cworld : Voxels :=
  ((Voxels.empty.set_voxel ⟨1, 0, 0⟩ 1).set_voxel ⟨3, 0, 0⟩ 1).set_voxel ⟨-1, -1, 0⟩ 1

/-- Counterexample skeleton: a 1×2 box at `(-0.625, 0, 0.5)` moving at
`2^30` units/s in x. -/
def cskel : Skeleton :=
  { hsize := lit1
    vsize := lit2
    position := ⟨⟨-10485760, -24⟩, f0, ⟨8388608, -24⟩⟩
    velocity := ⟨⟨8388608, 7⟩, f0, f0⟩ }

/-- Counterexample time step: `dt = 2^-28` seconds. -/
def cdt : F32 := ⟨8388608, -51⟩

end Phys


namespace Phys

/-- Whole-pipeline stage value: the skeleton after `tick_gravity` in the
counterexample run. -/
def cskel1 : Skeleton := ⟨lit1, lit2, cskel.position, ⟨⟨8388608, 7⟩, ⟨-12582912, -46⟩, f0⟩⟩

/-- Stage value: `delta = velocity * dt = (4, -3·2^-52, 0)`. -/
def cdelta : Vec3 := ⟨⟨8388608, -21⟩, ⟨-12582912, -74⟩, f0⟩

/-- Stage value: `sub_delta = delta / 16 = (0.25, -3·2^-56, 0)`. -/
def csubd : Vec3 := ⟨⟨8388608, -25⟩, ⟨-12582912, -78⟩, f0⟩

/-- Stage value: the loop fixed point — the x substep is blocked by voxel
`(1,0,0)` and the y substep by `(-1,-1,0)`, which zeroes the y velocity. -/
def cskelA : Skeleton := ⟨lit1, lit2, cskel.position, ⟨⟨8388608, 7⟩, f0, f0⟩⟩

/-- Stage value: after the stair-climb teleport to `(3.375, 0, 0.5)`. -/
def cskel2 : Skeleton :=
  ⟨lit1, lit2, ⟨⟨14155776, -22⟩, f0, ⟨8388608, -24⟩⟩, ⟨⟨8388608, 7⟩, f0, f0⟩⟩

/-- Stage value: after `tick_rescue` lifts the position to `y = 15·2^-28`. -/
def cskel3 : Skeleton :=
  ⟨lit1, lit2, ⟨⟨14155776, -22⟩, ⟨15728640, -48⟩, ⟨8388608, -24⟩⟩, ⟨⟨8388608, 7⟩, f0, f0⟩⟩

lemma foldl_substep_fix (w : Voxels) (d : Vec3) (b : Skeleton × Bool × Bool)
    (hb : Skeleton.substep w d b = b) :
    ∀ l : List Nat, l.foldl (fun st _ => Skeleton.substep w d st) b = b := by
  intro l
  induction l with
  | nil => rfl
  | cons a t ih =>
      rw [List.foldl_cons, hb]
      exact ih

lemma pos_ok_substepX (w : Voxels) (d : Vec3) (st : Skeleton × Bool × Bool)
    (h : (st.1).pos_ok w (st.1).position = true) :
    ((Skeleton.substepX w d st).1).pos_ok w ((Skeleton.substepX w d st).1).position = true := by
  unfold Skeleton.substepX
  split
  · rename_i hc
    exact hc
  · exact h

lemma pos_ok_substepY (w : Voxels) (d : Vec3) (st : Skeleton × Bool × Bool)
    (h : (st.1).pos_ok w (st.1).position = true) :
    ((Skeleton.substepY w d st).1).pos_ok w ((Skeleton.substepY w d st).1).position = true := by
  unfold Skeleton.substepY
  split
  · rename_i hc
    exact hc
  · exact h

lemma pos_ok_substepZ (w : Voxels) (d : Vec3) (st : Skeleton × Bool × Bool)
    (h : (st.1).pos_ok w (st.1).position = true) :
    ((Skeleton.substepZ w d st).1).pos_ok w ((Skeleton.substepZ w d st).1).position = true := by
  unfold Skeleton.substepZ
  split
  · rename_i hc
    exact hc
  · exact h

lemma pos_ok_substep (w : Voxels) (d : Vec3) (st : Skeleton × Bool × Bool)
    (h : (st.1).pos_ok w (st.1).position = true) :
    ((Skeleton.substep w d st).1).pos_ok w ((Skeleton.substep w d st).1).position = true := by
  simp only [Skeleton.substep]
  exact pos_ok_substepZ w d _ (pos_ok_substepY w d _ (pos_ok_substepX w d st h))

lemma pos_ok_foldl_substep (w : Voxels) (d : Vec3) (l : List Nat) :
    ∀ st : Skeleton × Bool × Bool, (st.1).pos_ok w (st.1).position = true →
      ((l.foldl (fun st _ => Skeleton.substep w d st) st).1).pos_ok w
        ((l.foldl (fun st _ => Skeleton.substep w d st) st).1).position = true := by
  induction l with
  | nil => intro st h; exact h
  | cons a t ih =>
      intro st h
      rw [List.foldl_cons]
      exact ih _ (pos_ok_substep w d st h)

end Phys

set_option maxRecDepth 4096 in
/-- C4: refuted.  A skeleton whose bounding box is clear at the start can end
`Skeleton::tick` inside a block.  With `dt = 2^-28` the air-drag factor
`1.0 - 0.05 * dt` rounds to exactly `1.0`; all x substeps are blocked by the
voxel at `(1,0,0)` (setting `xbump`) and the y substep by `(-1,-1,0)` (zeroing
the vertical velocity), so the stair-climbing branch fires.  It verifies only
the probe displaced by `(delta.x, 2.1, delta.z)` and then teleports the
skeleton by the full horizontal `delta = (4, 0, 0)` into the untested voxel
column at `(3,0,0)`, and `tick_rescue` raises the position by only
`15 * dt = 15·2^-28`, far too little to clear the block — the final position
still bumps. -/
theorem C4_counterexample :
    Phys.Skeleton.pos_ok Phys.cskel Phys.cworld Phys.cskel.position = true ∧
    Phys.Skeleton.pos_ok (Phys.Skeleton.tick Phys.cskel Phys.cworld Phys.cdt) Phys.cworld
      (Phys.Skeleton.tick Phys.cskel Phys.cworld Phys.cdt).position = false := by
  have h1 : Phys.Skeleton.tick_gravity Phys.cskel Phys.G Phys.cdt = Phys.cskel1 := by decide
  have hd : Phys.v3scale Phys.cskel1.velocity Phys.cdt = Phys.cdelta := by decide
  have hsd : Phys.v3divPow2 Phys.cdelta 4 = Phys.csubd := by decide
  have hs1 : Phys.Skeleton.substep Phys.cworld Phys.csubd (Phys.cskel1, false, false)
      = (Phys.cskelA, true, false) := by decide
  have hs2 : Phys.Skeleton.substep Phys.cworld Phys.csubd (Phys.cskelA, true, false)
      = (Phys.cskelA, true, false) := by decide
  have hms : Phys.Skeleton.move_substeps Phys.cskel1 Phys.cworld Phys.csubd
      = (Phys.cskelA, true, false) := by
    have hr : List.range 16 = 0 :: [1, 2, 3, 4, 5, 6, 7, 8, 9, 10, 11, 12, 13, 14, 15] := by
      decide
    rw [Phys.Skeleton.move_substeps, hr, List.foldl_cons, hs1]
    exact Phys.foldl_substep_fix Phys.cworld Phys.csubd _ hs2 _
  have hclimb : Phys.Skeleton.tick_climb Phys.cworld Phys.cdelta (Phys.cskelA, true, false)
      = Phys.cskel2 := by decide
  have hmv : Phys.Skeleton.tick_move Phys.cskel1 Phys.cworld Phys.cdt = Phys.cskel2 := by
    rw [Phys.Skeleton.tick_move, hd, hsd, hms, hclimb]
  have hres : Phys.Skeleton.tick_rescue Phys.cskel2 Phys.cworld Phys.cdt = Phys.cskel3 := by
    decide
  have htick : Phys.Skeleton.tick Phys.cskel Phys.cworld Phys.cdt = Phys.cskel3 := by
    rw [Phys.Skeleton.tick, h1, hmv, hres]
  constructor
  · decide
  · rw [htick]; decide

set_option maxRecDepth 4096 in
/-- C4 (amended): for every skeleton whose bounding box at the starting
position does not bump the voxel world, the position reached after gravity and
the 16 per-axis collision movement substeps of `tick_move` still satisfies
`!voxels.bumps(bounds_for(position))` — each substep only moves to a position
that passed `pos_ok`.  (The subsequent stair-climbing branch breaks this; see
the counterexample.) -/
theorem C4_substeps_no_bump (s : Phys.Skeleton) (w : Voxels) (dt : Phys.F32)
    (h : s.pos_ok w s.position = true) :
    (((s.tick_gravity Phys.G dt).move_substeps w
        (Phys.v3divPow2 (Phys.v3scale (s.tick_gravity Phys.G dt).velocity dt) 4)).1).pos_ok w
      (((s.tick_gravity Phys.G dt).move_substeps w
        (Phys.v3divPow2 (Phys.v3scale (s.tick_gravity Phys.G dt).velocity dt) 4)).1).position
      = true := by
  have h1 : (s.tick_gravity Phys.G dt).pos_ok w (s.tick_gravity Phys.G dt).position = true := h
  simp only [Phys.Skeleton.move_substeps]
  exact Phys.pos_ok_foldl_substep w _ (List.range 16) _ h1

set_option maxRecDepth 4096 in
/-- Witness for the amended C4 theorem at the counterexample inputs: the
16-substep phase itself leaves the skeleton in a non-bumping position. -/
theorem C4_substeps_no_bump_witness :
    (((Phys.cskel.tick_gravity Phys.G Phys.cdt).move_substeps Phys.cworld
        (Phys.v3divPow2 (Phys.v3scale (Phys.cskel.tick_gravity Phys.G Phys.cdt).velocity
          Phys.cdt) 4)).1).pos_ok Phys.cworld
      (((Phys.cskel.tick_gravity Phys.G Phys.cdt).move_substeps Phys.cworld
        (Phys.v3divPow2 (Phys.v3scale (Phys.cskel.tick_gravity Phys.G Phys.cdt).velocity
          Phys.cdt) 4)).1).position
      = true :=
  C4_substeps_no_bump Phys.cskel Phys.cworld Phys.cdt (by decide)


end Scathanna
